import Mathlib

/-!
Verification development for the incremental tree-reconciliation engine of
`src/testTree.ts` (class `TestTree`).  The TypeScript code is shallowly
embedded: mutable VS Code `TestItem` trees become immutable `TestItem` values
that are threaded explicitly, the keyed ordered `TestItemCollection` becomes a
`List TestItem` with id-keyed operations, and JS `Map`s become association
lists with insertion-order iteration and last-write-wins semantics (exactly
the semantics of JS `Map`).
-/

set_option maxHeartbeats 1600000

/-! ## String primitives

JS `String.prototype.startsWith` and `String.prototype.substring(n)`, spelled
out on the underlying character sequences so that they can be reasoned about
with list lemmas.  They compute the same functions as `String.startsWith` and
`String.drop`. -/

/-- JS `s.startsWith(pre)`. -/
def strStartsWith (s pre : String) : Bool := pre.data.isPrefixOf s.data

/-- JS `s.substring(n)`: drop the first `n` characters of `s`. -/
def strDropLen (s : String) (n : Nat) : String := String.mk (s.data.drop n)

/-! ## Association-list maps

JS `Map` semantics: iteration in key-insertion order; `set` of an existing key
keeps its position and overwrites the value; `delete` removes the entry. -/

/-- JS `map.get(k)` (as an `Option`). -/
def lookupEntry (m : List (String × α)) (k : String) : Option α :=
  (m.find? (fun e => e.1 == k)).map (fun e => e.2)

/-- JS `map.set(k, v)`. -/
def setEntry (m : List (String × α)) (k : String) (v : α) : List (String × α) :=
  if m.any (fun e => e.1 == k) then m.map (fun e => if e.1 == k then (k, v) else e)
  else m ++ [(k, v)]

/-- JS `map.delete(k)` (and `Set.prototype.delete` on a set of keys). -/
def eraseEntry (m : List (String × α)) (k : String) : List (String × α) :=
  m.filter (fun e => e.1 != k)

/-- JS `new Map(entries)`: insert the entries left to right. -/
def mapFromList (l : List (String × α)) : List (String × α) :=
  l.foldl (fun m e => setEntry m e.1 e.2) []

/-! ## Data model

`TreeItem` embeds `upstream.TreeItem` (the logical tree computed by the
provider, `upstream/testTree.ts`): `id`, `title`, `kind` (`'root' | 'group' |
'case' | 'test'`), `subKind` (`'file' | 'folder'` for groups, `""` otherwise),
`location` (`file`, `line`, `column`), `tags` (for case items), the id of the
attached `test` object when present, and ordered `children`. -/

/-- Location of a logical tree item (`reporterTypes.Location`). -/
structure ULocation where
  file : String
  line : Int
  column : Int
deriving DecidableEq

/-- Logical tree node (`upstream.TreeItem`). -/
inductive TreeItem : Type where
  | mk (id title kind subKind : String) (location : ULocation) (tags : List String)
       (testId : Option String) (children : List TreeItem)

def TreeItem.id : TreeItem → String
  | .mk i _ _ _ _ _ _ _ => i

def TreeItem.title : TreeItem → String
  | .mk _ t _ _ _ _ _ _ => t

def TreeItem.kind : TreeItem → String
  | .mk _ _ k _ _ _ _ _ => k

def TreeItem.subKind : TreeItem → String
  | .mk _ _ _ s _ _ _ _ => s

def TreeItem.location : TreeItem → ULocation
  | .mk _ _ _ _ l _ _ _ => l

def TreeItem.tags : TreeItem → List String
  | .mk _ _ _ _ _ t _ _ => t

def TreeItem.testId : TreeItem → Option String
  | .mk _ _ _ _ _ _ t _ => t

def TreeItem.children : TreeItem → List TreeItem
  | .mk _ _ _ _ _ _ _ c => c

@[simp] theorem TreeItem.id_mk_eq (i t k s l tg te c) : (TreeItem.mk i t k s l tg te c).id = i := rfl

@[simp] theorem TreeItem.title_mk (i t k s l tg te c) : (TreeItem.mk i t k s l tg te c).title = t := rfl

@[simp] theorem TreeItem.kind_mk (i t k s l tg te c) : (TreeItem.mk i t k s l tg te c).kind = k := rfl

@[simp] theorem TreeItem.subKind_mk (i t k s l tg te c) : (TreeItem.mk i t k s l tg te c).subKind = s := rfl

@[simp] theorem TreeItem.location_mk (i t k s l tg te c) : (TreeItem.mk i t k s l tg te c).location = l := rfl

@[simp] theorem TreeItem.tags_mk_eq (i t k s l tg te c) : (TreeItem.mk i t k s l tg te c).tags = tg := rfl

@[simp] theorem TreeItem.testId_mk (i t k s l tg te c) : (TreeItem.mk i t k s l tg te c).testId = te := rfl

@[simp] theorem TreeItem.children_mk_eq (i t k s l tg te c) : (TreeItem.mk i t k s l tg te c).children = c := rfl

/-- Playwright config of a model (`TestConfig`): only the fields the tree uses. -/
structure TestConfig where
  configFile : String
  workspaceFolder : String
deriving DecidableEq

/-- A test model (`TestModel`): only the fields the tree uses. -/
structure TestModel where
  config : TestConfig
deriving DecidableEq

/-- A project of a model (`TestProject`); `config` stands for `project.model.config`. -/
structure TestProject where
  name : String
  isEnabled : Bool
  config : TestConfig
deriving DecidableEq

/-- Error reported for a config (`reporterTypes.TestError`). -/
structure TestError where
  message : Option String
  value : Option String
  location : Option ULocation
deriving DecidableEq

/-- VS Code `TestTag`. -/
structure TestTag where
  id : String
deriving DecidableEq

/-- VS Code `Range` built as `new Range(startLine, startCol, endLine, endCol)`. -/
structure VSRange where
  startLine : Int
  startCol : Int
  endLine : Int
  endCol : Int
deriving DecidableEq

/-- Side-channel attachment of a presentation node: the hidden-symbol
back-reference (`testTreeItemSymbol` / `disabledProjectSymbol` /
`configErrorSymbol`), mutually exclusive. -/
inductive Backref : Type where
  | none : Backref
  | treeItem (u : TreeItem) : Backref
  | disabledProject (p : TestProject) : Backref
  | configError (e : TestError) : Backref

/-- Scalar attributes of a VS Code `TestItem` (everything but `children`). -/
structure TestItemData where
  id : String
  label : String
  uri : Option String
  range : Option VSRange
  tags : List TestTag
  canResolveChildren : Bool
  sortText : Option String
  description : Option String
  error : Option String
  backref : Backref

/-- VS Code `TestItem` together with its ordered, id-keyed children collection. -/
inductive TestItem : Type where
  | mk (data : TestItemData) (children : List TestItem)

def TestItem.data : TestItem → TestItemData
  | .mk d _ => d

def TestItem.children : TestItem → List TestItem
  | .mk _ c => c

def TestItem.id (t : TestItem) : String := t.data.id

def TestItem.label (t : TestItem) : String := t.data.label

def TestItem.uri (t : TestItem) : Option String := t.data.uri

def TestItem.range (t : TestItem) : Option VSRange := t.data.range

def TestItem.tags (t : TestItem) : List TestTag := t.data.tags

def TestItem.backref (t : TestItem) : Backref := t.data.backref

/-- Replace the children collection of an item (in-place mutation in JS). -/
def TestItem.withChildren : TestItem → List TestItem → TestItem
  | .mk d _, c => .mk d c

@[simp] theorem TestItem.data_mk (d c) : (TestItem.mk d c).data = d := rfl

@[simp] theorem TestItem.children_mk (d c) : (TestItem.mk d c).children = c := rfl

@[simp] theorem TestItem.id_mk (d c) : (TestItem.mk d c).id = d.id := rfl

@[simp] theorem TestItem.withChildren_mk (d c c') : (TestItem.mk d c).withChildren c' = .mk d c' := rfl

@[simp] theorem TestItem.id_withChildren (t : TestItem) (c : List TestItem) :
    (t.withChildren c).id = t.id := by
  cases t <;> rfl

@[simp] theorem TestItem.children_withChildren (t : TestItem) (c : List TestItem) :
    (t.withChildren c).children = c := by
  cases t <;> rfl

@[simp] theorem TestItem.data_withChildren (t : TestItem) (c : List TestItem) :
    (t.withChildren c).data = t.data := by
  cases t <;> rfl

/-! ## Item setters (in-place attribute mutations in JS) -/

def TestItem.setBackref : TestItem → Backref → TestItem
  | .mk d c, b => .mk { d with backref := b } c

def TestItem.setTags : TestItem → List TestTag → TestItem
  | .mk d c, t => .mk { d with tags := t } c

def TestItem.setRange : TestItem → Option VSRange → TestItem
  | .mk d c, r => .mk { d with range := r } c

def TestItem.setCanResolveChildren : TestItem → Bool → TestItem
  | .mk d c, b => .mk { d with canResolveChildren := b } c

def TestItem.setSortText : TestItem → Option String → TestItem
  | .mk d c, s => .mk { d with sortText := s } c

def TestItem.setDescription : TestItem → Option String → TestItem
  | .mk d c, s => .mk { d with description := s } c

def TestItem.setError : TestItem → Option String → TestItem
  | .mk d c, s => .mk { d with error := s } c

/-- VS Code `TestController.createTestItem(id, label, uri?)`: fresh item with
default attributes and an empty children collection. -/
def createTestItem (id label : String) (uri : Option String) : TestItem :=
  .mk { id := id, label := label, uri := uri, range := Option.none, tags := [],
        canResolveChildren := false, sortText := Option.none, description := Option.none,
        error := Option.none, backref := .none } []

/-! ## Keyed ordered children collection (VS Code `TestItemCollection`) -/

/-- `collection.get(id)`. -/
def collectionGet (cs : List TestItem) (id : String) : Option TestItem :=
  cs.find? (fun c => c.id == id)

/-- `collection.delete(id)`: removes the item with that id. -/
def collectionDelete (cs : List TestItem) (id : String) : List TestItem :=
  cs.filter (fun c => c.id != id)

/-- `collection.add(item)`: replaces an existing item with the same id in
place, otherwise appends. -/
def collectionAdd (cs : List TestItem) (item : TestItem) : List TestItem :=
  if cs.any (fun c => c.id == item.id) then cs.map (fun c => if c.id == item.id then item else c)
  else cs ++ [item]

/-- In-place mutation of the item with the given id (JS mutates the object
that is aliased by the collection). -/
def updateById (cs : List TestItem) (id : String) (item : TestItem) : List TestItem :=
  cs.map (fun c => if c.id == id then item else c)

/-- In-place mutation of the children of the item with the given id. -/
def updateChildrenById (cs : List TestItem) (id : String) (f : List TestItem → List TestItem) :
    List TestItem :=
  cs.map (fun c => if c.id == id then c.withChildren (f c.children) else c)

/-! ## Sync algorithm -/

/-- `areEqualTags` (testTree.ts lines 306–315). -/
def areEqualTags (uTags : List String) (vsTags : List TestTag) : Bool :=
  if uTags.length != vsTags.length then false
  else vsTags.all (fun tag => uTags.contains tag.id)

/-- `this._idWithGeneration(id)` (line 301–303). -/
def idWithGeneration (gen id : String) : String := gen ++ id

/-- Attribute synchronization of one logical child onto its presentation
child (testTree.ts lines 164–173): re-attach the back-reference, reassign
tags for case nodes when the tag sets differ, and update the range.  The
`else if` branch is kept exactly as in the source. -/
def syncChildAttrs (uChild : TreeItem) (vsChild0 : TestItem) : TestItem :=
  let vsChild := vsChild0.setBackref (.treeItem uChild)
  let vsChild := if uChild.kind == "case" && !areEqualTags uChild.tags vsChild.tags then
      vsChild.setTags (uChild.tags.map TestTag.mk)
    else vsChild
  let hasLocation := uChild.location.line != 0 || uChild.location.column != 0
  if hasLocation && (match vsChild.range with
      | Option.none => true
      | some r => r.startLine + 1 != uChild.location.line) then
    let line := uChild.location.line
    vsChild.setRange (some ⟨max (line - 1) 0, 0, line, 0⟩)
  else if hasLocation && (vsChild.range).isNone then
    vsChild.setRange Option.none
  else vsChild

theorem mem_setEntry_sub {α : Type} {m : List (String × α)} {k : String} {v : α} {e : String × α}
    (h : e ∈ setEntry m k v) : e ∈ m ∨ e = (k, v) := by
  unfold setEntry at h
  split at h
  · rcases List.mem_map.1 h with ⟨e', he', heq⟩
    by_cases hk : (e'.1 == k) = true
    · simp only [hk, if_true] at heq
      exact Or.inr heq.symm
    · simp only [hk, if_false] at heq
      exact Or.inl (heq ▸ he')
  · rcases List.mem_append.1 h with h' | h'
    · exact Or.inl h'
    · simp at h'
      exact Or.inr h'

theorem mem_mapFromList_sub {α : Type} {l : List (String × α)} {e : String × α}
    (h : e ∈ mapFromList l) : e ∈ l := by
  have H : ∀ acc : List (String × α), e ∈ l.foldl (fun m e => setEntry m e.1 e.2) acc →
      e ∈ acc ∨ e ∈ l := by
    clear h
    induction l with
    | nil => intro acc h'; exact Or.inl h'
    | cons a t ih =>
      intro acc h'
      rw [List.foldl_cons] at h'
      rcases ih (setEntry acc a.1 a.2) h' with h'' | h''
      · rcases mem_setEntry_sub h'' with h3 | h3
        · exact Or.inl h3
        · right; rw [h3]; exact List.mem_cons_self a t
      · right; exact List.mem_cons_of_mem a h''
  rcases H [] h with h' | h'
  · simp at h'
  · exact h'

theorem mem_vals_of_mapFromList_map {us : List TreeItem} {e : String × TreeItem}
    (h : e ∈ mapFromList (us.map (fun c => (c.id, c)))) : e.2 ∈ us := by
  have h' := mem_mapFromList_sub h
  rcases List.mem_map.1 h' with ⟨u, hu, heq⟩
  have : e.2 = u := by rw [← heq]
  rw [this]; exact hu

theorem TreeItem.sizeOf_lt_of_children (u : TreeItem) : sizeOf u.children < sizeOf u := by
  cases u with
  | mk i t k s l tg te c => simp [TreeItem.children]

/-- The id-keyed map of the logical children,
`new Map(uChildren.map(c => [c.id, c]))` (line 138). -/
def uPairsOf (us : List TreeItem) : List (String × TreeItem) :=
  mapFromList (us.map (fun c => (c.id, c)))

/-- The stripped-id-keyed map of the presentation children that carry the
active generation prefix (lines 139–143). -/
def vsPairsOf (gen : String) (vsChildren : List TestItem) : List (String × TestItem) :=
  mapFromList (vsChildren.filterMap (fun c =>
    if strStartsWith c.id gen then some (strDropLen c.id gen.length, c) else Option.none))

/-- The presentation child freshly created for logical child `u` under key
`k` (lines 157–160): generation-prefixed id, title, file uri, and the
lazy-population flag for childless file groups. -/
def newChildBase (gen : String) (k : String) (u : TreeItem) : TestItem :=
  let vsChild := createTestItem (idWithGeneration gen k) u.title (some u.location.file)
  -- Allow lazy-populating file items created via listFiles.
  if u.kind == "group" && u.subKind == "file" && u.children.isEmpty then
    vsChild.setCanResolveChildren true
  else vsChild

/-- Phase 2 of `_syncSuite` (lines 146–151): for every key of the iteration
snapshot `E` (in JS, `vsChildrenById.keys()`) that is not a logical child id,
delete the presentation child with the generation-prefixed key and drop the
map entry. -/
def removeDeletedChildren (gen : String) (U : List (String × TreeItem))
    (p0 : List TestItem × List (String × TestItem)) (E : List (String × TestItem)) :
    List TestItem × List (String × TestItem) :=
  E.foldl (fun (p : List TestItem × List (String × TestItem)) e =>
    if U.any (fun e' => e'.1 == e.1) then p
    else (collectionDelete p.1 (idWithGeneration gen e.1), eraseEntry p.2 e.1)) p0

/-- Phase 3 of `_syncSuite` (lines 154–174): for every logical child, look up
or create its presentation child and synchronize its attributes; in JS the
`vsChild` object is aliased by both the collection and the local map, so the
in-place attribute mutations are reflected into both. -/
def addNewChildren (gen : String) (U : List (String × TreeItem))
    (p1 : List TestItem × List (String × TestItem)) :
    List TestItem × List (String × TestItem) :=
  U.foldl (fun (p : List TestItem × List (String × TestItem)) e =>
    match lookupEntry p.2 e.1 with
    | some vsChild =>
      let vsChild' := syncChildAttrs e.2 vsChild
      (updateById p.1 vsChild.id vsChild', setEntry p.2 e.1 vsChild')
    | Option.none =>
      let vsChild := newChildBase gen e.1 e.2
      let vsChild' := syncChildAttrs e.2 vsChild
      (collectionAdd p.1 vsChild', setEntry p.2 e.1 vsChild')) p1

/-- `TestTree._syncSuite` on the children collections (testTree.ts lines
135–181): build the two id maps, remove deleted children, add new children
and sync attributes, then recurse; `vsChildrenById.get(id)` of phase 4 is the
collection item with id `gen ++ id`, mutated in place. -/
def syncChildren (gen : String) (uChildren : List TreeItem) (vsChildren : List TestItem) :
    List TestItem :=
  let uChildrenById := uPairsOf uChildren
  let vsChildrenById := vsPairsOf gen vsChildren
  -- Remove deleted children.
  let p1 := removeDeletedChildren gen uChildrenById (vsChildren, vsChildrenById) vsChildrenById
  -- Add new children.
  let p2 := addNewChildren gen uChildrenById p1
  -- Sync children.
  uChildrenById.attach.foldl (fun cs e =>
    updateChildrenById cs (idWithGeneration gen e.1.1) (fun cc => syncChildren gen e.1.2.children cc))
    p2.1
termination_by sizeOf uChildren
decreasing_by
  have h2 : e.1.2 ∈ uChildren := mem_vals_of_mapFromList_map e.2
  have h3 := List.sizeOf_lt_of_mem h2
  have h4 := TreeItem.sizeOf_lt_of_children e.1.2
  omega

/-- `TestTree._syncSuite(uItem, vsItem)`: synchronize the children of the
presentation item with the children of the logical item. -/
def syncSuite (gen : String) (uItem : TreeItem) (vsItem : TestItem) : TestItem :=
  vsItem.withChildren (syncChildren gen uItem.children vsItem.children)

/-! ## External path/uri helpers

These live outside this repository's sources (`./utils`, node `path`), so
they are modelled from the spec. -/

/-- Modelled from the spec: `uriToPath` (from `./utils`, not among the
sources) maps a folder/file URI to its file-system path; URIs are identified
with their paths in this model. -/
def uriToPath (uri : String) : String := uri

/-- Modelled from the spec: `normalizePath` (from `./utils`, not among the
sources) normalizes a file-system path; identity in this model. -/
def normalizePath (p : String) : String := p

/-- Modelled from the spec: node `path.relative(from, to)` renders `to`
relative to `from`.  It only feeds human-readable descriptions, which no
claim constrains, so the model keeps `to`. -/
def pathRelative (base p : String) : String := p

/-- Modelled from the spec: node `path.basename`, the final path segment
(the scope's base directory name). -/
def pathBasename (p : String) : String :=
  String.mk ((p.data.reverse.takeWhile (fun c => c != '/')).reverse)

/-! ## Auxiliary section synchronizers -/

/-- Synthetic id of a disabled project entry (testTree.ts line 194). -/
def disabledProjectId (project : TestProject) : String :=
  "[disabled] " ++ project.name ++ " - " ++ project.config.configFile

/-- The synthetic entry created for a disabled project (lines 200–203). -/
def disabledProjectItem (project : TestProject) : TestItem :=
  let item := createTestItem (disabledProjectId project) "" Option.none
  let item := item.setDescription (some (pathRelative project.config.workspaceFolder
    (normalizePath project.config.configFile) ++ " [" ++ project.name ++ "] — disabled"))
  let item := item.setSortText (some ("z" ++ project.name))
  item.setBackref (.disabledProject project)

/-- `TestTree._syncDisabledProjects` (lines 183–208), acting on the children
collection of the workspace root item.  `localeCompare` ordering is modelled
as code-point order; JS `Array.prototype.sort` is stable, as is `mergeSort`. -/
def syncDisabledProjects (disabledProjects : List TestProject) (children : List TestItem) :
    List TestItem :=
  let topLevelItems := children.map (fun item => item.id)
  let oldDisabledProjectIds := topLevelItems.filter (fun item => strStartsWith item "[disabled] ")
  let sortedProject := disabledProjects.mergeSort (fun a b =>
    decide ((a.config.configFile ++ ":" ++ a.name) ≤ (b.config.configFile ++ ":" ++ b.name)))
  let p := sortedProject.foldl (fun (p : List TestItem × List String) project =>
    if p.2.contains (disabledProjectId project) then
      (p.1, p.2.filter (fun i => i != disabledProjectId project))
    else (collectionAdd p.1 (disabledProjectItem project), p.2)) (children, oldDisabledProjectIds)
  p.2.foldl (fun cs projectId => collectionDelete cs projectId) p.1

/-- Message of a config error entry (line 216). -/
def configErrorMessage (error : TestError) : String :=
  error.message.getD (error.value.getD "Unknown error")

/-- Location string of a config error entry (line 217). -/
def configErrorLocation (model : TestModel) (error : TestError) : String :=
  match error.location with
  | some loc => loc.file ++ ":" ++ toString loc.line
  | Option.none => model.config.configFile

/-- Synthetic id of a config error entry (line 218). -/
def configErrorId (model : TestModel) (error : TestError) : String :=
  "[error] " ++ configErrorLocation model error ++ " - " ++ configErrorMessage error

/-- The synthetic entry created for a config error (lines 224–232): error
message, description, sort key, the zero-width range at the error position
when a location is known, and the back-reference. -/
def configErrorItem (model : TestModel) (error : TestError) : TestItem :=
  let message := configErrorMessage error
  let item := createTestItem (configErrorId model error) ""
    (some ((error.location.map (fun l => l.file)).getD model.config.configFile))
  let item := item.setError (some message)
  let item := item.setDescription (some (pathRelative model.config.workspaceFolder
    (normalizePath model.config.configFile) ++ " — " ++ message))
  let item := item.setSortText (some ("z" ++ configErrorId model error))
  let item := match error.location with
    | some loc => item.setRange (some ⟨loc.line - 1, loc.column - 1, loc.line - 1, loc.column - 1⟩)
    | Option.none => item
  item.setBackref (.configError error)

/-- `TestTree._syncConfigErrors` (lines 210–238), acting on the children
collection of the workspace root item. -/
def syncConfigErrors (errorsByModel : List (TestModel × List TestError)) (children : List TestItem) :
    List TestItem :=
  let topLevelItems := children.map (fun item => item.id)
  let oldErrorIds := topLevelItems.filter (fun item => strStartsWith item "[error] ")
  let p := errorsByModel.foldl (fun p me =>
    me.2.foldl (fun (p : List TestItem × List String) error =>
      if p.2.contains (configErrorId me.1 error) then
        (p.1, p.2.filter (fun i => i != configErrorId me.1 error))
      else (collectionAdd p.1 (configErrorItem me.1 error), p.2)) p) (children, oldErrorIds)
  p.2.foldl (fun cs errorId => collectionDelete cs errorId) p.1

/-! ## Deep traversals -/

mutual

/-- All nodes of a presentation forest, depth first, each node before its
subtree. -/
def deepList : List TestItem → List TestItem
  | [] => []
  | c :: cs => deepItem c ++ deepList cs

/-- All nodes of a presentation subtree. -/
def deepItem : TestItem → List TestItem
  | .mk d children => .mk d children :: deepList children

end

mutual

/-- All ids occurring in a logical forest. -/
def uDeepIds : List TreeItem → List String
  | [] => []
  | c :: cs => uDeepIdsItem c ++ uDeepIds cs

/-- All ids occurring in a logical subtree. -/
def uDeepIdsItem : TreeItem → List String
  | .mk i _ _ _ _ _ _ children => i :: uDeepIds children

end

/-! ## Reverse index -/

mutual

/-- Body of `TestTree._indexTree`'s `visit` (lines 243–251) on one item:
record the case/test back-reference under the test id, visit the children,
then record the whole-file entry (`uri` present, no `range`).  The
accumulator is the pair (`_testItemByTestId`, `_testItemByFile`). -/
def visitItem : TestItem → List (String × TestItem) × List (String × TestItem) →
    List (String × TestItem) × List (String × TestItem)
  | .mk d children, acc =>
    let acc := match d.backref with
      | .treeItem ti =>
        match ti.testId with
        | some tid =>
          if ti.kind == "case" || ti.kind == "test" then
            (setEntry acc.1 tid (.mk d children), acc.2)
          else acc
        | Option.none => acc
      | _ => acc
    let acc := visitList children acc
    match d.uri with
    | some uri => if d.range.isNone then (acc.1, setEntry acc.2 (uriToPath uri) (.mk d children)) else acc
    | Option.none => acc

/-- `visit` folded over a children collection, in order. -/
def visitList : List TestItem → List (String × TestItem) × List (String × TestItem) →
    List (String × TestItem) × List (String × TestItem)
  | [], acc => acc
  | c :: cs, acc => visitList cs (visitItem c acc)

end

/-! ## Tree state and lifecycle -/

/-- Registry entry of `TestTree._rootItems`.  In JS the registry stores the
`TestItem` object itself; here a `flat` entry stands for the synthetic
single-folder root of `_createRootItemIfNeeded` (lines 262–273), whose
`children` alias `testController.items`, and a `real` entry stands for the
controller-collection item with the given id (multi-folder case, line 275). -/
inductive RootEntry : Type where
  | flat (id uri : String) : RootEntry
  | real (id : String) : RootEntry
deriving DecidableEq

/-- The mutable fields of a `TestTree` instance. -/
structure TreeState where
  testGeneration : String
  controllerItems : List TestItem
  rootItems : List (String × RootEntry)
  testItemByTestId : List (String × TestItem)
  testItemByFile : List (String × TestItem)

/-- The `TestItem` a registry entry denotes, given the current controller
collection.  A `real` entry whose item is gone resolves to `none` (in JS the
registry would still hold the detached object). -/
def resolveRootEntry (controllerItems : List TestItem) : RootEntry → Option TestItem
  | .flat id uri => some (TestItem.mk
      { id := id, label := "<root>", uri := some uri,
        range := Option.none, tags := [], canResolveChildren := false, sortText := Option.none,
        description := Option.none, error := Option.none, backref := .none } controllerItems)
  | .real id => collectionGet controllerItems id

/-- The loading placeholder created in the constructor (line 52):
`createTestItem('loading', 'Loading…')`. -/
def loadingItem : TestItem := createTestItem "loading" "Loading…" Option.none

/-- `TestTree.startedLoading()` (lines 58–69).  The fresh `createGuid()`
value is passed in as `guid` (`utils.createGuid` is outside these sources),
and `workspaceFolderCount` stands for `workspace.workspaceFolders?.length`. -/
def startedLoading (guid : String) (workspaceFolderCount : Nat) (s : TreeState) : TreeState :=
  let s := { s with testGeneration := guid ++ ":",
                    controllerItems := [],
                    rootItems := [],
                    testItemByTestId := [],
                    testItemByFile := [] }
  if workspaceFolderCount == 0 then s
  else { s with controllerItems := [loadingItem] }

/-- `TestTree.testItemForTest(test)` (lines 293–295); keyed by `test.id`. -/
def testItemForTest (s : TreeState) (testId : String) : Option TestItem :=
  lookupEntry s.testItemByTestId testId

/-- `TestTree.testItemForFile(file)` (lines 297–299). -/
def testItemForFile (s : TreeState) (file : String) : Option TestItem :=
  lookupEntry s.testItemByFile file

/-- `TestTree._createRootItemIfNeeded(uri)` (lines 256–280). -/
def createRootItemIfNeeded (workspaceFolderCount : Nat) (uri : String) (s : TreeState) :
    RootEntry × TreeState :=
  let fsPath := uriToPath uri
  match lookupEntry s.rootItems fsPath with
  | some r => (r, s)
  | Option.none =>
    if workspaceFolderCount == 1 then
      let r := RootEntry.flat (idWithGeneration s.testGeneration fsPath) uri
      (r, { s with rootItems := setEntry s.rootItems fsPath r })
    else
      let item := createTestItem (idWithGeneration s.testGeneration fsPath) (pathBasename fsPath)
        (some uri)
      let r := RootEntry.real item.id
      (r, { s with controllerItems := collectionAdd s.controllerItems item,
                   rootItems := setEntry s.rootItems fsPath r })

/-- `TestTree._deleteRootItem(fsPath)` (lines 282–291). -/
def deleteRootItem (workspaceFolderCount : Nat) (fsPath : String) (s : TreeState) : TreeState :=
  if workspaceFolderCount == 1 then
    let items := s.controllerItems.filter (fun i => i.id == "loading" || i.id == "disabled")
    { s with controllerItems := items, rootItems := eraseEntry s.rootItems fsPath }
  else
    let items := collectionDelete s.controllerItems (idWithGeneration s.testGeneration fsPath)
    { s with controllerItems := items, rootItems := eraseEntry s.rootItems fsPath }

/-- Mutate the children collection of a root item: the flat synthetic root's
children ARE the controller's top-level collection (aliasing of line 265), a
real root is mutated in place inside it. -/
def applyToRootChildren (s : TreeState) (r : RootEntry) (f : List TestItem → List TestItem) :
    TreeState :=
  match r with
  | .flat _ _ => { s with controllerItems := f s.controllerItems }
  | .real id => { s with controllerItems := updateChildrenById s.controllerItems id f }

/-- Per-workspace-folder inputs of one `_update` pass, as computed from the
model collection and the upstream tree builder (external to these sources,
lines 94–114): `upstreamRootChildren` is `upstreamTree.rootItem.children`
after `sortAndPropagateStatus()` and `flattenForSingleProject()`;
`disabledProjects` and `configErrorsByModel` are accumulated per lines
95–110. -/
structure WorkspaceFolderData where
  folderUri : String
  upstreamRootChildren : List TreeItem
  disabledProjects : List TestProject
  configErrorsByModel : List (TestModel × List TestError)

/-- `TestTree._indexTree` (lines 240–254): clear both indices and visit every
registered root. -/
def indexTree (s : TreeState) : TreeState :=
  let acc := s.rootItems.foldl (fun acc e =>
    match resolveRootEntry s.controllerItems e.2 with
    | some item => visitItem item acc
    | Option.none => acc) ([], [])
  { s with testItemByTestId := acc.1, testItemByFile := acc.2 }

/-- `TestTree._update` (lines 93–133): per active workspace folder, either
delete the root (empty tree, no disabled projects, no config errors) or
ensure a root and run the three synchronizers on its children; then delete
roots of folders that are no longer active, and rebuild the indices. -/
def update (folders : List WorkspaceFolderData) (s : TreeState) : TreeState :=
  let s := folders.foldl (fun s wf =>
    let workspaceFSPath := uriToPath wf.folderUri
    if wf.upstreamRootChildren.length == 0 && wf.disabledProjects.isEmpty &&
        wf.configErrorsByModel.isEmpty then
      deleteRootItem folders.length workspaceFSPath s
    else
      let pr := createRootItemIfNeeded folders.length wf.folderUri s
      let s := applyToRootChildren pr.2 pr.1
        (fun cs => syncChildren pr.2.testGeneration wf.upstreamRootChildren cs)
      let s := applyToRootChildren s pr.1 (fun cs => syncDisabledProjects wf.disabledProjects cs)
      let s := applyToRootChildren s pr.1 (fun cs => syncConfigErrors wf.configErrorsByModel cs)
      s) s
  -- Remove stale root items.
  let s := (s.rootItems.map (fun e => e.1)).foldl (fun s itemFsPath =>
    if folders.any (fun f => uriToPath f.folderUri == itemFsPath) then s
    else deleteRootItem folders.length itemFsPath s) s
  indexTree s

/-! ## Basic facts about the string and map primitives -/

theorem strStartsWith_iff {s p : String} : strStartsWith s p = true ↔ ∃ t, s = p ++ t := by
  unfold strStartsWith
  rw [ List.isPrefixOf_iff_prefix]
  constructor
  · rintro ⟨t, ht⟩
    refine ⟨String.mk t, ?_⟩
    apply String.ext
    rw [String.data_append]
    exact ht.symm
  · rintro ⟨t, rfl⟩
    rw [String.data_append]
    exact List.prefix_append _ _

theorem strStartsWith_append (g s : String) : strStartsWith (g ++ s) g = true :=
  strStartsWith_iff.2 ⟨s, rfl⟩

theorem strDropLen_append (g s : String) : strDropLen (g ++ s) g.length = s := by
  apply String.ext
  show ((g ++ s).data.drop g.length) = s.data
  rw [String.data_append]
  show ((g.data ++ s.data).drop g.data.length) = s.data
  exact List.drop_left _ _

theorem append_strDropLen {s g : String} (h : strStartsWith s g = true) :
    g ++ strDropLen s g.length = s := by
  rcases strStartsWith_iff.1 h with ⟨t, rfl⟩
  rw [strDropLen_append]

theorem string_append_left_cancel {g a b : String} (h : g ++ a = g ++ b) : a = b := by
  have h2 := congrArg String.data h
  simp only [String.data_append] at h2
  exact String.ext (List.append_cancel_left h2)

theorem strStartsWith_of_eq_append {c g s : String} (h : c = g ++ s) : strStartsWith c g = true :=
  strStartsWith_iff.2 ⟨s, h⟩

/-- A generation-prefixed id determines its stripped id. -/
theorem strDropLen_of_eq_append {c g s : String} (h : c = g ++ s) :
    strDropLen c g.length = s := by
  rw [h, strDropLen_append]

theorem lookupEntry_cons {α : Type} (e : String × α) (m : List (String × α)) (k : String) :
    lookupEntry (e :: m) k = if e.1 == k then some e.2 else lookupEntry m k := by
  unfold lookupEntry
  rw [List.find?_cons]
  by_cases h : (e.1 == k) = true
  · simp [h]
  · simp [h]

theorem lookupEntry_append {α : Type} (m₁ m₂ : List (String × α)) (k : String) :
    lookupEntry (m₁ ++ m₂) k =
      match lookupEntry m₁ k with
      | some v => some v
      | Option.none => lookupEntry m₂ k := by
  induction m₁ with
  | nil => simp [lookupEntry]
  | cons a t ih =>
    rw [List.cons_append, lookupEntry_cons, lookupEntry_cons]
    by_cases h : (a.1 == k) = true
    · simp [h]
    · simp [h, ih]

theorem mem_of_lookupEntry_eq_some {α : Type} {m : List (String × α)} {k : String} {v : α}
    (h : lookupEntry m k = some v) : (k, v) ∈ m := by
  unfold lookupEntry at h
  rcases Option.map_eq_some'.1 h with ⟨e, he, hev⟩
  have hmem := List.mem_of_find?_eq_some he
  have hpred := List.find?_some he
  have hk : e.1 = k := by
    have := beq_iff_eq.1 hpred
    exact this
  have : e = (k, v) := by
    cases e
    simp at hk hev ⊢
    exact ⟨hk, hev⟩
  exact this ▸ hmem

theorem lookupEntry_eq_none_iff {α : Type} {m : List (String × α)} {k : String} :
    lookupEntry m k = Option.none ↔ k ∉ m.map Prod.fst := by
  unfold lookupEntry
  rw [Option.map_eq_none', List.find?_eq_none]
  constructor
  · intro h hk
    rcases List.mem_map.1 hk with ⟨e, he, hek⟩
    exact h e he (beq_iff_eq.2 hek)
  · intro h e he hek
    exact h (List.mem_map.2 ⟨e, he, beq_iff_eq.1 hek⟩)

theorem lookupEntry_isSome_iff {α : Type} {m : List (String × α)} {k : String} :
    (lookupEntry m k).isSome = true ↔ k ∈ m.map Prod.fst := by
  rcases h : lookupEntry m k with _ | v
  · simp [lookupEntry_eq_none_iff.1 h]
  · simp only [Option.isSome_some, true_iff]
    exact List.mem_map.2 ⟨(k, v), mem_of_lookupEntry_eq_some h, rfl⟩

theorem any_key_iff {α : Type} {m : List (String × α)} {k : String} :
    (m.any (fun e => e.1 == k)) = true ↔ k ∈ m.map Prod.fst := by
  rw [List.any_eq_true]
  constructor
  · rintro ⟨e, he, hek⟩
    exact List.mem_map.2 ⟨e, he, beq_iff_eq.1 hek⟩
  · intro h
    rcases List.mem_map.1 h with ⟨e, he, hek⟩
    exact ⟨e, he, beq_iff_eq.2 hek⟩

theorem lookupEntry_map_replace {α : Type} (t : List (String × α)) {k k' : String} (v : α)
    (h : k' ≠ k) :
    lookupEntry (t.map (fun e => if e.1 == k then (k, v) else e)) k' = lookupEntry t k' := by
  induction t with
  | nil => rfl
  | cons a t ih =>
    rw [List.map_cons, lookupEntry_cons, lookupEntry_cons]
    by_cases ha : (a.1 == k) = true
    · have h1 : (k == k') = false := beq_eq_false_iff_ne.2 (fun he => h he.symm)
      have ha' : a.1 = k := beq_iff_eq.1 ha
      have h2 : (a.1 == k') = false := by
        rw [ha']
        exact h1
      simp only [ha, if_true, h1, h2, if_false]
      exact ih
  
    · simp only [ha, if_false, Bool.false_eq_true]
      split
      · rfl
      · exact ih

theorem setEntry_cons {α : Type} (a : String × α) (m : List (String × α)) (k : String) (v : α) :
    setEntry (a :: m) k v =
      if a.1 == k then (k, v) :: m.map (fun e => if e.1 == k then (k, v) else e)
      else a :: setEntry m k v := by
  cases ha : (a.1 == k) with
  | true =>
    have hany : ((a :: m).any fun e => e.1 == k) = true :=
      List.any_eq_true.2 ⟨a, List.mem_cons_self a m, ha⟩
    simp only [setEntry, hany, if_true, List.map_cons, ha]
  | false =>
    simp only [setEntry, List.any_cons, ha, Bool.false_or, Bool.false_eq_true, if_false]
    cases hm : (m.any fun e => e.1 == k) with
    | true =>
      simp [hm, ha]
      intro h
      exact absurd (beq_iff_eq.2 h) (by simp [ha])
    | false => simp [hm]

theorem lookupEntry_setEntry_other {α : Type} (m : List (String × α)) {k k' : String} (v : α)
    (h : k' ≠ k) : lookupEntry (setEntry m k v) k' = lookupEntry m k' := by
  induction m with
  | nil =>
    have h1 : (k == k') = false := beq_eq_false_iff_ne.2 (fun he => h he.symm)
    simp [setEntry, lookupEntry_cons, lookupEntry, h1]
  | cons a t ih =>
    rw [setEntry_cons]
    by_cases ha : (a.1 == k) = true
    · rw [if_pos ha, lookupEntry_cons, lookupEntry_cons]
      have h1 : (k == k') = false := beq_eq_false_iff_ne.2 (fun he => h he.symm)
      have ha' : a.1 = k := beq_iff_eq.1 ha
      have h2 : (a.1 == k') = false := by rw [ha']; exact h1
      simp only [h1, h2, if_false, Bool.false_eq_true]
      exact lookupEntry_map_replace t v h
    · rw [if_neg ha, lookupEntry_cons, lookupEntry_cons]
      split
      · rfl
      · exact ih

theorem mem_keys_setEntry {α : Type} {m : List (String × α)} {k k' : String} {v : α} :
    k' ∈ (setEntry m k v).map Prod.fst ↔ k' ∈ m.map Prod.fst ∨ k' = k := by
  unfold setEntry
  by_cases h : (m.any fun e => e.1 == k) = true
  · rw [if_pos h, List.map_map]
    have hkm : k ∈ m.map Prod.fst := any_key_iff.1 h
    constructor
    · intro hx
      rcases List.mem_map.1 hx with ⟨e, he, heq⟩
      by_cases hek : (e.1 == k) = true
      · simp only [Function.comp, hek, if_true] at heq
        exact Or.inr heq.symm
      · simp only [Function.comp, hek, if_false, Bool.false_eq_true] at heq
        exact Or.inl (List.mem_map.2 ⟨e, he, heq⟩)
    · intro hx
      rcases hx with hx | rfl
      · rcases List.mem_map.1 hx with ⟨e, he, heq⟩
        refine List.mem_map.2 ⟨e, he, ?_⟩
        by_cases hek : (e.1 == k) = true
        · simp only [Function.comp, hek, if_true]
          rw [← heq]
          exact (beq_iff_eq.1 hek).symm
        · simp only [Function.comp, hek, if_false, Bool.false_eq_true]
          exact heq
      · rcases List.mem_map.1 hkm with ⟨e, he, heq⟩
        refine List.mem_map.2 ⟨e, he, ?_⟩
        have hek : (e.1 == k') = true := beq_iff_eq.2 heq
        simp only [Function.comp, hek, if_true]
  · rw [if_neg h, List.map_append]
    simp

theorem nodup_keys_setEntry {α : Type} {m : List (String × α)} {k : String} {v : α}
    (h : (m.map Prod.fst).Nodup) : ((setEntry m k v).map Prod.fst).Nodup := by
  unfold setEntry
  by_cases hany : (m.any fun e => e.1 == k) = true
  · rw [if_pos hany, List.map_map]
    have : (List.map (Prod.fst ∘ fun e => if e.1 == k then (k, v) else e) m) = m.map Prod.fst := by
      apply List.map_congr_left
      intro a ha
      by_cases hk : (a.1 == k) = true
      · simp only [Function.comp, hk, if_true]
        exact (beq_iff_eq.1 hk).symm
      · simp only [Function.comp, hk, if_false, Bool.false_eq_true]
    rw [this]
    exact h
  · rw [if_neg hany, List.map_append]
    have hk : k ∉ m.map Prod.fst := fun hm => hany (any_key_iff.2 hm)
    simp [List.nodup_append, h, hk]

theorem nodup_keys_mapFromList {α : Type} (l : List (String × α)) :
    ((mapFromList l).map Prod.fst).Nodup := by
  have H : ∀ (t : List (String × α)) (acc : List (String × α)), (acc.map Prod.fst).Nodup →
      (((t.foldl (fun m e => setEntry m e.1 e.2) acc)).map Prod.fst).Nodup := by
    intro t
    induction t with
    | nil => intro acc h; exact h
    | cons a t ih =>
      intro acc h
      rw [List.foldl_cons]
      exact ih _ (nodup_keys_setEntry h)
  exact H l [] (by simp)

theorem mem_keys_mapFromList {α : Type} {l : List (String × α)} {k : String} :
    k ∈ (mapFromList l).map Prod.fst ↔ k ∈ l.map Prod.fst := by
  have H : ∀ (t : List (String × α)) (acc : List (String × α)),
      (k ∈ ((t.foldl (fun m e => setEntry m e.1 e.2) acc)).map Prod.fst ↔
        k ∈ acc.map Prod.fst ∨ k ∈ t.map Prod.fst) := by
    intro t
    induction t with
    | nil => intro acc; simp
    | cons a t ih =>
      intro acc
      rw [List.foldl_cons, ih, mem_keys_setEntry, List.map_cons, List.mem_cons]
      tauto
  rw [mapFromList, H l []]
  simp

theorem lookupEntry_eq_some_of_mem_of_nodup {α : Type} {m : List (String × α)} {k : String} {v : α}
    (hnd : (m.map Prod.fst).Nodup) (h : (k, v) ∈ m) : lookupEntry m k = some v := by
  induction m with
  | nil => simp at h
  | cons a t ih =>
    rw [lookupEntry_cons]
    rw [List.map_cons, List.nodup_cons] at hnd
    rcases List.mem_cons.1 h with rfl | h'
    · simp
    · have hk : k ∈ t.map Prod.fst := List.mem_map.2 ⟨(k, v), h', rfl⟩
      have ha : (a.1 == k) = false := beq_eq_false_iff_ne.2 (fun he => hnd.1 (he ▸ hk))
      simp only [ha, if_false, Bool.false_eq_true]
      exact ih hnd.2 h'

theorem uPairs_key_eq {us : List TreeItem} {e : String × TreeItem} (h : e ∈ uPairsOf us) :
    e.1 = e.2.id := by
  have h' := mem_mapFromList_sub h
  rcases List.mem_map.1 h' with ⟨u, hu, heq⟩
  rw [← heq]

theorem uPairs_val_mem {us : List TreeItem} {e : String × TreeItem} (h : e ∈ uPairsOf us) :
    e.2 ∈ us :=
  mem_vals_of_mapFromList_map h

theorem mem_keys_uPairsOf {us : List TreeItem} {k : String} :
    k ∈ (uPairsOf us).map Prod.fst ↔ k ∈ us.map TreeItem.id := by
  unfold uPairsOf
  rw [mem_keys_mapFromList, List.map_map]
  have : (Prod.fst ∘ fun c : TreeItem => (c.id, c)) = TreeItem.id := rfl
  rw [this]

theorem nodup_keys_uPairsOf (us : List TreeItem) : ((uPairsOf us).map Prod.fst).Nodup :=
  nodup_keys_mapFromList _

theorem lookupEntry_uPairsOf_eq_some {us : List TreeItem} {e : String × TreeItem}
    (h : e ∈ uPairsOf us) : lookupEntry (uPairsOf us) e.1 = some e.2 :=
  lookupEntry_eq_some_of_mem_of_nodup (nodup_keys_uPairsOf us) h

/-! ## Facts about attribute synchronization -/

@[simp] theorem TestItem.label_mk (d c) : (TestItem.mk d c).label = d.label := rfl

@[simp] theorem TestItem.uri_mk (d c) : (TestItem.mk d c).uri = d.uri := rfl

@[simp] theorem TestItem.range_mk (d c) : (TestItem.mk d c).range = d.range := rfl

@[simp] theorem TestItem.tags_mk (d c) : (TestItem.mk d c).tags = d.tags := rfl

@[simp] theorem TestItem.backref_mk (d c) : (TestItem.mk d c).backref = d.backref := rfl

@[simp] theorem TestItem.setBackref_mk (d c b) :
    (TestItem.mk d c).setBackref b = .mk { d with backref := b } c := rfl

@[simp] theorem TestItem.setTags_mk (d c t) :
    (TestItem.mk d c).setTags t = .mk { d with tags := t } c := rfl

@[simp] theorem TestItem.setRange_mk (d c r) :
    (TestItem.mk d c).setRange r = .mk { d with range := r } c := rfl

@[simp] theorem TestItem.setCanResolveChildren_mk (d c b) :
    (TestItem.mk d c).setCanResolveChildren b = .mk { d with canResolveChildren := b } c := rfl

@[simp] theorem TestItem.setSortText_mk (d c s) :
    (TestItem.mk d c).setSortText s = .mk { d with sortText := s } c := rfl

@[simp] theorem TestItem.setDescription_mk (d c s) :
    (TestItem.mk d c).setDescription s = .mk { d with description := s } c := rfl

@[simp] theorem TestItem.setError_mk (d c s) :
    (TestItem.mk d c).setError s = .mk { d with error := s } c := rfl

/-- Derived form of the range update of `syncChildAttrs` (lines 167–173),
as a function of the previous range. -/
def syncRangeVal (u : TreeItem) (r : Option VSRange) : Option VSRange :=
  let hasLocation := u.location.line != 0 || u.location.column != 0
  if hasLocation && (match r with
      | Option.none => true
      | some rr => rr.startLine + 1 != u.location.line) then
    some ⟨max (u.location.line - 1) 0, 0, u.location.line, 0⟩
  else if hasLocation && r.isNone then
    Option.none
  else r

/-- Derived form of the tags update of `syncChildAttrs` (lines 165–166). -/
def syncTagsVal (u : TreeItem) (tags : List TestTag) : List TestTag :=
  if u.kind == "case" && !areEqualTags u.tags tags then u.tags.map TestTag.mk else tags

theorem syncChildAttrs_mk (u : TreeItem) (d : TestItemData) (cc : List TestItem) :
    syncChildAttrs u (.mk d cc) =
      .mk { d with backref := .treeItem u, tags := syncTagsVal u d.tags,
                   range := syncRangeVal u d.range } cc := by
  unfold syncChildAttrs syncRangeVal syncTagsVal
  simp only [TestItem.setBackref_mk]
  by_cases htags : (u.kind == "case" && !areEqualTags u.tags d.tags) = true
  · simp only [TestItem.tags_mk, htags, if_true, TestItem.setTags_mk, TestItem.range_mk,
      TestItem.setRange_mk]
    split
    · rfl
    · split
      · rfl
      · rfl
  · simp only [TestItem.tags_mk, htags, if_false, Bool.false_eq_true, TestItem.range_mk,
      TestItem.setRange_mk]
    split
    · rfl
    · split
      · rfl
      · rfl

theorem syncChildAttrs_id (u : TreeItem) (c : TestItem) : (syncChildAttrs u c).id = c.id := by
  cases c with
  | mk d cc => rw [syncChildAttrs_mk]; rfl

theorem syncChildAttrs_children (u : TreeItem) (c : TestItem) :
    (syncChildAttrs u c).children = c.children := by
  cases c with
  | mk d cc => rw [syncChildAttrs_mk]; rfl

theorem syncChildAttrs_withChildren (u : TreeItem) (c : TestItem) (cc : List TestItem) :
    syncChildAttrs u (c.withChildren cc) = (syncChildAttrs u c).withChildren cc := by
  cases c with
  | mk d c0 => rw [TestItem.withChildren_mk, syncChildAttrs_mk, syncChildAttrs_mk]; rfl

theorem areEqualTags_map_self (tags : List String) :
    areEqualTags tags (tags.map TestTag.mk) = true := by
  unfold areEqualTags
  rw [List.length_map]
  simp only [bne_self_eq_false, Bool.false_eq_true, if_false]
  rw [List.all_eq_true]
  intro tag htag
  rcases List.mem_map.1 htag with ⟨t, ht, rfl⟩
  rw [List.contains_eq_any_beq, List.any_eq_true]
  exact ⟨t, ht, by simp⟩

theorem syncTagsVal_idem (u : TreeItem) (tags : List TestTag) :
    syncTagsVal u (syncTagsVal u tags) = syncTagsVal u tags := by
  unfold syncTagsVal
  by_cases h : (u.kind == "case" && !areEqualTags u.tags tags) = true
  · rw [if_pos h]
    have : (u.kind == "case" && !areEqualTags u.tags (u.tags.map TestTag.mk)) = false := by
      rw [areEqualTags_map_self]
      simp
    rw [this]
    simp
  · rw [if_neg h]
    rw [if_neg h]

theorem syncRangeVal_idem (u : TreeItem) (r : Option VSRange) :
    syncRangeVal u (syncRangeVal u r) = syncRangeVal u r := by
  unfold syncRangeVal
  by_cases hloc : (u.location.line != 0 || u.location.column != 0) = true
  · simp only [hloc, Bool.true_and]
    rcases r with _ | rr
    · simp only [if_true]
      by_cases hL : (max (u.location.line - 1) 0 + 1 != u.location.line) = true
      · simp [hL]
      · simp [hL]
    · by_cases hr : (rr.startLine + 1 != u.location.line) = true
      · simp only [hr, if_true]
        by_cases hL : (max (u.location.line - 1) 0 + 1 != u.location.line) = true
        · simp [hL]
        · simp [hL]
      · simp [hr]
  · simp [hloc]

theorem syncChildAttrs_idem (u : TreeItem) (c : TestItem) :
    syncChildAttrs u (syncChildAttrs u c) = syncChildAttrs u c := by
  cases c with
  | mk d cc =>
    rw [syncChildAttrs_mk, syncChildAttrs_mk]
    have h1 := syncTagsVal_idem u d.tags
    have h2 := syncRangeVal_idem u d.range
    simp [h1, h2]

/-! ## Structural characterization of the tree differ

The following derived forms restate each phase of `syncChildren` as explicit
`filter`/`map` transformations, proved equal to the folds of the source
translation.  They are the workhorse for the claims about the differ. -/

theorem filterMap_guard_eq {α β : Type} (p : α → Bool) (g : α → β) (l : List α) :
    l.filterMap (fun c => if p c then some (g c) else Option.none) = (l.filter p).map g := by
  induction l with
  | nil => rfl
  | cons a t ih =>
    by_cases hp : p a = true
    · simp [List.filterMap_cons, List.filter_cons, hp, ih]
    · simp [List.filterMap_cons, List.filter_cons, hp, ih]

theorem mapFromList_of_nodup_keys {α : Type} {l : List (String × α)}
    (h : (l.map Prod.fst).Nodup) : mapFromList l = l := by
  have H : ∀ (t acc : List (String × α)), ((acc ++ t).map Prod.fst).Nodup →
      t.foldl (fun m e => setEntry m e.1 e.2) acc = acc ++ t := by
    intro t
    induction t with
    | nil => intro acc _; simp
    | cons a t ih =>
      intro acc hacc
      rw [List.foldl_cons]
      have hnot : (acc.any fun e => e.1 == a.1) = false := by
        rw [← Bool.not_eq_true]
        intro hany
        have hmem := any_key_iff.1 hany
        rw [List.map_append] at hacc
        have hdisj := List.disjoint_of_nodup_append hacc
        exact hdisj hmem (by simp)
      have hset : setEntry acc a.1 a.2 = acc ++ [a] := by
        unfold setEntry
        rw [hnot]
        simp
      rw [hset, ih (acc ++ [a]) (by simpa using hacc)]
      simp
  have := H l [] (by simpa using h)
  simpa [mapFromList] using this

theorem collectionAdd_of_not_any {cs : List TestItem} {item : TestItem}
    (h : (cs.any (fun c => c.id == item.id)) = false) : collectionAdd cs item = cs ++ [item] := by
  unfold collectionAdd
  rw [h]
  simp

/-- Phase 2 of `syncChildren` (lines 146–151) as a pair of filters: iterated
conditional deletion is deletion by the conjunction of the conditions. -/
theorem delFold_eq (gen : String) (U : List (String × TreeItem)) (E : List (String × TestItem))
    (cs0 : List TestItem) (m0 : List (String × TestItem)) :
    E.foldl (fun (p : List TestItem × List (String × TestItem)) e =>
      if U.any (fun e' => e'.1 == e.1) then p
      else (collectionDelete p.1 (idWithGeneration gen e.1), eraseEntry p.2 e.1)) (cs0, m0) =
    (cs0.filter (fun c => E.all (fun e =>
        U.any (fun e' => e'.1 == e.1) || c.id != idWithGeneration gen e.1)),
     m0.filter (fun kv => E.all (fun e =>
        U.any (fun e' => e'.1 == e.1) || kv.1 != e.1))) := by
  induction E generalizing cs0 m0 with
  | nil => simp
  | cons a E ih =>
    rw [List.foldl_cons]
    by_cases ha : (U.any (fun e' => e'.1 == a.1)) = true
    · rw [if_pos ha, ih]
      congr 1
      · apply List.filter_congr
        intro c _
        simp [List.all_cons, ha]
      · apply List.filter_congr
        intro kv _
        simp [List.all_cons, ha]
    · rw [if_neg ha]
      have ha' : (U.any fun e' => e'.1 == a.1) = false := by
        cases hx : (U.any fun e' => e'.1 == a.1) with
        | true => exact absurd hx ha
        | false => rfl
      rw [ih]
      unfold collectionDelete eraseEntry
      rw [List.filter_filter, List.filter_filter]
      congr 1
      · apply List.filter_congr
        intro c _
        simp only [List.all_cons, ha', Bool.false_or]
        rw [Bool.and_comm]
      · apply List.filter_congr
        intro kv _
        simp only [List.all_cons, ha', Bool.false_or]
        rw [Bool.and_comm]

@[simp] theorem idWithGeneration_eq (gen k : String) : idWithGeneration gen k = gen ++ k := rfl

theorem newChildBase_id (gen k : String) (u : TreeItem) :
    (newChildBase gen k u).id = idWithGeneration gen k := by
  unfold newChildBase createTestItem
  split
  · rfl
  · rfl

theorem newChildBase_children (gen k : String) (u : TreeItem) :
    (newChildBase gen k u).children = [] := by
  unfold newChildBase createTestItem
  split
  · rfl
  · rfl

theorem eq_of_mem_of_nodup_ids {cs : List TestItem} (h : (cs.map TestItem.id).Nodup)
    {c₁ c₂ : TestItem} (h1 : c₁ ∈ cs) (h2 : c₂ ∈ cs) (hid : c₁.id = c₂.id) : c₁ = c₂ :=
  List.inj_on_of_nodup_map h h1 h2 hid

theorem updateById_map_ids {cs : List TestItem} {id : String} {v : TestItem} (hv : v.id = id) :
    (updateById cs id v).map TestItem.id = cs.map TestItem.id := by
  unfold updateById
  rw [List.map_map]
  apply List.map_congr_left
  intro c _
  by_cases hc : (c.id == id) = true
  · simp only [Function.comp, hc, if_true]
    rw [hv, beq_iff_eq.1 hc]
  · simp only [Function.comp, hc, Bool.false_eq_true, if_false]

/-- Derived form of phase 3 on a pre-existing presentation child: attribute
sync when its stripped id is a logical child id. -/
def ph3Old (gen : String) (U : List (String × TreeItem)) (c : TestItem) : TestItem :=
  if strStartsWith c.id gen then
    match lookupEntry U (strDropLen c.id gen.length) with
    | some u => syncChildAttrs u c
    | Option.none => c
  else c

/-- Derived form of phase 3's freshly created children, in logical map
order: one attribute-synced `newChildBase` per logical id with no existing
presentation child. -/
def ph3New (gen : String) (U : List (String × TreeItem)) (cs : List TestItem) : List TestItem :=
  (U.filter (fun e => !(cs.any (fun c => c.id == idWithGeneration gen e.1)))).map
    (fun e => syncChildAttrs e.2 (newChildBase gen e.1 e.2))

theorem ph3Old_id (gen : String) (U : List (String × TreeItem)) (c : TestItem) :
    (ph3Old gen U c).id = c.id := by
  unfold ph3Old
  split
  · split
    · exact syncChildAttrs_id _ _
    · rfl
  · rfl

theorem any_id_eq_true_iff {cs : List TestItem} {x : String} :
    (cs.any fun c => c.id == x) = true ↔ x ∈ cs.map TestItem.id := by
  rw [List.any_eq_true]
  constructor
  · rintro ⟨c, hc, hcx⟩
    exact List.mem_map.2 ⟨c, hc, beq_iff_eq.1 hcx⟩
  · intro hx
    rcases List.mem_map.1 hx with ⟨c, hc, rfl⟩
    exact ⟨c, hc, beq_iff_eq.2 rfl⟩

theorem any_id_eq_of_ids_eq {cs cs' : List TestItem}
    (h : cs.map TestItem.id = cs'.map TestItem.id) (x : String) :
    (cs.any fun c => c.id == x) = (cs'.any fun c => c.id == x) := by
  cases hb : (cs'.any fun c => c.id == x) with
  | true =>
    have hx := any_id_eq_true_iff.1 hb
    rw [← h] at hx
    exact any_id_eq_true_iff.2 hx
  | false =>
    cases hb2 : (cs.any fun c => c.id == x) with
    | true =>
      have hx := any_id_eq_true_iff.1 hb2
      rw [h] at hx
      rw [any_id_eq_true_iff.2 hx] at hb
      exact Bool.noConfusion hb
    | false => rfl

theorem addNewChildren_eq (gen : String) (R : List (String × TreeItem))
    (csA : List TestItem) (mA : List (String × TestItem))
    (hnd : (csA.map TestItem.id).Nodup)
    (hkeys : (R.map Prod.fst).Nodup)
    (hsome : ∀ e ∈ R, ∀ c, lookupEntry mA e.1 = some c →
      c ∈ csA ∧ c.id = idWithGeneration gen e.1)
    (hnone : ∀ e ∈ R, lookupEntry mA e.1 = Option.none →
      ∀ c ∈ csA, c.id ≠ idWithGeneration gen e.1) :
    (addNewChildren gen R (csA, mA)).1 = csA.map (ph3Old gen R) ++ ph3New gen R csA := by
  induction R generalizing csA mA with
  | nil =>
    unfold addNewChildren ph3New
    simp only [List.foldl_nil, List.filter_nil, List.map_nil, List.append_nil]
    have : csA.map (ph3Old gen []) = csA.map id := by
      apply List.map_congr_left
      intro c _
      unfold ph3Old
      have hl : lookupEntry ([] : List (String × TreeItem)) (strDropLen c.id gen.length) =
          Option.none := rfl
      rw [hl]
      split
      · rfl
      · rfl
    rw [this, List.map_id]
  | cons a R' ih =>
    obtain ⟨k, u⟩ := a
    rw [List.map_cons, List.nodup_cons] at hkeys
    unfold addNewChildren
    rw [List.foldl_cons]
    have hkR' : lookupEntry R' k = Option.none := lookupEntry_eq_none_iff.2 hkeys.1
    rcases hm : lookupEntry mA k with _ | c0
    · -- no existing presentation child: create, sync attributes, append
      simp only [hm]
      have hnoc : ∀ c ∈ csA, c.id ≠ idWithGeneration gen k :=
        hnone (k, u) (List.mem_cons_self _ _) hm
      have hitemid : (syncChildAttrs u (newChildBase gen k u)).id = idWithGeneration gen k := by
        rw [syncChildAttrs_id, newChildBase_id]
      have hany : (csA.any (fun c => c.id == (syncChildAttrs u (newChildBase gen k u)).id)) =
          false := by
        rw [← Bool.not_eq_true, List.any_eq_true]
        rintro ⟨c, hc, hcid⟩
        exact hnoc c hc (hitemid ▸ beq_iff_eq.1 hcid)
      rw [collectionAdd_of_not_any hany]
      have hax := ih (csA ++ [syncChildAttrs u (newChildBase gen k u)])
        (setEntry mA k (syncChildAttrs u (newChildBase gen k u)))
        (by
          rw [List.map_append]
          simp only [List.map_cons, List.map_nil]
          rw [List.nodup_append]
          refine ⟨hnd, by simp, ?_⟩
          intro x hx
          simp only [hitemid, List.mem_singleton]
          rcases List.mem_map.1 hx with ⟨c, hc, rfl⟩
          exact hnoc c hc)
        hkeys.2
        (by
          intro e he c hc
          have hne : e.1 ≠ k := fun hek => hkeys.1 (hek ▸ List.mem_map.2 ⟨e, he, rfl⟩)
          rw [lookupEntry_setEntry_other mA _ hne] at hc
          rcases hsome e (List.mem_cons_of_mem _ he) c hc with ⟨hmem, hid⟩
          exact ⟨List.mem_append_left _ hmem, hid⟩)
        (by
          intro e he hc c hcmem
          have hne : e.1 ≠ k := fun hek => hkeys.1 (hek ▸ List.mem_map.2 ⟨e, he, rfl⟩)
          rw [lookupEntry_setEntry_other mA _ hne] at hc
          rcases List.mem_append.1 hcmem with hcm | hcm
          · exact hnone e (List.mem_cons_of_mem _ he) hc c hcm
          · rw [List.mem_singleton.1 hcm, hitemid]
            simp only [idWithGeneration_eq, ne_eq]
            intro hcontr
            exact hne (string_append_left_cancel hcontr).symm)
      unfold addNewChildren at hax
      rw [hax]
      -- now rewrite both sides into the (k, u) :: R' closed form
      have hstart : strStartsWith (syncChildAttrs u (newChildBase gen k u)).id gen = true := by
        rw [hitemid, idWithGeneration_eq]
        exact strStartsWith_append gen k
      have hdrop : strDropLen (syncChildAttrs u (newChildBase gen k u)).id gen.length = k := by
        rw [hitemid, idWithGeneration_eq, strDropLen_append]
      have hlast : ph3Old gen R' (syncChildAttrs u (newChildBase gen k u)) =
          syncChildAttrs u (newChildBase gen k u) := by
        unfold ph3Old
        rw [hstart, if_pos rfl, hdrop, hkR']
      have hmapeq : csA.map (ph3Old gen R') = csA.map (ph3Old gen ((k, u) :: R')) := by
        apply List.map_congr_left
        intro c hc
        unfold ph3Old
        by_cases hsw : strStartsWith c.id gen = true
        · rw [if_pos hsw, if_pos hsw, lookupEntry_cons]
          have hkc : (k == strDropLen c.id gen.length) = false := by
            rw [← Bool.not_eq_true]
            intro hkk
            exact hnoc c hc (by
              rw [idWithGeneration_eq, beq_iff_eq.1 hkk]
              exact (append_strDropLen hsw).symm)
          rw [hkc]
          simp
        · rw [if_neg hsw, if_neg hsw]
      have hnews : ph3New gen R' (csA ++ [syncChildAttrs u (newChildBase gen k u)]) =
          ph3New gen R' csA := by
        unfold ph3New
        congr 1
        apply List.filter_congr
        intro e he
        have hne : e.1 ≠ k := fun hek => hkeys.1 (hek ▸ List.mem_map.2 ⟨e, he, rfl⟩)
        congr 1
        rw [List.any_append]
        have h1 : ([syncChildAttrs u (newChildBase gen k u)].any
            fun c => c.id == idWithGeneration gen e.1) = false := by
          simp only [List.any_cons, List.any_nil, Bool.or_false]
          rw [hitemid]
          rw [← Bool.not_eq_true]
          intro hc
          have h2 := beq_iff_eq.1 hc
          simp only [idWithGeneration_eq] at h2
          exact hne (string_append_left_cancel h2).symm
        rw [h1, Bool.or_false]
      have hanyk : (csA.any fun c => c.id == idWithGeneration gen k) = false := by
        rw [← Bool.not_eq_true, List.any_eq_true]
        rintro ⟨c, hc, hcid⟩
        exact hnoc c hc (beq_iff_eq.1 hcid)
      have hconsnew : ph3New gen ((k, u) :: R') csA =
          syncChildAttrs u (newChildBase gen k u) :: ph3New gen R' csA := by
        unfold ph3New
        rw [List.filter_cons]
        simp only [hanyk, Bool.not_false, if_true, List.map_cons]
      rw [List.map_append, hnews]
      simp only [List.map_cons, List.map_nil]
      rw [hlast, hmapeq, hconsnew, List.append_assoc]
      rfl
    · -- existing presentation child: sync attributes in place
      simp only [hm]
      rcases hsome (k, u) (List.mem_cons_self _ _) c0 hm with ⟨hc0mem, hc0id⟩
      have hvid : (syncChildAttrs u c0).id = c0.id := syncChildAttrs_id u c0
      have hids : (updateById csA c0.id (syncChildAttrs u c0)).map TestItem.id =
          csA.map TestItem.id := updateById_map_ids hvid
      have hax := ih (updateById csA c0.id (syncChildAttrs u c0))
        (setEntry mA k (syncChildAttrs u c0))
        (by rw [hids]; exact hnd)
        hkeys.2
        (by
          intro e he c hc
          have hne : e.1 ≠ k := fun hek => hkeys.1 (hek ▸ List.mem_map.2 ⟨e, he, rfl⟩)
          rw [lookupEntry_setEntry_other mA _ hne] at hc
          rcases hsome e (List.mem_cons_of_mem _ he) c hc with ⟨hmem, hid⟩
          refine ⟨?_, hid⟩
          unfold updateById
          have hcne : (c.id == c0.id) = false := by
            rw [beq_eq_false_iff_ne]
            rw [hid, hc0id]
            simp only [idWithGeneration_eq, ne_eq]
            intro hcontr
            exact hne (string_append_left_cancel hcontr)
          have hmm := List.mem_map_of_mem (fun c => if c.id == c0.id then syncChildAttrs u c0 else c) hmem
          simpa [hcne] using hmm)
        (by
          intro e he hc c' hc'mem
          have hne : e.1 ≠ k := fun hek => hkeys.1 (hek ▸ List.mem_map.2 ⟨e, he, rfl⟩)
          rw [lookupEntry_setEntry_other mA _ hne] at hc
          unfold updateById at hc'mem
          rcases List.mem_map.1 hc'mem with ⟨c, hcmem, hceq⟩
          by_cases hcc : (c.id == c0.id) = true
          · rw [if_pos hcc] at hceq
            rw [← hceq, hvid, hc0id]
            simp only [idWithGeneration_eq, ne_eq]
            intro hcontr
            exact hne (string_append_left_cancel hcontr).symm
          · rw [if_neg hcc] at hceq
            rw [← hceq]
            exact hnone e (List.mem_cons_of_mem _ he) hc c hcmem)
      unfold addNewChildren at hax
      rw [hax]
      have hmapeq2 : (updateById csA c0.id (syncChildAttrs u c0)).map (ph3Old gen R') =
          csA.map (ph3Old gen ((k, u) :: R')) := by
        unfold updateById
        rw [List.map_map]
        apply List.map_congr_left
        intro c hc
        by_cases hcc : (c.id == c0.id) = true
        · have hceq : c = c0 := eq_of_mem_of_nodup_ids hnd hc hc0mem (beq_iff_eq.1 hcc)
          simp only [Function.comp, hcc, if_true]
          subst hceq
          have hsw : strStartsWith (syncChildAttrs u c).id gen = true := by
            rw [hvid, hc0id, idWithGeneration_eq]
            exact strStartsWith_append gen k
          have hdrop : strDropLen (syncChildAttrs u c).id gen.length = k := by
            rw [hvid, hc0id, idWithGeneration_eq, strDropLen_append]
          unfold ph3Old
          rw [hsw, if_pos rfl, hdrop, hkR']
          have hsw2 : strStartsWith c.id gen = true := by
            rw [hc0id, idWithGeneration_eq]
            exact strStartsWith_append gen k
          have hdrop2 : strDropLen c.id gen.length = k := by
            rw [hc0id, idWithGeneration_eq, strDropLen_append]
          rw [hsw2, if_pos rfl, hdrop2, lookupEntry_cons]
          simp
        · simp only [Function.comp, hcc, Bool.false_eq_true, if_false]
          unfold ph3Old
          by_cases hsw : strStartsWith c.id gen = true
          · rw [if_pos hsw, if_pos hsw, lookupEntry_cons]
            have hkc : (k == strDropLen c.id gen.length) = false := by
              rw [← Bool.not_eq_true]
              intro hkk
              have : c.id = c0.id := by
                rw [hc0id, idWithGeneration_eq, beq_iff_eq.1 hkk]
                exact (append_strDropLen hsw).symm
              exact absurd (beq_iff_eq.2 this) (by simp [hcc])
            rw [hkc]
            simp
          · rw [if_neg hsw, if_neg hsw]
      have hnews2 : ph3New gen R' (updateById csA c0.id (syncChildAttrs u c0)) =
          ph3New gen R' csA := by
        unfold ph3New
        congr 1
        apply List.filter_congr
        intro e _
        congr 1
        exact any_id_eq_of_ids_eq hids _
      have hanyk2 : (csA.any fun c => c.id == idWithGeneration gen k) = true :=
        List.any_eq_true.2 ⟨c0, hc0mem, beq_iff_eq.2 hc0id⟩
      have hconsnew2 : ph3New gen ((k, u) :: R') csA = ph3New gen R' csA := by
        unfold ph3New
        rw [List.filter_cons]
        simp only [hanyk2, Bool.not_true, Bool.false_eq_true, if_false]
      rw [hmapeq2, hnews2, hconsnew2]

/-- Derived form of phase 4 (lines 177–180) on one presentation child:
recursive sync of the children of each matched generation-tagged child. -/
def ph4Fun (gen : String) (U : List (String × TreeItem)) (c : TestItem) : TestItem :=
  if strStartsWith c.id gen then
    match lookupEntry U (strDropLen c.id gen.length) with
    | some u => c.withChildren (syncChildren gen u.children c.children)
    | Option.none => c
  else c

theorem ph4_fold_eq (gen : String) (U : List (String × TreeItem)) (X : List TestItem)
    (hkeys : (U.map Prod.fst).Nodup) :
    U.foldl (fun cs e =>
      updateChildrenById cs (idWithGeneration gen e.1) (fun cc => syncChildren gen e.2.children cc))
      X = X.map (ph4Fun gen U) := by
  induction U generalizing X with
  | nil =>
    simp only [List.foldl_nil]
    have : X.map (ph4Fun gen []) = X.map id := by
      apply List.map_congr_left
      intro c _
      unfold ph4Fun
      have hl : lookupEntry ([] : List (String × TreeItem)) (strDropLen c.id gen.length) =
          Option.none := rfl
      rw [hl]
      split
      · rfl
      · rfl
    rw [this, List.map_id]
  | cons a U' ih =>
    obtain ⟨k, u⟩ := a
    rw [List.map_cons, List.nodup_cons] at hkeys
    rw [List.foldl_cons, ih _ hkeys.2]
    unfold updateChildrenById
    rw [List.map_map]
    apply List.map_congr_left
    intro c _
    have hkU' : lookupEntry U' k = Option.none := lookupEntry_eq_none_iff.2 hkeys.1
    by_cases hcc : (c.id == idWithGeneration gen k) = true
    · simp only [Function.comp, hcc, if_true]
      have hid : c.id = idWithGeneration gen k := beq_iff_eq.1 hcc
      have hsw : strStartsWith c.id gen = true := by
        rw [hid, idWithGeneration_eq]
        exact strStartsWith_append gen k
      have hdrop : strDropLen c.id gen.length = k := by
        rw [hid, idWithGeneration_eq, strDropLen_append]
      unfold ph4Fun
      rw [TestItem.id_withChildren, hsw, if_pos rfl, if_pos rfl, hdrop, hkU',
        lookupEntry_cons]
      simp
    · simp only [Function.comp, hcc, Bool.false_eq_true, if_false]
      unfold ph4Fun
      by_cases hsw : strStartsWith c.id gen = true
      · rw [if_pos hsw, if_pos hsw, lookupEntry_cons]
        have hkc : (k == strDropLen c.id gen.length) = false := by
          rw [← Bool.not_eq_true]
          intro hkk
          have hcid : c.id = idWithGeneration gen k := by
            rw [idWithGeneration_eq, beq_iff_eq.1 hkk]
            exact (append_strDropLen hsw).symm
          exact hcc (beq_iff_eq.2 hcid)
        rw [hkc]
        simp
      · rw [if_neg hsw, if_neg hsw]

theorem vsPairsOf_eq {gen : String} {cs : List TestItem} (h : (cs.map TestItem.id).Nodup) :
    vsPairsOf gen cs = (cs.filter (fun c => strStartsWith c.id gen)).map
      (fun c => (strDropLen c.id gen.length, c)) := by
  unfold vsPairsOf
  rw [filterMap_guard_eq]
  apply mapFromList_of_nodup_keys
  rw [List.map_map]
  have hsub : (cs.filter (fun c => strStartsWith c.id gen)).Sublist cs := List.filter_sublist _
  have hnd2 : ((cs.filter fun c => strStartsWith c.id gen).map TestItem.id).Nodup :=
    (hsub.map TestItem.id).nodup h
  have hnd3 : (cs.filter fun c => strStartsWith c.id gen).Nodup := List.Nodup.of_map _ hnd2
  apply List.Nodup.map_on ?inj hnd3
  intro x hx y hy hxy
  have hxsw := (List.mem_filter.1 hx).2
  have hysw := (List.mem_filter.1 hy).2
  simp only [Function.comp] at hxy
  have hxid : x.id = y.id := by
    rw [← append_strDropLen hxsw, ← append_strDropLen hysw, hxy]
  exact eq_of_mem_of_nodup_ids hnd2 hx hy hxid

theorem mem_vsPairs_iff {gen : String} {cs : List TestItem} {k : String} {c : TestItem} :
    (k, c) ∈ (cs.filter (fun c => strStartsWith c.id gen)).map
      (fun c => (strDropLen c.id gen.length, c)) ↔
    c ∈ cs ∧ strStartsWith c.id gen = true ∧ k = strDropLen c.id gen.length := by
  rw [List.mem_map]
  constructor
  · rintro ⟨c', hc', heq⟩
    have h1 : c' = c := congrArg Prod.snd heq
    have h2 : strDropLen c'.id gen.length = k := congrArg Prod.fst heq
    subst h1
    rcases List.mem_filter.1 hc' with ⟨hmem, hsw⟩
    exact ⟨hmem, hsw, h2.symm⟩
  · rintro ⟨hmem, hsw, rfl⟩
    exact ⟨c, List.mem_filter.2 ⟨hmem, hsw⟩, rfl⟩

/-- Derived form: the complete effect of `syncChildren` on one pre-existing
presentation child — untouched when its id does not carry the generation
prefix, removed when its stripped id is not a logical child id, and
attribute- and child-synced otherwise. -/
def syncedOld (gen : String) (us : List TreeItem) (c : TestItem) : Option TestItem :=
  if strStartsWith c.id gen then
    match lookupEntry (uPairsOf us) (strDropLen c.id gen.length) with
    | some u => some ((syncChildAttrs u c).withChildren (syncChildren gen u.children c.children))
    | Option.none => Option.none
  else some c

/-- Derived form: the children freshly created by `syncChildren`, in logical
map order, one per logical id with no existing presentation child. -/
def syncedNew (gen : String) (us : List TreeItem) (cs : List TestItem) : List TestItem :=
  ((uPairsOf us).filter (fun e => !(cs.any (fun c => c.id == idWithGeneration gen e.1)))).map
    (fun e => (syncChildAttrs e.2 (newChildBase gen e.1 e.2)).withChildren
      (syncChildren gen e.2.children []))

/-- Structure theorem for the tree differ: on an id-keyed (duplicate-free)
children collection, `syncChildren` keeps the collection order, transforming
each existing child by `syncedOld` (deleting the stale generation-tagged
ones) and appending the new children `syncedNew`. -/
theorem syncChildren_eq (gen : String) (us : List TreeItem) (cs : List TestItem)
    (h : (cs.map TestItem.id).Nodup) :
    syncChildren gen us cs = cs.filterMap (syncedOld gen us) ++ syncedNew gen us cs := by
  unfold syncChildren
  simp only []
  rw [List.foldl_attach (uPairsOf us)
    (fun acc x => updateChildrenById acc (idWithGeneration gen x.1)
      (fun cc => syncChildren gen x.2.children cc))]
  rw [ph4_fold_eq gen (uPairsOf us) _ (nodup_keys_uPairsOf us)]
  rw [vsPairsOf_eq h]
  unfold removeDeletedChildren
  rw [delFold_eq]
  set U := uPairsOf us with hU
  set W := (cs.filter (fun c => strStartsWith c.id gen)).map
      (fun c => (strDropLen c.id gen.length, c)) with hW
  set A := (fun c : TestItem => W.all (fun e =>
      (U.any fun e' => e'.1 == e.1) || c.id != idWithGeneration gen e.1)) with hA
  set B := (fun kv : String × TestItem => W.all (fun e =>
      (U.any fun e' => e'.1 == e.1) || kv.1 != e.1)) with hB
  have hWnd : (W.map Prod.fst).Nodup := by
    rw [hW, ← vsPairsOf_eq h]
    unfold vsPairsOf
    exact nodup_keys_mapFromList _
  have hA1 : ∀ c : TestItem, strStartsWith c.id gen = false → A c = true := by
    intro c hsw
    rw [hA]
    simp only []
    rw [List.all_eq_true]
    intro e _
    have hb : (c.id != idWithGeneration gen e.1) = true := by
      rw [bne_iff_ne]
      intro hcontr
      have hT : strStartsWith c.id gen = true := strStartsWith_of_eq_append (by simpa using hcontr)
      rw [hT] at hsw
      exact Bool.noConfusion hsw
    rw [hb, Bool.or_true]
  have hA2 : ∀ c : TestItem, strStartsWith c.id gen = true →
      (U.any fun e' => e'.1 == strDropLen c.id gen.length) = true → A c = true := by
    intro c hsw hany
    rw [hA]
    simp only []
    rw [List.all_eq_true]
    intro e _
    by_cases hek : e.1 = strDropLen c.id gen.length
    · rw [hek, hany, Bool.true_or]
    · have hb : (c.id != idWithGeneration gen e.1) = true := by
        rw [bne_iff_ne]
        intro hcontr
        exact hek (strDropLen_of_eq_append (by simpa using hcontr)).symm
      rw [hb, Bool.or_true]
  have hA3 : ∀ c ∈ cs, strStartsWith c.id gen = true →
      (U.any fun e' => e'.1 == strDropLen c.id gen.length) = false → A c = false := by
    intro c hc hsw hany
    rw [← Bool.not_eq_true, hA]
    simp only []
    rw [List.all_eq_true]
    intro hall
    have hmem : (strDropLen c.id gen.length, c) ∈ W := by
      rw [hW]
      exact mem_vsPairs_iff.2 ⟨hc, hsw, rfl⟩
    have hthis := hall _ hmem
    rw [hany, Bool.false_or, bne_iff_ne] at hthis
    exact hthis (by
      simp only [idWithGeneration_eq]
      exact (append_strDropLen hsw).symm)
  have hsome : ∀ e ∈ U, ∀ c, lookupEntry (W.filter B) e.1 = some c →
      c ∈ cs.filter A ∧ c.id = idWithGeneration gen e.1 := by
    intro e he c hc
    have hmem := mem_of_lookupEntry_eq_some hc
    have hmemW : (e.1, c) ∈ W := List.mem_of_mem_filter hmem
    rw [hW] at hmemW
    rcases mem_vsPairs_iff.1 hmemW with ⟨hcs, hsw, hkd⟩
    have hcid : c.id = idWithGeneration gen e.1 := by
      simp only [idWithGeneration_eq]
      rw [hkd]
      exact (append_strDropLen hsw).symm
    refine ⟨List.mem_filter.2 ⟨hcs, ?_⟩, hcid⟩
    apply hA2 c hsw
    rw [← hkd]
    exact any_key_iff.2 (List.mem_map.2 ⟨e, he, rfl⟩)
  have hnone : ∀ e ∈ U, lookupEntry (W.filter B) e.1 = Option.none →
      ∀ c ∈ cs.filter A, c.id ≠ idWithGeneration gen e.1 := by
    intro e he hc c hcmem hcontr
    rcases List.mem_filter.1 hcmem with ⟨hcs, _⟩
    have hsw : strStartsWith c.id gen = true := strStartsWith_of_eq_append (by simpa using hcontr)
    have hkd : strDropLen c.id gen.length = e.1 := strDropLen_of_eq_append (by simpa using hcontr)
    have hmemW : (e.1, c) ∈ W := by
      rw [hW]
      exact mem_vsPairs_iff.2 ⟨hcs, hsw, hkd.symm⟩
    have hBe : B (e.1, c) = true := by
      rw [hB]
      simp only []
      rw [List.all_eq_true]
      intro e' he'
      by_cases hee : e'.1 = e.1
      · rw [hee, any_key_iff.2 (List.mem_map.2 ⟨e, he, rfl⟩), Bool.true_or]
      · have hb : ((e.1, c).1 != e'.1) = true := by
          rw [bne_iff_ne]
          exact fun hx => hee hx.symm
        rw [hb, Bool.or_true]
    have hmemF : (e.1, c) ∈ W.filter B := List.mem_filter.2 ⟨hmemW, hBe⟩
    have hndF : ((W.filter B).map Prod.fst).Nodup :=
      ((List.filter_sublist W).map Prod.fst).nodup hWnd
    have hlook := lookupEntry_eq_some_of_mem_of_nodup hndF hmemF
    rw [hc] at hlook
    exact Option.noConfusion hlook
  rw [addNewChildren_eq gen U (cs.filter A) (W.filter B)
    (((List.filter_sublist cs).map TestItem.id).nodup h)
    (by rw [hU]; exact nodup_keys_uPairsOf us)
    hsome hnone]
  rw [List.map_append, List.map_map]
  congr 1
  · -- existing children
    rw [← filterMap_guard_eq A (ph4Fun gen U ∘ ph3Old gen U) cs]
    apply List.filterMap_congr
    intro c hc
    by_cases hsw : strStartsWith c.id gen = true
    · rcases hu : lookupEntry U (strDropLen c.id gen.length) with _ | u
      · have hanyf : (U.any fun e' => e'.1 == strDropLen c.id gen.length) = false := by
          rw [← Bool.not_eq_true]
          intro hx
          rw [lookupEntry_eq_none_iff] at hu
          exact hu (any_key_iff.1 hx)
        rw [hA3 c hc hsw hanyf]
        simp only [Bool.false_eq_true, if_false]
        unfold syncedOld
        rw [if_pos hsw]
        rw [hU] at hu
        rw [hu]
      · have hanyt : (U.any fun e' => e'.1 == strDropLen c.id gen.length) = true :=
          any_key_iff.2 (lookupEntry_isSome_iff.1 (by rw [hu]; rfl))
        rw [hA2 c hsw hanyt]
        simp only [if_true]
        have hu' := hu
        rw [hU] at hu'
        simp only [Function.comp]
        unfold ph3Old
        rw [if_pos hsw, hu]
        unfold ph4Fun
        rw [syncChildAttrs_id, if_pos hsw, hu]
        unfold syncedOld
        rw [if_pos hsw, hu']
        rw [syncChildAttrs_children]
    · have hsw' : strStartsWith c.id gen = false := by
        cases hx : strStartsWith c.id gen with
        | true => exact absurd hx hsw
        | false => rfl
      rw [hA1 c hsw']
      simp only [if_true, Function.comp]
      unfold ph3Old ph4Fun
      rw [if_neg hsw, if_neg hsw]
      unfold syncedOld
      rw [if_neg hsw]
  · -- new children
    unfold ph3New syncedNew
    rw [List.map_map, ← hU]
    have hfilters : U.filter (fun e => !((cs.filter A).any fun c => c.id == idWithGeneration gen e.1)) =
        U.filter (fun e => !(cs.any fun c => c.id == idWithGeneration gen e.1)) := by
      apply List.filter_congr
      intro e he
      congr 1
      cases hcs2 : (cs.any fun c => c.id == idWithGeneration gen e.1) with
      | true =>
        rcases List.any_eq_true.1 hcs2 with ⟨c, hcc, hceq⟩
        apply List.any_eq_true.2
        refine ⟨c, List.mem_filter.2 ⟨hcc, ?_⟩, hceq⟩
        have hcid := beq_iff_eq.1 hceq
        have hsw : strStartsWith c.id gen = true :=
          strStartsWith_of_eq_append (by simpa using hcid)
        apply hA2 c hsw
        rw [strDropLen_of_eq_append (by simpa using hcid)]
        exact any_key_iff.2 (List.mem_map.2 ⟨e, he, rfl⟩)
      | false =>
        cases hf : ((cs.filter A).any fun c => c.id == idWithGeneration gen e.1) with
        | false => rfl
        | true =>
          rcases List.any_eq_true.1 hf with ⟨c, hcc, hceq⟩
          have hany2 : (cs.any fun c => c.id == idWithGeneration gen e.1) = true :=
            List.any_eq_true.2 ⟨c, List.mem_of_mem_filter hcc, hceq⟩
          rw [hany2] at hcs2
          exact Bool.noConfusion hcs2
    rw [hfilters]
    apply List.map_congr_left
    intro e he
    rcases List.mem_filter.1 he with ⟨heU, _⟩
    have hxid : (syncChildAttrs e.2 (newChildBase gen e.1 e.2)).id = idWithGeneration gen e.1 := by
      rw [syncChildAttrs_id, newChildBase_id]
    unfold ph4Fun
    simp only [Function.comp]
    rw [hxid]
    simp only [idWithGeneration_eq]
    rw [if_pos (strStartsWith_append gen e.1), strDropLen_append]
    have hlook : lookupEntry U e.1 = some e.2 := by
      rw [hU]
      exact lookupEntry_uPairsOf_eq_some (hU ▸ heU)
    rw [hlook]
    rw [syncChildAttrs_children, newChildBase_children]

/-! ## Idempotence of the tree differ -/

/-- Id-keyed collections at every level of a presentation forest (the VS Code
`TestItemCollection` is keyed by id at every level). -/
inductive NodupIds : List TestItem → Prop where
  | mk : ∀ cs, (cs.map TestItem.id).Nodup → (∀ c ∈ cs, NodupIds c.children) → NodupIds cs

theorem NodupIds.ids {cs : List TestItem} (h : NodupIds cs) : (cs.map TestItem.id).Nodup := by
  cases h with
  | mk _ h1 _ => exact h1

theorem NodupIds.child {cs : List TestItem} (h : NodupIds cs) {c : TestItem} (hc : c ∈ cs) :
    NodupIds c.children := by
  cases h with
  | mk _ _ h2 => exact h2 c hc

theorem syncedOld_id {gen : String} {us : List TreeItem} {c x : TestItem}
    (h : syncedOld gen us c = some x) : x.id = c.id := by
  unfold syncedOld at h
  split at h
  · split at h
    · rw [← Option.some_inj.1 h, TestItem.id_withChildren, syncChildAttrs_id]
    · exact Option.noConfusion h
  · rw [← Option.some_inj.1 h]

theorem ids_filterMap_syncedOld_sublist (gen : String) (us : List TreeItem) (cs : List TestItem) :
    ((cs.filterMap (syncedOld gen us)).map TestItem.id).Sublist (cs.map TestItem.id) := by
  induction cs with
  | nil => simp
  | cons a t ih =>
    rw [List.filterMap_cons]
    rcases hx : syncedOld gen us a with _ | x
    · rw [List.map_cons]
      exact ih.cons _
    · rw [List.map_cons, List.map_cons, syncedOld_id hx]
      exact ih.cons₂ _

theorem mem_ids_of_mem_filterMap_syncedOld {gen : String} {us : List TreeItem}
    {cs : List TestItem} {x : TestItem} (h : x ∈ cs.filterMap (syncedOld gen us)) :
    x.id ∈ cs.map TestItem.id := by
  rcases List.mem_filterMap.1 h with ⟨c, hc, hcx⟩
  rw [syncedOld_id hcx]
  exact List.mem_map.2 ⟨c, hc, rfl⟩

theorem syncedNew_ids {gen : String} {us : List TreeItem} {cs : List TestItem} {x : TestItem}
    (h : x ∈ syncedNew gen us cs) :
    ∃ e ∈ uPairsOf us, x.id = idWithGeneration gen e.1 ∧
      (cs.any (fun c => c.id == idWithGeneration gen e.1)) = false := by
  unfold syncedNew at h
  rcases List.mem_map.1 h with ⟨e, he, hex⟩
  rcases List.mem_filter.1 he with ⟨heU, hcond⟩
  refine ⟨e, heU, ?_, ?_⟩
  · rw [← hex, TestItem.id_withChildren, syncChildAttrs_id, newChildBase_id]
  · simp only [Bool.not_eq_true'] at hcond
    exact hcond

theorem syncChildren_ids_nodup (gen : String) (us : List TreeItem) (cs : List TestItem)
    (h : (cs.map TestItem.id).Nodup) :
    ((syncChildren gen us cs).map TestItem.id).Nodup := by
  rw [syncChildren_eq gen us cs h, List.map_append]
  rw [List.nodup_append]
  refine ⟨(ids_filterMap_syncedOld_sublist gen us cs).nodup h, ?_, ?_⟩
  · -- ids of the new children are pairwise distinct
    unfold syncedNew
    rw [List.map_map]
    have hndk : ((List.filter (fun e => !cs.any fun c => c.id == idWithGeneration gen e.1)
        (uPairsOf us)).map Prod.fst).Nodup :=
      ((List.filter_sublist (uPairsOf us)).map Prod.fst).nodup (nodup_keys_uPairsOf us)
    apply List.Nodup.map_on ?inj (List.Nodup.of_map Prod.fst hndk)
    intro e1 h1 e2 h2 he
    simp only [Function.comp, TestItem.id_withChildren] at he
    rw [syncChildAttrs_id, syncChildAttrs_id, newChildBase_id, newChildBase_id] at he
    simp only [idWithGeneration_eq] at he
    have hk : e1.1 = e2.1 := string_append_left_cancel he
    exact List.inj_on_of_nodup_map hndk h1 h2 hk
  · -- disjointness: new ids are absent from the kept ids
    intro x hx hx2
    rcases List.mem_map.1 hx with ⟨c, hc, rfl⟩
    rcases List.mem_map.1 hx2 with ⟨y, hy, hyx⟩
    rcases syncedNew_ids hy with ⟨e, _, hid, hanyf⟩
    have hcid : c.id ∈ cs.map TestItem.id := mem_ids_of_mem_filterMap_syncedOld hc
    rcases List.mem_map.1 hcid with ⟨c0, hc0, hc0id⟩
    have : (cs.any fun c' => c'.id == idWithGeneration gen e.1) = true := by
      apply List.any_eq_true.2
      refine ⟨c0, hc0, beq_iff_eq.2 ?_⟩
      rw [hc0id, ← hyx, hid]
    rw [this] at hanyf
    exact Bool.noConfusion hanyf

@[simp] theorem TestItem.withChildren_self (t : TestItem) : t.withChildren t.children = t := by
  cases t
  rfl

theorem filterMap_eq_self_of_forall_some {α : Type} {f : α → Option α} {l : List α}
    (h : ∀ x ∈ l, f x = some x) : l.filterMap f = l := by
  induction l with
  | nil => rfl
  | cons a t ih =>
    rw [List.filterMap_cons, h a (List.mem_cons_self a t),
      ih (fun x hx => h x (List.mem_cons_of_mem a hx))]

theorem syncChildren_contains_key (gen : String) (us : List TreeItem) (cs : List TestItem)
    (h : (cs.map TestItem.id).Nodup) {e : String × TreeItem} (he : e ∈ uPairsOf us) :
    ((syncChildren gen us cs).any fun c => c.id == idWithGeneration gen e.1) = true := by
  rw [syncChildren_eq gen us cs h, List.any_append]
  cases hcs : (cs.any fun c => c.id == idWithGeneration gen e.1) with
  | true =>
    rcases List.any_eq_true.1 hcs with ⟨c, hc, hceq⟩
    have hcid := beq_iff_eq.1 hceq
    have hsw : strStartsWith c.id gen = true := strStartsWith_of_eq_append (by simpa using hcid)
    have hdrop : strDropLen c.id gen.length = e.1 := strDropLen_of_eq_append (by simpa using hcid)
    have hso : syncedOld gen us c =
        some ((syncChildAttrs e.2 c).withChildren (syncChildren gen e.2.children c.children)) := by
      unfold syncedOld
      rw [if_pos hsw, hdrop, lookupEntry_uPairsOf_eq_some he]
    have hfirst : ((cs.filterMap (syncedOld gen us)).any
        fun c => c.id == idWithGeneration gen e.1) = true := by
      apply List.any_eq_true.2
      refine ⟨_, List.mem_filterMap.2 ⟨c, hc, hso⟩, ?_⟩
      rw [TestItem.id_withChildren, syncChildAttrs_id]
      exact hceq
    rw [hfirst, Bool.true_or]
  | false =>
    have hx : ((syncChildAttrs e.2 (newChildBase gen e.1 e.2)).withChildren
        (syncChildren gen e.2.children [])) ∈ syncedNew gen us cs := by
      unfold syncedNew
      apply List.mem_map.2
      refine ⟨e, List.mem_filter.2 ⟨he, ?_⟩, rfl⟩
      rw [hcs]
      rfl
    have hsecond : ((syncedNew gen us cs).any fun c => c.id == idWithGeneration gen e.1) = true := by
      apply List.any_eq_true.2
      refine ⟨_, hx, ?_⟩
      rw [TestItem.id_withChildren, syncChildAttrs_id, newChildBase_id]
      exact beq_iff_eq.2 rfl
    rw [hsecond, Bool.or_true]

theorem syncChildren_idem_aux (gen : String) : ∀ n : Nat, ∀ us : List TreeItem, sizeOf us ≤ n →
    ∀ cs : List TestItem, NodupIds cs →
    syncChildren gen us (syncChildren gen us cs) = syncChildren gen us cs := by
  intro n
  induction n with
  | zero =>
    intro us hus
    exfalso
    cases us with
    | nil => simp at hus
    | cons a t => simp at hus
  | succ n ih =>
    intro us hus cs hcs
    have hnd := hcs.ids
    have hnd2 := syncChildren_ids_nodup gen us cs hnd
    rw [syncChildren_eq gen us (syncChildren gen us cs) hnd2]
    have hnews : syncedNew gen us (syncChildren gen us cs) = [] := by
      unfold syncedNew
      rw [List.map_eq_nil_iff, List.filter_eq_nil_iff]
      intro e he
      rw [syncChildren_contains_key gen us cs hnd he]
      simp
    rw [hnews, List.append_nil]
    apply filterMap_eq_self_of_forall_some
    intro x hx
    rw [syncChildren_eq gen us cs hnd] at hx
    rcases List.mem_append.1 hx with hxk | hxn
    · rcases List.mem_filterMap.1 hxk with ⟨c, hc, hcx⟩
      unfold syncedOld at hcx
      by_cases hsw : strStartsWith c.id gen = true
      · rw [if_pos hsw] at hcx
        rcases hu : lookupEntry (uPairsOf us) (strDropLen c.id gen.length) with _ | u
        · rw [hu] at hcx
          exact absurd hcx (by simp)
        · rw [hu] at hcx
          have hxeq := Option.some_inj.1 hcx
          have humem : u ∈ us := uPairs_val_mem (mem_of_lookupEntry_eq_some hu)
          have husz : sizeOf u.children ≤ n := by
            have h1 := List.sizeOf_lt_of_mem humem
            have h2 := TreeItem.sizeOf_lt_of_children u
            omega
          have hxid : x.id = c.id := by
            rw [← hxeq, TestItem.id_withChildren, syncChildAttrs_id]
          unfold syncedOld
          rw [hxid, if_pos hsw, hu]
          show some ((syncChildAttrs u x).withChildren (syncChildren gen u.children x.children)) =
            some x
          have hx1 : syncChildAttrs u x = x := by
            rw [← hxeq, syncChildAttrs_withChildren, syncChildAttrs_idem]
          have hx2 : syncChildren gen u.children x.children = x.children := by
            rw [← hxeq, TestItem.children_withChildren]
            exact ih u.children husz c.children (hcs.child hc)
          rw [hx1, hx2, TestItem.withChildren_self]
      · rw [if_neg hsw] at hcx
        have hxeq := Option.some_inj.1 hcx
        unfold syncedOld
        rw [← hxeq, if_neg hsw]
    · unfold syncedNew at hxn
      rcases List.mem_map.1 hxn with ⟨e, he, hex⟩
      rcases List.mem_filter.1 he with ⟨heU, _⟩
      have hxid : x.id = idWithGeneration gen e.1 := by
        rw [← hex, TestItem.id_withChildren, syncChildAttrs_id, newChildBase_id]
      have hemem : e.2 ∈ us := uPairs_val_mem heU
      have hesz : sizeOf e.2.children ≤ n := by
        have h1 := List.sizeOf_lt_of_mem hemem
        have h2 := TreeItem.sizeOf_lt_of_children e.2
        omega
      unfold syncedOld
      rw [hxid]
      simp only [idWithGeneration_eq]
      rw [if_pos (strStartsWith_append gen e.1), strDropLen_append,
        lookupEntry_uPairsOf_eq_some heU]
      show some ((syncChildAttrs e.2 x).withChildren (syncChildren gen e.2.children x.children)) =
        some x
      have hx1 : syncChildAttrs e.2 x = x := by
        rw [← hex, syncChildAttrs_withChildren, syncChildAttrs_idem]
      have hx2 : syncChildren gen e.2.children x.children = x.children := by
        rw [← hex, TestItem.children_withChildren]
        exact ih e.2.children hesz [] (NodupIds.mk [] (by simp) (by simp))
      rw [hx1, hx2, TestItem.withChildren_self]

/-- Idempotence of the tree differ: a second sync against the unchanged
logical children is the identity on the result of the first. -/
theorem syncChildren_idem (gen : String) (us : List TreeItem) (cs : List TestItem)
    (h : NodupIds cs) :
    syncChildren gen us (syncChildren gen us cs) = syncChildren gen us cs :=
  syncChildren_idem_aux gen (sizeOf us) us (Nat.le_refl _) cs h

/-- Fixpoint form of idempotence: every child produced by the differ is left
untouched (up to `some`) by a second `syncedOld` against the same logical
children. -/
theorem syncedOld_fixpoint (gen : String) (us : List TreeItem) (cs : List TestItem)
    (hcs : NodupIds cs) : ∀ x ∈ syncChildren gen us cs, syncedOld gen us x = some x := by
  intro x hx
  rw [syncChildren_eq gen us cs hcs.ids] at hx
  rcases List.mem_append.1 hx with hxk | hxn
  · rcases List.mem_filterMap.1 hxk with ⟨c, hc, hcx⟩
    unfold syncedOld at hcx
    by_cases hsw : strStartsWith c.id gen = true
    · rw [if_pos hsw] at hcx
      rcases hu : lookupEntry (uPairsOf us) (strDropLen c.id gen.length) with _ | u
      · rw [hu] at hcx
        exact absurd hcx (by simp)
      · rw [hu] at hcx
        have hxeq := Option.some_inj.1 hcx
        have hxid : x.id = c.id := by
          rw [← hxeq, TestItem.id_withChildren, syncChildAttrs_id]
        unfold syncedOld
        rw [hxid, if_pos hsw, hu]
        show some ((syncChildAttrs u x).withChildren (syncChildren gen u.children x.children)) =
          some x
        have hx1 : syncChildAttrs u x = x := by
          rw [← hxeq, syncChildAttrs_withChildren, syncChildAttrs_idem]
        have hx2 : syncChildren gen u.children x.children = x.children := by
          rw [← hxeq, TestItem.children_withChildren]
          exact syncChildren_idem gen u.children c.children (hcs.child hc)
        rw [hx1, hx2, TestItem.withChildren_self]
    · rw [if_neg hsw] at hcx
      have hxeq := Option.some_inj.1 hcx
      unfold syncedOld
      rw [← hxeq, if_neg hsw]
  · unfold syncedNew at hxn
    rcases List.mem_map.1 hxn with ⟨e, he, hex⟩
    rcases List.mem_filter.1 he with ⟨heU, _⟩
    have hxid : x.id = idWithGeneration gen e.1 := by
      rw [← hex, TestItem.id_withChildren, syncChildAttrs_id, newChildBase_id]
    unfold syncedOld
    rw [hxid]
    simp only [idWithGeneration_eq]
    rw [if_pos (strStartsWith_append gen e.1), strDropLen_append,
      lookupEntry_uPairsOf_eq_some heU]
    show some ((syncChildAttrs e.2 x).withChildren (syncChildren gen e.2.children x.children)) =
      some x
    have hx1 : syncChildAttrs e.2 x = x := by
      rw [← hex, syncChildAttrs_withChildren, syncChildAttrs_idem]
    have hx2 : syncChildren gen e.2.children x.children = x.children := by
      rw [← hex, TestItem.children_withChildren]
      exact syncChildren_idem gen e.2.children [] (NodupIds.mk [] (by simp) (by simp))
    rw [hx1, hx2, TestItem.withChildren_self]

/-! ## Further string facts -/

theorem string_append_assoc (a b c : String) : (a ++ b) ++ c = a ++ (b ++ c) := by
  apply String.ext
  simp [String.data_append, List.append_assoc]

theorem contains_iff_mem {l : List String} {a : String} : l.contains a = true ↔ a ∈ l :=
  List.elem_iff

/-- A string that extends one of two head-incompatible literals cannot start
with the other. -/
theorem strStartsWith_false_of_incomparable {p1 p2 : String} (t : String)
    (h1 : p1.data.isPrefixOf p2.data = false) (h2 : p2.data.isPrefixOf p1.data = false) :
    strStartsWith (p1 ++ t) p2 = false := by
  cases hq : strStartsWith (p1 ++ t) p2 with
  | false => rfl
  | true =>
    exfalso
    have hp2 : p2.data <+: (p1 ++ t).data := by
      have hq' := hq
      unfold strStartsWith at hq'
      exact ( List.isPrefixOf_iff_prefix).1 hq'
    have hp1 : p1.data <+: (p1 ++ t).data := by
      rw [String.data_append]
      exact List.prefix_append _ _
    rcases List.prefix_or_prefix_of_prefix hp1 hp2 with h | h
    · rw [← List.isPrefixOf_iff_prefix] at h
      rw [h1] at h
      exact Bool.noConfusion h
    · rw [← List.isPrefixOf_iff_prefix] at h
      rw [h2] at h
      exact Bool.noConfusion h

/-- A string starting with `p` cannot equal one that does not. -/
theorem ne_of_startsWith_mismatch {s q p : String} (hs : strStartsWith s p = true)
    (hq : strStartsWith q p = false) : s ≠ q := by
  intro h
  rw [h, hq] at hs
  exact Bool.noConfusion hs

/-! ## The shared skip-or-add fold of the auxiliary synchronizers

`_syncDisabledProjects` (lines 196–204) and `_syncConfigErrors` (lines
219–234) run the same accumulator over their entry lists: an entry whose
synthetic id is still in the stale-id list is checked off, any other entry
gets a fresh item added; afterwards the ids left in the list are deleted.
The fold is factored out generically over the entry type. -/

def auxFold {σ : Type} (idOf : σ → String) (itemOf : σ → TestItem) (S : List σ)
    (p0 : List TestItem × List String) : List TestItem × List String :=
  S.foldl (fun (p : List TestItem × List String) s =>
    if p.2.contains (idOf s) then (p.1, p.2.filter (fun i => i != idOf s))
    else (collectionAdd p.1 (itemOf s), p.2)) p0

/-- The whole auxiliary synchronizer shape: stale ids are the current ids
with the section's marker as a leading substring, then the skip-or-add fold,
then deletion of the ids still unaccounted for. -/
def auxSync {σ : Type} (idOf : σ → String) (itemOf : σ → TestItem) (pre : String)
    (S : List σ) (cs : List TestItem) : List TestItem :=
  let old := (cs.map TestItem.id).filter (fun i => strStartsWith i pre)
  let p := auxFold idOf itemOf S (cs, old)
  p.2.foldl (fun acc i => collectionDelete acc i) p.1

theorem auxFold_nil {σ : Type} (idOf : σ → String) (itemOf : σ → TestItem)
    (p0 : List TestItem × List String) : auxFold idOf itemOf [] p0 = p0 := rfl

theorem auxFold_cons {σ : Type} (idOf : σ → String) (itemOf : σ → TestItem)
    (s : σ) (S : List σ) (p0 : List TestItem × List String) :
    auxFold idOf itemOf (s :: S) p0 =
      auxFold idOf itemOf S
        (if p0.2.contains (idOf s) then (p0.1, p0.2.filter (fun i => i != idOf s))
         else (collectionAdd p0.1 (itemOf s), p0.2)) := rfl

/-! Facts about `collectionAdd`. -/

theorem mem_ids_collectionAdd {cs : List TestItem} {item : TestItem} {i : String}
    (h : i ∈ cs.map TestItem.id) : i ∈ (collectionAdd cs item).map TestItem.id := by
  unfold collectionAdd
  cases ha : cs.any (fun c => c.id == item.id) with
  | true =>
    rw [if_pos rfl]
    rcases List.mem_map.1 h with ⟨c, hc, hci⟩
    refine List.mem_map.2 ⟨if (c.id == item.id) = true then item else c,
      List.mem_map.2 ⟨c, hc, rfl⟩, ?_⟩
    cases hcc : (c.id == item.id) with
    | true =>
      rw [if_pos rfl, ← hci]
      exact (beq_iff_eq.1 hcc).symm
    | false =>
      rw [if_neg Bool.false_ne_true]
      exact hci
  | false =>
    rw [if_neg Bool.false_ne_true, List.map_append]
    exact List.mem_append_left _ h

theorem self_mem_ids_collectionAdd (cs : List TestItem) (item : TestItem) :
    item.id ∈ (collectionAdd cs item).map TestItem.id := by
  unfold collectionAdd
  cases ha : cs.any (fun c => c.id == item.id) with
  | true =>
    rw [if_pos rfl]
    rcases List.any_eq_true.1 ha with ⟨c, hc, hcc⟩
    refine List.mem_map.2 ⟨item, List.mem_map.2 ⟨c, hc, ?_⟩, rfl⟩
    show (if (c.id == item.id) = true then item else c) = item
    rw [if_pos hcc]
  | false =>
    rw [if_neg Bool.false_ne_true, List.map_append]
    exact List.mem_append_right _ (by simp)

theorem ids_collectionAdd_sub {cs : List TestItem} {item : TestItem} {i : String}
    (h : i ∈ (collectionAdd cs item).map TestItem.id) :
    i ∈ cs.map TestItem.id ∨ i = item.id := by
  unfold collectionAdd at h
  cases ha : cs.any (fun c => c.id == item.id) with
  | true =>
    rw [ha, if_pos rfl] at h
    rcases List.mem_map.1 h with ⟨x, hx, hxi⟩
    rcases List.mem_map.1 hx with ⟨c, hc, hcx⟩
    have hcx' : (if (c.id == item.id) = true then item else c) = x := hcx
    cases hcc : (c.id == item.id) with
    | true =>
      rw [hcc, if_pos rfl] at hcx'
      right
      rw [← hxi, ← hcx']
    | false =>
      rw [hcc, if_neg Bool.false_ne_true] at hcx'
      left
      exact List.mem_map.2 ⟨c, hc, by rw [hcx', hxi]⟩
  | false =>
    rw [ha, if_neg Bool.false_ne_true, List.map_append] at h
    rcases List.mem_append.1 h with h | h
    · left; exact h
    · right; simpa using h

theorem mem_collectionAdd_of_ne {cs : List TestItem} {item c : TestItem}
    (hc : c ∈ cs) (hne : c.id ≠ item.id) : c ∈ collectionAdd cs item := by
  unfold collectionAdd
  cases ha : cs.any (fun x => x.id == item.id) with
  | true =>
    rw [if_pos rfl]
    refine List.mem_map.2 ⟨c, hc, ?_⟩
    show (if (c.id == item.id) = true then item else c) = c
    rw [if_neg (by simp [hne])]
  | false =>
    rw [if_neg Bool.false_ne_true]
    exact List.mem_append_left _ hc

theorem mem_collectionAdd_sub {cs : List TestItem} {item c : TestItem}
    (h : c ∈ collectionAdd cs item) : c ∈ cs ∨ c = item := by
  unfold collectionAdd at h
  cases ha : cs.any (fun x => x.id == item.id) with
  | true =>
    rw [ha, if_pos rfl] at h
    rcases List.mem_map.1 h with ⟨x, hx, hxc⟩
    have hxc' : (if (x.id == item.id) = true then item else x) = c := hxc
    cases hcc : (x.id == item.id) with
    | true =>
      rw [hcc, if_pos rfl] at hxc'
      right
      exact hxc'.symm
    | false =>
      rw [hcc, if_neg Bool.false_ne_true] at hxc'
      left
      rw [← hxc']
      exact hx
  | false =>
    rw [ha, if_neg Bool.false_ne_true] at h
    rcases List.mem_append.1 h with h | h
    · left; exact h
    · right; simpa using h

theorem ids_collectionAdd_nodup {cs : List TestItem} (item : TestItem)
    (h : (cs.map TestItem.id).Nodup) : ((collectionAdd cs item).map TestItem.id).Nodup := by
  unfold collectionAdd
  cases ha : cs.any (fun x => x.id == item.id) with
  | true =>
    rw [if_pos rfl]
    have heq : (cs.map (fun c => if c.id == item.id then item else c)).map TestItem.id
        = cs.map TestItem.id := by
      rw [List.map_map]
      apply List.map_congr_left
      intro c _
      simp only [Function.comp]
      show TestItem.id (if (c.id == item.id) = true then item else c) = TestItem.id c
      cases hcc : (c.id == item.id) with
      | true =>
        rw [if_pos rfl]
        exact (beq_iff_eq.1 hcc).symm
      | false => rw [if_neg Bool.false_ne_true]
    rw [heq]
    exact h
  | false =>
    rw [if_neg Bool.false_ne_true, List.map_append]
    refine List.Nodup.append h (List.nodup_singleton _) ?_
    intro a haa hab
    rw [List.map_singleton, List.mem_singleton] at hab
    subst hab
    rcases List.mem_map.1 haa with ⟨c, hc, hci⟩
    have hx : cs.any (fun x => x.id == item.id) = true :=
      List.any_eq_true.2 ⟨c, hc, beq_iff_eq.2 hci⟩
    rw [ha] at hx
    exact Bool.noConfusion hx

/-! Invariants of the skip-or-add fold. -/

theorem auxFold_old_sub {σ : Type} (idOf : σ → String) (itemOf : σ → TestItem)
    (S : List σ) (p0 : List TestItem × List String) :
    ∀ i ∈ (auxFold idOf itemOf S p0).2, i ∈ p0.2 := by
  induction S generalizing p0 with
  | nil => intro i h; exact h
  | cons s S ih =>
    intro i h
    rw [auxFold_cons] at h
    cases hc : p0.2.contains (idOf s) with
    | true =>
      rw [hc, if_pos rfl] at h
      exact List.mem_of_mem_filter (ih _ i h)
    | false =>
      rw [hc, if_neg Bool.false_ne_true] at h
      exact ih (collectionAdd p0.1 (itemOf s), p0.2) i h

theorem auxFold_old_mem {σ : Type} (idOf : σ → String) (itemOf : σ → TestItem)
    (S : List σ) (p0 : List TestItem × List String) {i : String}
    (hmem : i ∈ p0.2) (hni : ((S.map idOf).contains i) = false) :
    i ∈ (auxFold idOf itemOf S p0).2 := by
  induction S generalizing p0 with
  | nil => exact hmem
  | cons s S ih =>
    rw [List.map_cons, List.contains_cons, Bool.or_eq_false_iff] at hni
    rw [auxFold_cons]
    cases hc : p0.2.contains (idOf s) with
    | true =>
      rw [if_pos rfl]
      exact ih _ (List.mem_filter.2 ⟨hmem, by simp [bne, hni.1]⟩) hni.2
    | false =>
      rw [if_neg Bool.false_ne_true]
      exact ih _ hmem hni.2

theorem auxFold_ids_grow {σ : Type} (idOf : σ → String) (itemOf : σ → TestItem)
    (S : List σ) (p0 : List TestItem × List String) {i : String}
    (h : i ∈ p0.1.map TestItem.id) : i ∈ (auxFold idOf itemOf S p0).1.map TestItem.id := by
  induction S generalizing p0 with
  | nil => exact h
  | cons s S ih =>
    rw [auxFold_cons]
    cases hc : p0.2.contains (idOf s) with
    | true =>
      rw [if_pos rfl]
      exact ih _ h
    | false =>
      rw [if_neg Bool.false_ne_true]
      exact ih _ (mem_ids_collectionAdd h)

theorem auxFold_establishes {σ : Type} (idOf : σ → String) (itemOf : σ → TestItem)
    (hitem : ∀ s, (itemOf s).id = idOf s)
    (S : List σ) (p0 : List TestItem × List String)
    (hold : ∀ i ∈ p0.2, i ∈ p0.1.map TestItem.id) :
    ∀ s ∈ S, idOf s ∈ (auxFold idOf itemOf S p0).1.map TestItem.id := by
  induction S generalizing p0 with
  | nil => intro s hs; cases hs
  | cons s' S ih =>
    intro s hs
    rw [auxFold_cons]
    cases hc : p0.2.contains (idOf s') with
    | true =>
      rw [if_pos rfl]
      rcases List.mem_cons.1 hs with heq | hs'
      · subst heq
        exact auxFold_ids_grow idOf itemOf S _ (hold _ (contains_iff_mem.1 hc))
      · exact ih (p0.1, p0.2.filter (fun i => i != idOf s'))
          (fun i hi => hold i (List.mem_of_mem_filter hi)) s hs'
    | false =>
      rw [if_neg Bool.false_ne_true]
      rcases List.mem_cons.1 hs with heq | hs'
      · subst heq
        have hm := self_mem_ids_collectionAdd p0.1 (itemOf s)
        rw [hitem s] at hm
        exact auxFold_ids_grow idOf itemOf S _ hm
      · exact ih (collectionAdd p0.1 (itemOf s'), p0.2)
          (fun i hi => mem_ids_collectionAdd (hold i hi)) s hs'

theorem auxFold_checked_off {σ : Type} (idOf : σ → String) (itemOf : σ → TestItem)
    (S : List σ) (p0 : List TestItem × List String) :
    ∀ s ∈ S, idOf s ∉ (auxFold idOf itemOf S p0).2 := by
  induction S generalizing p0 with
  | nil => intro s hs; cases hs
  | cons s' S ih =>
    intro s hs
    rw [auxFold_cons]
    rcases List.mem_cons.1 hs with heq | hs'
    · subst heq
      cases hc : p0.2.contains (idOf s) with
      | true =>
        rw [if_pos rfl]
        intro hmem
        have h2 := List.mem_filter.1 (auxFold_old_sub idOf itemOf S _ _ hmem)
        simp [bne] at h2
      | false =>
        rw [if_neg Bool.false_ne_true]
        intro hmem
        have h2 := contains_iff_mem.2 (auxFold_old_sub idOf itemOf S _ _ hmem)
        rw [hc] at h2
        exact Bool.noConfusion h2
    · cases hc : p0.2.contains (idOf s') with
      | true =>
        rw [if_pos rfl]
        exact ih _ s hs'
      | false =>
        rw [if_neg Bool.false_ne_true]
        exact ih _ s hs'

theorem auxFold_ids_sub {σ : Type} (idOf : σ → String) (itemOf : σ → TestItem)
    (hitem : ∀ s, (itemOf s).id = idOf s)
    (S : List σ) (p0 : List TestItem × List String) {i : String}
    (h : i ∈ (auxFold idOf itemOf S p0).1.map TestItem.id) :
    i ∈ p0.1.map TestItem.id ∨ i ∈ S.map idOf := by
  induction S generalizing p0 with
  | nil => left; exact h
  | cons s S ih =>
    rw [auxFold_cons] at h
    cases hc : p0.2.contains (idOf s) with
    | true =>
      rw [hc, if_pos rfl] at h
      rcases ih _ h with h' | h'
      · left; exact h'
      · right; exact List.mem_cons_of_mem _ h'
    | false =>
      rw [hc, if_neg Bool.false_ne_true] at h
      rcases ih _ h with h' | h'
      · rcases ids_collectionAdd_sub h' with h'' | h''
        · left; exact h''
        · right
          rw [h'', hitem s]
          exact List.mem_cons_self _ _
      · right; exact List.mem_cons_of_mem _ h'

theorem auxFold_frame {σ : Type} (idOf : σ → String) (itemOf : σ → TestItem)
    (hitem : ∀ s, (itemOf s).id = idOf s)
    (S : List σ) (p0 : List TestItem × List String) {c : TestItem}
    (hc : c ∈ p0.1) (hne : ∀ s ∈ S, c.id ≠ idOf s) :
    c ∈ (auxFold idOf itemOf S p0).1 := by
  induction S generalizing p0 with
  | nil => exact hc
  | cons s S ih =>
    rw [auxFold_cons]
    cases hcon : p0.2.contains (idOf s) with
    | true =>
      rw [if_pos rfl]
      exact ih _ hc (fun s' hs' => hne s' (List.mem_cons_of_mem _ hs'))
    | false =>
      rw [if_neg Bool.false_ne_true]
      refine ih _ ?_ (fun s' hs' => hne s' (List.mem_cons_of_mem _ hs'))
      apply mem_collectionAdd_of_ne hc
      rw [hitem s]
      exact hne s (List.mem_cons_self s S)

theorem auxFold_mem_sub {σ : Type} (idOf : σ → String) (itemOf : σ → TestItem)
    (S : List σ) (p0 : List TestItem × List String) {c : TestItem}
    (h : c ∈ (auxFold idOf itemOf S p0).1) :
    c ∈ p0.1 ∨ ∃ s ∈ S, c = itemOf s := by
  induction S generalizing p0 with
  | nil => left; exact h
  | cons s S ih =>
    rw [auxFold_cons] at h
    cases hc : p0.2.contains (idOf s) with
    | true =>
      rw [hc, if_pos rfl] at h
      rcases ih _ h with h' | ⟨s', hs', he⟩
      · left; exact h'
      · right; exact ⟨s', List.mem_cons_of_mem _ hs', he⟩
    | false =>
      rw [hc, if_neg Bool.false_ne_true] at h
      rcases ih _ h with h' | ⟨s', hs', he⟩
      · rcases mem_collectionAdd_sub h' with h'' | h''
        · left; exact h''
        · right; exact ⟨s, List.mem_cons_self _ _, h''⟩
      · right; exact ⟨s', List.mem_cons_of_mem _ hs', he⟩

theorem auxFold_ids_nodup {σ : Type} (idOf : σ → String) (itemOf : σ → TestItem)
    (S : List σ) (p0 : List TestItem × List String)
    (h : (p0.1.map TestItem.id).Nodup) :
    ((auxFold idOf itemOf S p0).1.map TestItem.id).Nodup := by
  induction S generalizing p0 with
  | nil => exact h
  | cons s S ih =>
    rw [auxFold_cons]
    cases hc : p0.2.contains (idOf s) with
    | true =>
      rw [if_pos rfl]
      exact ih _ h
    | false =>
      rw [if_neg Bool.false_ne_true]
      exact ih _ (ids_collectionAdd_nodup _ h)

theorem auxFold_all_present {σ : Type} (idOf : σ → String) (itemOf : σ → TestItem)
    (S : List σ) (p0 : List TestItem × List String)
    (hnd : (S.map idOf).Nodup)
    (hall : ∀ s ∈ S, idOf s ∈ p0.2) :
    auxFold idOf itemOf S p0 = (p0.1, p0.2.filter (fun i => !((S.map idOf).contains i))) := by
  induction S generalizing p0 with
  | nil =>
    rw [auxFold_nil]
    rw [show p0.2.filter (fun i => !((([] : List σ).map idOf).contains i)) = p0.2 from
      List.filter_eq_self.2 (fun a _ => rfl)]
  | cons s S ih =>
    rw [List.map_cons, List.nodup_cons] at hnd
    rw [auxFold_cons,
      if_pos (contains_iff_mem.2 (hall s (List.mem_cons_self s S)))]
    have hall' : ∀ s' ∈ S, idOf s' ∈ p0.2.filter (fun i => i != idOf s) := by
      intro s' hs'
      refine List.mem_filter.2 ⟨hall s' (List.mem_cons_of_mem _ hs'), ?_⟩
      have hne : idOf s' ≠ idOf s := by
        intro he
        exact hnd.1 (he ▸ List.mem_map.2 ⟨s', hs', rfl⟩)
      simp [bne, hne]
    rw [ih _ hnd.2 hall']
    rw [List.filter_filter]
    refine congrArg _ (List.filter_congr ?_)
    intro a _
    rw [List.map_cons, List.contains_cons]
    cases hae : (a == idOf s) <;> simp [hae, bne]

/-- The final deletion sweep of both auxiliary synchronizers, as one filter. -/
theorem deleteFold_eq_filter (L : List String) (cs : List TestItem) :
    L.foldl (fun acc i => collectionDelete acc i) cs =
      cs.filter (fun c => !(L.contains c.id)) := by
  induction L generalizing cs with
  | nil =>
    rw [List.foldl_nil]
    exact (List.filter_eq_self.2 (fun a _ => rfl)).symm
  | cons i L ih =>
    rw [List.foldl_cons, ih]
    unfold collectionDelete
    rw [List.filter_filter]
    apply List.filter_congr
    intro c _
    rw [List.contains_cons]
    cases hc : (c.id == i) <;> simp [hc, bne]

theorem auxSync_eq {σ : Type} (idOf : σ → String) (itemOf : σ → TestItem) (pre : String)
    (S : List σ) (cs : List TestItem) :
    auxSync idOf itemOf pre S cs =
      (auxFold idOf itemOf S (cs, (cs.map TestItem.id).filter (fun i => strStartsWith i pre))).1.filter
        (fun c => !((auxFold idOf itemOf S
          (cs, (cs.map TestItem.id).filter (fun i => strStartsWith i pre))).2.contains c.id)) := by
  unfold auxSync
  rw [deleteFold_eq_filter]

/-! ## The auxiliary synchronizers as instances of the generic fold -/

theorem syncDisabledProjects_eq_auxSync (ps : List TestProject) (cs : List TestItem) :
    syncDisabledProjects ps cs =
      auxSync disabledProjectId disabledProjectItem "[disabled] "
        (ps.mergeSort (fun a b =>
          decide ((a.config.configFile ++ ":" ++ a.name) ≤ (b.config.configFile ++ ":" ++ b.name))))
        cs := rfl

/-- The `(model, error)` pairs the nested loop of `_syncConfigErrors` visits,
in visit order. -/
def errPairs (errorsByModel : List (TestModel × List TestError)) :
    List (TestModel × TestError) :=
  errorsByModel.foldr (fun me acc => me.2.map (fun e => (me.1, e)) ++ acc) []

theorem errPairs_cons (me : TestModel × List TestError) (es : List (TestModel × List TestError)) :
    errPairs (me :: es) = me.2.map (fun e => (me.1, e)) ++ errPairs es := rfl

theorem nested_foldl_eq_auxFold (es : List (TestModel × List TestError))
    (p0 : List TestItem × List String) :
    es.foldl (fun p me =>
      me.2.foldl (fun (p : List TestItem × List String) error =>
        if p.2.contains (configErrorId me.1 error) then
          (p.1, p.2.filter (fun i => i != configErrorId me.1 error))
        else (collectionAdd p.1 (configErrorItem me.1 error), p.2)) p) p0 =
    auxFold (fun q => configErrorId q.1 q.2) (fun q => configErrorItem q.1 q.2) (errPairs es) p0 := by
  induction es generalizing p0 with
  | nil => rfl
  | cons me es ih =>
    rw [List.foldl_cons, ih, errPairs_cons]
    unfold auxFold
    rw [List.foldl_append, List.foldl_map]

theorem syncConfigErrors_eq_auxSync (es : List (TestModel × List TestError)) (cs : List TestItem) :
    syncConfigErrors es cs =
      auxSync (fun q => configErrorId q.1 q.2) (fun q => configErrorItem q.1 q.2) "[error] "
        (errPairs es) cs := by
  unfold syncConfigErrors auxSync
  simp only [nested_foldl_eq_auxFold]

/-! ## Ids and markers of the synthetic entries -/

theorem disabledProjectItem_id (project : TestProject) :
    (disabledProjectItem project).id = disabledProjectId project := rfl

theorem configErrorItem_id (model : TestModel) (error : TestError) :
    (configErrorItem model error).id = configErrorId model error := by
  unfold configErrorItem
  cases error.location <;> rfl

theorem disabledProjectId_eq_append (project : TestProject) :
    disabledProjectId project =
      "[disabled] " ++ (project.name ++ (" - " ++ project.config.configFile)) := by
  unfold disabledProjectId
  rw [string_append_assoc, string_append_assoc]

theorem configErrorId_eq_append (model : TestModel) (error : TestError) :
    configErrorId model error =
      "[error] " ++ (configErrorLocation model error ++ (" - " ++ configErrorMessage error)) := by
  unfold configErrorId
  rw [string_append_assoc, string_append_assoc]

theorem disabledProjectId_marker (project : TestProject) :
    strStartsWith (disabledProjectId project) "[disabled] " = true :=
  strStartsWith_of_eq_append (disabledProjectId_eq_append project)

theorem configErrorId_marker (model : TestModel) (error : TestError) :
    strStartsWith (configErrorId model error) "[error] " = true :=
  strStartsWith_of_eq_append (configErrorId_eq_append model error)

theorem disabledProjectId_not_error_marker (project : TestProject) :
    strStartsWith (disabledProjectId project) "[error] " = false := by
  rw [disabledProjectId_eq_append]
  exact strStartsWith_false_of_incomparable _ (by decide) (by decide)

theorem configErrorId_not_disabled_marker (model : TestModel) (error : TestError) :
    strStartsWith (configErrorId model error) "[disabled] " = false := by
  rw [configErrorId_eq_append]
  exact strStartsWith_false_of_incomparable _ (by decide) (by decide)

/-! ## Behaviour of the auxiliary synchronizer shape -/

theorem auxSync_id {σ : Type} (idOf : σ → String) (itemOf : σ → TestItem) (pre : String)
    (S : List σ) (cs : List TestItem)
    (hnd : (S.map idOf).Nodup)
    (hpre : ∀ s, strStartsWith (idOf s) pre = true)
    (hsup : ∀ s ∈ S, idOf s ∈ cs.map TestItem.id)
    (hsub : ∀ i ∈ cs.map TestItem.id, strStartsWith i pre = true → i ∈ S.map idOf) :
    auxSync idOf itemOf pre S cs = cs := by
  have hall : ∀ s ∈ S, idOf s ∈ (cs.map TestItem.id).filter (fun i => strStartsWith i pre) :=
    fun s hs => List.mem_filter.2 ⟨hsup s hs, hpre s⟩
  have hrem : ((cs.map TestItem.id).filter (fun i => strStartsWith i pre)).filter
      (fun i => !((S.map idOf).contains i)) = [] := by
    rw [List.filter_eq_nil_iff]
    intro a ha
    have h1 := List.mem_filter.1 ha
    have h2 := hsub a h1.1 h1.2
    simp
    rcases List.mem_map.1 h2 with ⟨x, hx, hxe⟩
    exact ⟨x, hx, hxe⟩
  rw [auxSync_eq, auxFold_all_present idOf itemOf S _ hnd hall, hrem]
  simp

theorem auxSync_establishes {σ : Type} (idOf : σ → String) (itemOf : σ → TestItem) (pre : String)
    (S : List σ) (cs : List TestItem)
    (hitem : ∀ s, (itemOf s).id = idOf s) :
    ∀ s ∈ S, idOf s ∈ (auxSync idOf itemOf pre S cs).map TestItem.id := by
  intro s hs
  rw [auxSync_eq]
  have hold : ∀ i ∈ (cs.map TestItem.id).filter (fun i => strStartsWith i pre),
      i ∈ cs.map TestItem.id := fun i hi => List.mem_of_mem_filter hi
  have hid := auxFold_establishes idOf itemOf hitem S
    (cs, (cs.map TestItem.id).filter (fun i => strStartsWith i pre)) hold s hs
  rcases List.mem_map.1 hid with ⟨c, hc, hci⟩
  have hnc : ((auxFold idOf itemOf S
      (cs, (cs.map TestItem.id).filter (fun i => strStartsWith i pre))).2.contains (idOf s))
      = false := by
    cases hx : ((auxFold idOf itemOf S
        (cs, (cs.map TestItem.id).filter (fun i => strStartsWith i pre))).2.contains (idOf s)) with
    | true => exact absurd (contains_iff_mem.1 hx) (auxFold_checked_off idOf itemOf S _ s hs)
    | false => rfl
  refine List.mem_map.2 ⟨c, List.mem_filter.2 ⟨hc, ?_⟩, hci⟩
  rw [hci, hnc]
  rfl

theorem auxSync_ids_bound {σ : Type} (idOf : σ → String) (itemOf : σ → TestItem) (pre : String)
    (S : List σ) (cs : List TestItem)
    (hitem : ∀ s, (itemOf s).id = idOf s) {i : String}
    (h : i ∈ (auxSync idOf itemOf pre S cs).map TestItem.id)
    (hp : strStartsWith i pre = true) :
    i ∈ S.map idOf := by
  rw [auxSync_eq] at h
  rcases List.mem_map.1 h with ⟨c, hc, hci⟩
  rcases List.mem_filter.1 hc with ⟨hc1, hc2⟩
  by_cases hS : i ∈ S.map idOf
  · exact hS
  · exfalso
    have hci' : c.id = i := hci
    have hids : i ∈ (auxFold idOf itemOf S
        (cs, (cs.map TestItem.id).filter (fun i => strStartsWith i pre))).1.map TestItem.id :=
      List.mem_map.2 ⟨c, hc1, hci⟩
    rcases auxFold_ids_sub idOf itemOf hitem S _ hids with hin | hin
    · have hold : i ∈ (cs.map TestItem.id).filter (fun i => strStartsWith i pre) :=
        List.mem_filter.2 ⟨hin, hp⟩
      have hniS : ((S.map idOf).contains i) = false := by
        cases hx : ((S.map idOf).contains i) with
        | true => exact absurd (contains_iff_mem.1 hx) hS
        | false => rfl
      have hmem2 := auxFold_old_mem idOf itemOf S
        (cs, (cs.map TestItem.id).filter (fun i => strStartsWith i pre)) hold hniS
      rw [hci', contains_iff_mem.2 hmem2] at hc2
      exact Bool.noConfusion hc2
    · exact hS hin

theorem auxSync_frame {σ : Type} (idOf : σ → String) (itemOf : σ → TestItem) (pre : String)
    (S : List σ) (cs : List TestItem)
    (hitem : ∀ s, (itemOf s).id = idOf s)
    (hpre : ∀ s, strStartsWith (idOf s) pre = true) {c : TestItem}
    (hc : c ∈ cs) (hcp : strStartsWith c.id pre = false) :
    c ∈ auxSync idOf itemOf pre S cs := by
  rw [auxSync_eq]
  have hne : ∀ s ∈ S, c.id ≠ idOf s := by
    intro s _ he
    rw [he, hpre s] at hcp
    exact Bool.noConfusion hcp
  refine List.mem_filter.2 ⟨auxFold_frame idOf itemOf hitem S _ hc hne, ?_⟩
  have hnc : ((auxFold idOf itemOf S
      (cs, (cs.map TestItem.id).filter (fun i => strStartsWith i pre))).2.contains c.id)
      = false := by
    cases hx : ((auxFold idOf itemOf S
        (cs, (cs.map TestItem.id).filter (fun i => strStartsWith i pre))).2.contains c.id) with
    | true =>
      exfalso
      have hmem := auxFold_old_sub idOf itemOf S _ _ (contains_iff_mem.1 hx)
      have := (List.mem_filter.1 hmem).2
      rw [hcp] at this
      exact Bool.noConfusion this
    | false => rfl
  rw [hnc]
  rfl

theorem auxSync_mem_sub {σ : Type} (idOf : σ → String) (itemOf : σ → TestItem) (pre : String)
    (S : List σ) (cs : List TestItem) {c : TestItem}
    (h : c ∈ auxSync idOf itemOf pre S cs) :
    c ∈ cs ∨ ∃ s ∈ S, c = itemOf s := by
  rw [auxSync_eq] at h
  exact auxFold_mem_sub idOf itemOf S _ (List.mem_of_mem_filter h)

theorem auxSync_ids_nodup {σ : Type} (idOf : σ → String) (itemOf : σ → TestItem) (pre : String)
    (S : List σ) (cs : List TestItem)
    (h : (cs.map TestItem.id).Nodup) :
    ((auxSync idOf itemOf pre S cs).map TestItem.id).Nodup := by
  rw [auxSync_eq]
  exact ((List.filter_sublist _).map TestItem.id).nodup (auxFold_ids_nodup idOf itemOf S _ h)

/-! ## Interaction of the synthetic markers with the generation prefix

A `createGuid() + ':'` generation never starts with `'['` (guids are hex),
which is captured by the hypothesis `hGen` below: no string of the form
`'[' + t` carries the generation prefix. -/

theorem disabled_marker_not_gen {gen i : String}
    (hGen : ∀ t, strStartsWith ("[" ++ t) gen = false)
    (h : strStartsWith i "[disabled] " = true) : strStartsWith i gen = false := by
  rcases strStartsWith_iff.1 h with ⟨t, rfl⟩
  have he : "[disabled] " ++ t = "[" ++ ("disabled] " ++ t) := by
    rw [← string_append_assoc]
    rfl
  rw [he]
  exact hGen _

theorem error_marker_not_gen {gen i : String}
    (hGen : ∀ t, strStartsWith ("[" ++ t) gen = false)
    (h : strStartsWith i "[error] " = true) : strStartsWith i gen = false := by
  rcases strStartsWith_iff.1 h with ⟨t, rfl⟩
  have he : "[error] " ++ t = "[" ++ ("error] " ++ t) := by
    rw [← string_append_assoc]
    rfl
  rw [he]
  exact hGen _

theorem gen_not_disabled_marker {gen i : String}
    (hGen : ∀ t, strStartsWith ("[" ++ t) gen = false)
    (h : strStartsWith i gen = true) : strStartsWith i "[disabled] " = false := by
  cases hm : strStartsWith i "[disabled] " with
  | false => rfl
  | true =>
    rw [disabled_marker_not_gen hGen hm] at h
    exact Bool.noConfusion h

theorem gen_not_error_marker {gen i : String}
    (hGen : ∀ t, strStartsWith ("[" ++ t) gen = false)
    (h : strStartsWith i gen = true) : strStartsWith i "[error] " = false := by
  cases hm : strStartsWith i "[error] " with
  | false => rfl
  | true =>
    rw [error_marker_not_gen hGen hm] at h
    exact Bool.noConfusion h

/-! ## Idempotence of the whole per-folder content pass -/

/-- Any item of the first pass that carries the active generation prefix
survives the two auxiliary synchronizers unchanged. -/
theorem aux_passes_keep_gen_item {gen : String} {ps : List TestProject}
    {es : List (TestModel × List TestError)} {t1 : List TestItem}
    (hGen : ∀ t, strStartsWith ("[" ++ t) gen = false) {c : TestItem}
    (hc : c ∈ t1) (hsw : strStartsWith c.id gen = true) :
    c ∈ syncConfigErrors es (syncDisabledProjects ps t1) := by
  rw [syncConfigErrors_eq_auxSync, syncDisabledProjects_eq_auxSync]
  apply auxSync_frame (fun q : TestModel × TestError => configErrorId q.1 q.2) (fun q : TestModel × TestError => configErrorItem q.1 q.2)
    "[error] " (errPairs es) _ (fun q : TestModel × TestError => configErrorItem_id q.1 q.2)
    (fun q : TestModel × TestError => configErrorId_marker q.1 q.2)
  · apply auxSync_frame disabledProjectId disabledProjectItem "[disabled] " _ _
      disabledProjectItem_id disabledProjectId_marker hc
    exact gen_not_disabled_marker hGen hsw
  · exact gen_not_error_marker hGen hsw

/-- The three content synchronizers of one `_update` folder step, run on a
result of themselves, change nothing: the composed per-folder pass is
idempotent. -/
theorem folderPassIdem (gen : String) (us : List TreeItem) (ps : List TestProject)
    (es : List (TestModel × List TestError)) (cs : List TestItem)
    (hcs : NodupIds cs)
    (hGen : ∀ t, strStartsWith ("[" ++ t) gen = false)
    (hps : (ps.map disabledProjectId).Nodup)
    (hes : ((errPairs es).map (fun q : TestModel × TestError => configErrorId q.1 q.2)).Nodup) :
    syncConfigErrors es (syncDisabledProjects ps (syncChildren gen us
        (syncConfigErrors es (syncDisabledProjects ps (syncChildren gen us cs))))) =
      syncConfigErrors es (syncDisabledProjects ps (syncChildren gen us cs)) := by
  have hperm := List.mergeSort_perm ps (fun a b =>
    decide ((a.config.configFile ++ ":" ++ a.name) ≤ (b.config.configFile ++ ":" ++ b.name)))
  obtain ⟨t1, ht1⟩ : ∃ t, syncChildren gen us cs = t := ⟨_, rfl⟩
  obtain ⟨t2, ht2⟩ : ∃ t, syncDisabledProjects ps t1 = t := ⟨_, rfl⟩
  obtain ⟨t3, ht3⟩ : ∃ t, syncConfigErrors es t2 = t := ⟨_, rfl⟩
  rw [ht1, ht2, ht3]
  have ht1nd : (t1.map TestItem.id).Nodup := by
    rw [← ht1]
    exact syncChildren_ids_nodup gen us cs hcs.ids
  have ht2nd : (t2.map TestItem.id).Nodup := by
    rw [← ht2, syncDisabledProjects_eq_auxSync]
    exact auxSync_ids_nodup _ _ _ _ _ ht1nd
  have ht3nd : (t3.map TestItem.id).Nodup := by
    rw [← ht3, syncConfigErrors_eq_auxSync]
    exact auxSync_ids_nodup _ _ _ _ _ ht2nd
  -- decomposing membership in t3 and t2
  have hCsub : ∀ c ∈ t3, c ∈ t2 ∨ ∃ q ∈ errPairs es, c = configErrorItem q.1 q.2 := by
    intro c hc
    rw [← ht3, syncConfigErrors_eq_auxSync] at hc
    exact auxSync_mem_sub _ _ _ _ _ hc
  have hBsub : ∀ c ∈ t2, c ∈ t1 ∨ ∃ p ∈ ps, c = disabledProjectItem p := by
    intro c hc
    rw [← ht2, syncDisabledProjects_eq_auxSync] at hc
    rcases auxSync_mem_sub _ _ _ _ _ hc with h | ⟨p, hp, he⟩
    · exact Or.inl h
    · exact Or.inr ⟨p, hperm.subset hp, he⟩
  -- step 1: the differ leaves t3 unchanged
  have hA : syncChildren gen us t3 = t3 := by
    rw [syncChildren_eq gen us t3 ht3nd]
    have hnews : syncedNew gen us t3 = [] := by
      unfold syncedNew
      rw [List.map_eq_nil_iff, List.filter_eq_nil_iff]
      intro e he
      have h1 := syncChildren_contains_key gen us cs hcs.ids he
      rw [ht1] at h1
      rcases List.any_eq_true.1 h1 with ⟨c, hc, hceq⟩
      have hcid := beq_iff_eq.1 hceq
      have hsw : strStartsWith c.id gen = true :=
        strStartsWith_of_eq_append (by simpa using hcid)
      have hc3 : c ∈ t3 := by
        rw [← ht3, ← ht2]
        exact aux_passes_keep_gen_item hGen hc hsw
      have h2 : (t3.any fun c => c.id == idWithGeneration gen e.1) = true :=
        List.any_eq_true.2 ⟨c, hc3, hceq⟩
      simp only [h2]
      intro hcontr
      exact Bool.noConfusion hcontr
    rw [hnews, List.append_nil]
    apply filterMap_eq_self_of_forall_some
    intro x hx
    have hfix_nomatch : strStartsWith x.id gen = false → syncedOld gen us x = some x := by
      intro hf
      unfold syncedOld
      rw [hf, if_neg Bool.false_ne_true]
    rcases hCsub x hx with hx2 | ⟨q, _, rfl⟩
    · rcases hBsub x hx2 with hx1 | ⟨p, _, rfl⟩
      · rw [← ht1] at hx1
        exact syncedOld_fixpoint gen us cs hcs x hx1
      · apply hfix_nomatch
        rw [disabledProjectItem_id]
        exact disabled_marker_not_gen hGen (disabledProjectId_marker p)
    · apply hfix_nomatch
      rw [configErrorItem_id]
      exact error_marker_not_gen hGen (configErrorId_marker q.1 q.2)
  -- step 2: the disabled-projects synchronizer leaves t3 unchanged
  have hB : syncDisabledProjects ps t3 = t3 := by
    rw [syncDisabledProjects_eq_auxSync]
    apply auxSync_id disabledProjectId disabledProjectItem "[disabled] " _ t3
    · exact (hperm.map disabledProjectId).nodup_iff.2 hps
    · exact disabledProjectId_marker
    · intro p hp
      have hp' : p ∈ ps := hperm.subset hp
      have hest : disabledProjectId p ∈ t2.map TestItem.id := by
        rw [← ht2, syncDisabledProjects_eq_auxSync]
        have hx := auxSync_establishes disabledProjectId disabledProjectItem "[disabled] "
          (ps.mergeSort (fun a b =>
            decide ((a.config.configFile ++ ":" ++ a.name) ≤
              (b.config.configFile ++ ":" ++ b.name)))) t1
          disabledProjectItem_id p ((hperm.mem_iff).2 hp')
        exact hx
      rcases List.mem_map.1 hest with ⟨c, hc, hci⟩
      have hc3 : c ∈ t3 := by
        rw [← ht3, syncConfigErrors_eq_auxSync]
        have hx := auxSync_frame (fun q : TestModel × TestError => configErrorId q.1 q.2)
          (fun q : TestModel × TestError => configErrorItem q.1 q.2) "[error] " (errPairs es) t2
          (fun q : TestModel × TestError => configErrorItem_id q.1 q.2) (fun q : TestModel × TestError => configErrorId_marker q.1 q.2)
          hc (by rw [hci]; exact disabledProjectId_not_error_marker p)
        exact hx
      exact List.mem_map.2 ⟨c, hc3, hci⟩
    · intro i hi hm
      rcases List.mem_map.1 hi with ⟨c, hc, hci⟩
      rcases hCsub c hc with hc2 | ⟨q, _, rfl⟩
      · rw [← ht2, syncDisabledProjects_eq_auxSync] at hc2
        have hx := auxSync_ids_bound disabledProjectId disabledProjectItem "[disabled] "
          (ps.mergeSort (fun a b =>
            decide ((a.config.configFile ++ ":" ++ a.name) ≤
              (b.config.configFile ++ ":" ++ b.name)))) t1
          disabledProjectItem_id (List.mem_map.2 ⟨c, hc2, hci⟩) hm
        exact hx
      · exfalso
        rw [← hci, configErrorItem_id] at hm
        rw [configErrorId_not_disabled_marker q.1 q.2] at hm
        exact Bool.noConfusion hm
  -- step 3: the config-errors synchronizer leaves t3 unchanged
  have hC : syncConfigErrors es t3 = t3 := by
    rw [syncConfigErrors_eq_auxSync]
    apply auxSync_id (fun q : TestModel × TestError => configErrorId q.1 q.2) (fun q : TestModel × TestError => configErrorItem q.1 q.2)
      "[error] " (errPairs es) t3
    · exact hes
    · exact fun q => configErrorId_marker q.1 q.2
    · intro q hq
      rw [← ht3, syncConfigErrors_eq_auxSync]
      have hx := auxSync_establishes (fun q : TestModel × TestError => configErrorId q.1 q.2)
        (fun q : TestModel × TestError => configErrorItem q.1 q.2) "[error] " (errPairs es) t2
        (fun q : TestModel × TestError => configErrorItem_id q.1 q.2) q hq
      exact hx
    · intro i hi hm
      rcases List.mem_map.1 hi with ⟨c, hc, hci⟩
      rw [← ht3, syncConfigErrors_eq_auxSync] at hc
      have hx := auxSync_ids_bound (fun q : TestModel × TestError => configErrorId q.1 q.2)
        (fun q : TestModel × TestError => configErrorItem q.1 q.2) "[error] " (errPairs es) t2
        (fun q : TestModel × TestError => configErrorItem_id q.1 q.2) (List.mem_map.2 ⟨c, hc, hci⟩) hm
      exact hx
  rw [hA, hB, hC]

/-! ## State-level plumbing for a full `_update` pass -/

theorem lookupEntry_setEntry_self {α : Type} (m : List (String × α)) (k : String) (v : α) :
    lookupEntry (setEntry m k v) k = some v := by
  induction m with
  | nil => simp [setEntry, lookupEntry]
  | cons a m ih =>
    rw [setEntry_cons]
    cases ha : (a.1 == k) with
    | true =>
      rw [if_pos rfl, lookupEntry_cons]
      simp
    | false =>
      rw [if_neg Bool.false_ne_true, lookupEntry_cons, ha, if_neg Bool.false_ne_true]
      exact ih

theorem eraseEntry_eq_nil {α : Type} {m : List (String × α)} {k : String}
    (h : ∀ e ∈ m, e.1 = k) : eraseEntry m k = [] := by
  unfold eraseEntry
  rw [List.filter_eq_nil_iff]
  intro e he
  simp [bne, h e he]

theorem filter_self_idem {α : Type} (p : α → Bool) (l : List α) :
    (l.filter p).filter p = l.filter p := by
  rw [List.filter_filter]
  apply List.filter_congr
  intro a _
  rw [Bool.and_self]

theorem foldl_skip_all {β γ : Type} (L : List γ) (s : β) (cond : γ → Bool) (act : β → γ → β)
    (h : ∀ k ∈ L, cond k = true) :
    L.foldl (fun s k => if cond k then s else act s k) s = s := by
  induction L generalizing s with
  | nil => rfl
  | cons a L ih =>
    rw [List.foldl_cons, if_pos (h a (List.mem_cons_self a L))]
    exact ih s (fun k hk => h k (List.mem_cons_of_mem a hk))

/-- `_indexTree` recomputes both indices from the registry and the controller
collection alone, so it identifies states that agree on those. -/
theorem indexTree_congr {s s' : TreeState} (h1 : s.testGeneration = s'.testGeneration)
    (h2 : s.controllerItems = s'.controllerItems) (h3 : s.rootItems = s'.rootItems) :
    indexTree s = indexTree s' := by
  cases s with
  | mk g ci ri a b =>
    cases s' with
    | mk g' ci' ri' a' b' =>
      dsimp only at h1 h2 h3
      subst h1
      subst h2
      subst h3
      rfl

/-- One `_update` pass over a single active workspace folder, unrolled. -/
theorem update_singleton_eq (wf : WorkspaceFolderData) (s : TreeState) :
    update [wf] s =
      (let s1 :=
        if wf.upstreamRootChildren.length == 0 && wf.disabledProjects.isEmpty &&
            wf.configErrorsByModel.isEmpty then
          deleteRootItem 1 (uriToPath wf.folderUri) s
        else
          let pr := createRootItemIfNeeded 1 wf.folderUri s
          let sA := applyToRootChildren pr.2 pr.1
            (fun cs => syncChildren pr.2.testGeneration wf.upstreamRootChildren cs)
          let sB := applyToRootChildren sA pr.1
            (fun cs => syncDisabledProjects wf.disabledProjects cs)
          applyToRootChildren sB pr.1 (fun cs => syncConfigErrors wf.configErrorsByModel cs)
      indexTree ((s1.rootItems.map (fun e => e.1)).foldl (fun s2 itemFsPath =>
        if [wf].any (fun f => uriToPath f.folderUri == itemFsPath) then s2
        else deleteRootItem 1 itemFsPath s2) s1)) := rfl

theorem createRoot_found (n : Nat) (uri : String) (s : TreeState) (r : RootEntry)
    (h : lookupEntry s.rootItems (uriToPath uri) = some r) :
    createRootItemIfNeeded n uri s = (r, s) := by
  unfold createRootItemIfNeeded
  dsimp only
  rw [h]

theorem createRoot_flat (uri : String) (s : TreeState)
    (h : lookupEntry s.rootItems (uriToPath uri) = Option.none) :
    createRootItemIfNeeded 1 uri s =
      (RootEntry.flat (idWithGeneration s.testGeneration (uriToPath uri)) uri,
       { s with rootItems := setEntry s.rootItems (uriToPath uri) (RootEntry.flat (idWithGeneration s.testGeneration (uriToPath uri)) uri) }) := by
  unfold createRootItemIfNeeded
  dsimp only
  rw [h]
  rfl

theorem applyToRootChildren_flat (s : TreeState) (i u : String) (f : List TestItem → List TestItem) :
    applyToRootChildren s (RootEntry.flat i u) f =
      { s with controllerItems := f s.controllerItems } := rfl

theorem deleteRootItem_single (fsPath : String) (s : TreeState) :
    deleteRootItem 1 fsPath s =
      { s with
          controllerItems :=
            s.controllerItems.filter (fun i => i.id == "loading" || i.id == "disabled"),
          rootItems := eraseEntry s.rootItems fsPath } := rfl

/-- C4: a sync pass is idempotent.  With one active workspace folder and
unchanged inputs (logical tree, disabled projects, config errors), a second
`_update` run leaves the entire tree state — presentation tree and rebuilt
reverse indices — exactly as the first run left it.  Hypotheses: the
controller collection is id-keyed at every level, the active generation (a
`guid + ':'` value) does not begin with `'['`, the synthetic disabled/error
ids are pairwise distinct, and the registry holds at most the active
folder's single-folder (flat) root. -/
theorem claim_C4_sync_pass_idempotent (wf : WorkspaceFolderData) (s : TreeState)
    (h1 : NodupIds s.controllerItems)
    (h2 : ∀ t, strStartsWith ("[" ++ t) s.testGeneration = false)
    (h3 : (wf.disabledProjects.map disabledProjectId).Nodup)
    (h4 : ((errPairs wf.configErrorsByModel).map
        (fun q : TestModel × TestError => configErrorId q.1 q.2)).Nodup)
    (h5 : ∀ e ∈ s.rootItems, e.1 = uriToPath wf.folderUri ∧ ∃ i u, e.2 = RootEntry.flat i u) :
    update [wf] (update [wf] s) = update [wf] s := by
  have hstale : ∀ (st : TreeState), (∀ e ∈ st.rootItems, e.1 = uriToPath wf.folderUri) →
      ((st.rootItems.map (fun e => e.1)).foldl (fun s2 itemFsPath =>
        if [wf].any (fun f => uriToPath f.folderUri == itemFsPath) then s2
        else deleteRootItem 1 itemFsPath s2) st) = st := by
    intro st hkeys
    apply foldl_skip_all
    intro k hk
    rcases List.mem_map.1 hk with ⟨e, he, hek⟩
    rw [← hek, hkeys e he]
    simp
  cases hcond : (wf.upstreamRootChildren.length == 0 && wf.disabledProjects.isEmpty &&
      wf.configErrorsByModel.isEmpty) with
  | true =>
    have hroot1 : (deleteRootItem 1 (uriToPath wf.folderUri) s).rootItems = [] :=
      eraseEntry_eq_nil (fun e he => (h5 e he).1)
    have hinner : update [wf] s = indexTree (deleteRootItem 1 (uriToPath wf.folderUri) s) := by
      rw [update_singleton_eq]
      dsimp only
      rw [hcond, if_pos rfl, hroot1]
      simp only [List.map_nil, List.foldl_nil]
    rw [hinner, update_singleton_eq]
    dsimp only
    rw [hcond, if_pos rfl]
    have hroot2 : (deleteRootItem 1 (uriToPath wf.folderUri)
        (indexTree (deleteRootItem 1 (uriToPath wf.folderUri) s))).rootItems = [] := by
      show eraseEntry (deleteRootItem 1 (uriToPath wf.folderUri) s).rootItems
        (uriToPath wf.folderUri) = []
      rw [hroot1]
      rfl
    rw [hroot2]
    simp only [List.map_nil, List.foldl_nil]
    apply indexTree_congr
    · rfl
    · show ((s.controllerItems.filter (fun i => i.id == "loading" || i.id == "disabled")).filter
        (fun i => i.id == "loading" || i.id == "disabled")) =
        s.controllerItems.filter (fun i => i.id == "loading" || i.id == "disabled")
      exact filter_self_idem _ _
    · rw [hroot2, hroot1]
  | false =>
    obtain ⟨T, hT⟩ : ∃ t, syncConfigErrors wf.configErrorsByModel
        (syncDisabledProjects wf.disabledProjects
          (syncChildren s.testGeneration wf.upstreamRootChildren s.controllerItems)) = t := ⟨_, rfl⟩
    have hTT : syncConfigErrors wf.configErrorsByModel
        (syncDisabledProjects wf.disabledProjects
          (syncChildren s.testGeneration wf.upstreamRootChildren T)) = T := by
      rw [← hT]
      exact folderPassIdem s.testGeneration wf.upstreamRootChildren wf.disabledProjects
        wf.configErrorsByModel s.controllerItems h1 h2 h3 h4
    cases hlook : lookupEntry s.rootItems (uriToPath wf.folderUri) with
    | some r0 =>
      obtain ⟨i0, u0, hr0⟩ := (h5 _ (mem_of_lookupEntry_eq_some hlook)).2
      subst hr0
      have hinner : update [wf] s = indexTree { s with controllerItems := T } := by
        rw [update_singleton_eq]
        dsimp only
        rw [hcond, if_neg Bool.false_ne_true]
        rw [createRoot_found 1 wf.folderUri s _ hlook]
        dsimp only
        rw [applyToRootChildren_flat, applyToRootChildren_flat, applyToRootChildren_flat]
        dsimp only
        rw [hT]
        rw [hstale { s with controllerItems := T } (fun e he => (h5 e he).1)]
      obtain ⟨st3, hst3⟩ : ∃ x, indexTree { s with controllerItems := T } = x := ⟨_, rfl⟩
      have hst3g : st3.testGeneration = s.testGeneration := by
        rw [← hst3]
        rfl
      have hst3c : st3.controllerItems = T := by
        rw [← hst3]
        rfl
      have hst3r : st3.rootItems = s.rootItems := by
        rw [← hst3]
        rfl
      rw [hinner, hst3, update_singleton_eq]
      dsimp only
      rw [hcond, if_neg Bool.false_ne_true]
      have hlook2 : lookupEntry st3.rootItems (uriToPath wf.folderUri) =
          some (RootEntry.flat i0 u0) := by
        rw [hst3r]
        exact hlook
      rw [createRoot_found 1 wf.folderUri st3 _ hlook2]
      dsimp only
      rw [applyToRootChildren_flat, applyToRootChildren_flat, applyToRootChildren_flat]
      dsimp only
      have hTT3 : syncConfigErrors wf.configErrorsByModel
          (syncDisabledProjects wf.disabledProjects
            (syncChildren st3.testGeneration wf.upstreamRootChildren st3.controllerItems)) = T := by
        rw [hst3g, hst3c]
        exact hTT
      rw [hTT3]
      rw [hstale { st3 with controllerItems := T } (fun e he => (h5 e (hst3r ▸ he)).1)]
      rw [← hst3]
      apply indexTree_congr
      · rfl
      · rfl
      · rfl
    | none =>
      obtain ⟨R2, hR2⟩ : ∃ m, setEntry s.rootItems (uriToPath wf.folderUri)
          (RootEntry.flat (idWithGeneration s.testGeneration (uriToPath wf.folderUri))
            wf.folderUri) = m := ⟨_, rfl⟩
      have hR2keys : ∀ e ∈ R2, e.1 = uriToPath wf.folderUri := by
        intro e he
        rw [← hR2] at he
        rcases mem_setEntry_sub he with h | h
        · exact (h5 e h).1
        · rw [h]
      have hR2look : lookupEntry R2 (uriToPath wf.folderUri) =
          some (RootEntry.flat (idWithGeneration s.testGeneration (uriToPath wf.folderUri))
            wf.folderUri) := by
        rw [← hR2]
        exact lookupEntry_setEntry_self _ _ _
      have hinner : update [wf] s =
          indexTree { s with controllerItems := T, rootItems := R2 } := by
        rw [update_singleton_eq]
        dsimp only
        rw [hcond, if_neg Bool.false_ne_true]
        rw [createRoot_flat wf.folderUri s hlook]
        dsimp only
        rw [applyToRootChildren_flat, applyToRootChildren_flat, applyToRootChildren_flat]
        dsimp only
        rw [hT, hR2]
        rw [hstale { s with controllerItems := T, rootItems := R2 }
          (fun e he => hR2keys e he)]
      obtain ⟨st4, hst4⟩ : ∃ x,
          indexTree { s with controllerItems := T, rootItems := R2 } = x := ⟨_, rfl⟩
      have hst4g : st4.testGeneration = s.testGeneration := by
        rw [← hst4]
        rfl
      have hst4c : st4.controllerItems = T := by
        rw [← hst4]
        rfl
      have hst4r : st4.rootItems = R2 := by
        rw [← hst4]
        rfl
      rw [hinner, hst4, update_singleton_eq]
      dsimp only
      rw [hcond, if_neg Bool.false_ne_true]
      have hlook2 : lookupEntry st4.rootItems (uriToPath wf.folderUri) =
          some (RootEntry.flat (idWithGeneration s.testGeneration (uriToPath wf.folderUri))
            wf.folderUri) := by
        rw [hst4r]
        exact hR2look
      rw [createRoot_found 1 wf.folderUri st4 _ hlook2]
      dsimp only
      rw [applyToRootChildren_flat, applyToRootChildren_flat, applyToRootChildren_flat]
      dsimp only
      have hTT4 : syncConfigErrors wf.configErrorsByModel
          (syncDisabledProjects wf.disabledProjects
            (syncChildren st4.testGeneration wf.upstreamRootChildren st4.controllerItems)) = T := by
        rw [hst4g, hst4c]
        exact hTT
      rw [hTT4]
      rw [hstale { st4 with controllerItems := T } (fun e he => hR2keys e (hst4r ▸ he))]
      rw [← hst4]
      apply indexTree_congr
      · rfl
      · rfl
      · rfl

/-- A generation whose first character is not `'['` (as with `guid + ':'`)
prefixes no string of the form `'[' + t`. -/
theorem bracket_not_gen_of_head (gen : String) (c : Char) (hc : gen.data.head? = some c)
    (hne : (c == '[') = false) : ∀ t, strStartsWith ("[" ++ t) gen = false := by
  intro t
  cases hq : strStartsWith ("[" ++ t) gen with
  | false => rfl
  | true =>
    exfalso
    rcases strStartsWith_iff.1 hq with ⟨r, heq⟩
    have hdata := congrArg String.data heq
    rw [String.data_append, String.data_append] at hdata
    cases hg : gen.data with
    | nil =>
      rw [hg] at hc
      exact Option.noConfusion hc
    | cons c' rest =>
      rw [hg] at hc
      have hcc : c' = c := Option.some_inj.1 hc
      rw [hg, hcc] at hdata
      have hhead : '[' = c := by
        have : ("[".data ++ t.data).head? = ((c :: rest) ++ r.data).head? :=
          congrArg List.head? hdata
        simpa using this
      rw [← hhead] at hne
      simp at hne

/-- C4, applied: a second `_update` with the same single folder and inputs is
a no-op on a concrete state. -/
theorem claim_C4_witness :
    update [⟨"p", [], [], []⟩] (update [⟨"p", [], [], []⟩] ⟨"g:", [], [], [], []⟩) =
      update [⟨"p", [], [], []⟩] ⟨"g:", [], [], [], []⟩ :=
  claim_C4_sync_pass_idempotent ⟨"p", [], [], []⟩ ⟨"g:", [], [], [], []⟩
    (NodupIds.mk [] (by simp) (by simp))
    (bracket_not_gen_of_head "g:" 'g' rfl (by decide))
    (by simp) (by simp [errPairs]) (by simp)

/-! ## Claims C1, C3, C6, C7, C9, C10, C2 -/

/-- C1: contrary to the spec's "else clear the range if the location
information was removed", the range-clearing `else if` branch of
`_syncSuite`'s attribute sync (testTree.ts lines 171–172) is dead code: it is
guarded by `hasLocation && !vsChild.range`, which contradicts the guard of
the preceding `if`, so a presentation child that has a range keeps a range,
and in particular a child whose logical location was removed (line and column
both zero) keeps its old range unchanged. -/
theorem claim_C1_removed_location_range_kept :
    (∀ (u : TreeItem) (d : TestItemData) (cc : List TestItem) (r : VSRange),
      u.location.line = 0 → u.location.column = 0 → d.range = some r →
      (syncChildAttrs u (.mk d cc)).range = some r) ∧
    (∀ (u : TreeItem) (d : TestItemData) (cc : List TestItem) (r : VSRange),
      d.range = some r → (syncChildAttrs u (.mk d cc)).range ≠ Option.none) := by
  constructor
  · intro u d cc r hline hcol hr
    rw [syncChildAttrs_mk]
    show syncRangeVal u d.range = some r
    unfold syncRangeVal
    simp [hline, hcol, hr]
  · intro u d cc r hr
    rw [syncChildAttrs_mk]
    show syncRangeVal u d.range ≠ Option.none
    unfold syncRangeVal
    rw [hr]
    by_cases hloc : (u.location.line != 0 || u.location.column != 0) = true
    · by_cases hst : (r.startLine + 1 != u.location.line) = true
      · simp [hloc, hst]
      · simp [hloc, hst]
    · simp [hloc]

/-- C1, applied: a logical child whose location was removed (0:0) leaves the
stale presentation range `[4,0..5,0]` in place instead of clearing it. -/
theorem claim_C1_witness :
    (syncChildAttrs (TreeItem.mk "a" "t" "case" "" ⟨"f", 0, 0⟩ [] Option.none [])
      (TestItem.mk ⟨"g:a", "t", some "f", some ⟨4, 0, 5, 0⟩, [], false, Option.none,
        Option.none, Option.none, .none⟩ [])).range = some ⟨4, 0, 5, 0⟩ :=
  claim_C1_removed_location_range_kept.1 (TreeItem.mk "a" "t" "case" "" ⟨"f", 0, 0⟩ []
    Option.none [])
    ⟨"g:a", "t", some "f", some ⟨4, 0, 5, 0⟩, [], false, Option.none, Option.none,
      Option.none, .none⟩ [] ⟨4, 0, 5, 0⟩ rfl rfl rfl

/-- C3 is false as stated: `areEqualTags` only checks lengths and one-sided
containment, so the duplicate-carrying presentation tags `[a, a]` count as
"equal" to the logical tags `[a, b]` although the two tag-id sets differ. -/
theorem claim_C3_counterexample :
    areEqualTags ["a", "b"] [⟨"a"⟩, ⟨"a"⟩] = true ∧
      "b" ∈ ["a", "b"] ∧ "b" ∉ (([⟨"a"⟩, ⟨"a"⟩] : List TestTag).map TestTag.id) := by
  refine ⟨by decide, by decide, by decide⟩

/-- C3, amended: on duplicate-free tag lists — the only ones the tree ever
assigns, cf. lines 165–166 recomputing tags from the logical node —
`areEqualTags` does decide tag-set equality irrespective of order. -/
theorem claim_C3_amended (u : List String) (v : List TestTag)
    (hu : u.Nodup) (hv : (v.map TestTag.id).Nodup) :
    areEqualTags u v = true ↔ u.toFinset = (v.map TestTag.id).toFinset := by
  unfold areEqualTags
  by_cases hlen : (u.length != v.length) = true
  · rw [if_pos hlen]
    constructor
    · intro h
      exact Bool.noConfusion h
    · intro h
      exfalso
      have hcu : u.toFinset.card = u.length := List.toFinset_card_of_nodup hu
      have hcv : (v.map TestTag.id).toFinset.card = v.length := by
        rw [List.toFinset_card_of_nodup hv, List.length_map]
      have : u.length = v.length := by
        rw [← hcu, ← hcv, h]
      simp [this] at hlen
  · rw [if_neg hlen]
    have hlen' : u.length = v.length := by
      have := Bool.not_eq_true _ ▸ hlen
      simpa [bne] using hlen
    constructor
    · intro h
      have hsub : (v.map TestTag.id).toFinset ⊆ u.toFinset := by
        intro a ha
        rcases List.mem_map.1 (List.mem_toFinset.1 ha) with ⟨tag, htag, rfl⟩
        have := List.all_eq_true.1 h tag htag
        exact List.mem_toFinset.2 (contains_iff_mem.1 this)
      have hcard : u.toFinset.card ≤ (v.map TestTag.id).toFinset.card := by
        rw [List.toFinset_card_of_nodup hu, List.toFinset_card_of_nodup hv,
          List.length_map, hlen']
      exact (Finset.eq_of_subset_of_card_le hsub hcard).symm
    · intro h
      apply List.all_eq_true.2
      intro tag htag
      apply contains_iff_mem.2
      apply List.mem_toFinset.1
      rw [h]
      exact List.mem_toFinset.2 (List.mem_map.2 ⟨tag, htag, rfl⟩)

/-- C3, amended, applied: on duplicate-free inputs the comparison is
order-insensitive set equality. -/
theorem claim_C3_witness :
    areEqualTags ["a", "b"] [⟨"b"⟩, ⟨"a"⟩] = true ↔
      (["a", "b"] : List String).toFinset =
        (([⟨"b"⟩, ⟨"a"⟩] : List TestTag).map TestTag.id).toFinset :=
  claim_C3_amended ["a", "b"] [⟨"b"⟩, ⟨"a"⟩] (by decide) (by decide)

/-- C7: `startedLoading` clears both reverse indices before anything is
rebuilt, so immediately afterwards every `testItemForTest` /
`testItemForFile` lookup — in particular for ids of the previous generation —
returns nothing, in both the zero-folder and the populated-workspace case. -/
theorem claim_C7_generation_isolation (guid : String) (n : Nat) (s : TreeState)
    (tid file : String) :
    testItemForTest (startedLoading guid n s) tid = Option.none ∧
    testItemForFile (startedLoading guid n s) file = Option.none := by
  unfold startedLoading testItemForTest testItemForFile
  dsimp only
  cases hn : (n == 0) with
  | true =>
    rw [if_pos rfl]
    exact ⟨rfl, rfl⟩
  | false =>
    rw [if_neg Bool.false_ne_true]
    exact ⟨rfl, rfl⟩

/-- C9: the differ's deletion step only removes children whose id carries the
active generation prefix; any child without that prefix — synthetic
`[disabled] …` / `[error] …` entries, stale-generation nodes — survives
`_syncSuite` as the same (unchanged) element of the collection. -/
theorem claim_C9_foreign_children_kept (gen : String) (us : List TreeItem) (cs : List TestItem)
    (h : (cs.map TestItem.id).Nodup) (c : TestItem) (hc : c ∈ cs)
    (hpre : strStartsWith c.id gen = false) :
    c ∈ syncChildren gen us cs := by
  rw [syncChildren_eq gen us cs h]
  apply List.mem_append_left
  apply List.mem_filterMap.2
  refine ⟨c, hc, ?_⟩
  unfold syncedOld
  rw [hpre, if_neg Bool.false_ne_true]

/-- C9, applied: a `[disabled] …` entry survives a differ run untouched. -/
theorem claim_C9_witness :
    createTestItem "[disabled] x" "" Option.none ∈
      syncChildren "g:" [] [createTestItem "[disabled] x" "" Option.none] :=
  claim_C9_foreign_children_kept "g:" [] [createTestItem "[disabled] x" "" Option.none]
    (by simp) (createTestItem "[disabled] x" "" Option.none) (by simp) (by decide)

/-- C10: deleting the single-workspace-folder root replaces the controller's
top-level collection with exactly its previous items whose literal id is
`'loading'` or `'disabled'`; every other top-level item — in particular every
`[disabled] …`- or `[error] …`-prefixed synthetic entry — is removed. -/
theorem claim_C10_single_folder_delete (fsPath : String) (s : TreeState) :
    (∀ c, c ∈ (deleteRootItem 1 fsPath s).controllerItems ↔
      c ∈ s.controllerItems ∧ (c.id == "loading" || c.id == "disabled") = true) ∧
    (∀ c ∈ s.controllerItems,
      (strStartsWith c.id "[disabled] " = true ∨ strStartsWith c.id "[error] " = true) →
      c ∉ (deleteRootItem 1 fsPath s).controllerItems) := by
  have hmem : ∀ c, c ∈ (deleteRootItem 1 fsPath s).controllerItems ↔
      c ∈ s.controllerItems ∧ (c.id == "loading" || c.id == "disabled") = true := by
    intro c
    rw [deleteRootItem_single]
    exact List.mem_filter
  refine ⟨hmem, ?_⟩
  intro c _ hmark hin
  have h2 := (hmem c).1 hin
  have hid : c.id = "loading" ∨ c.id = "disabled" := by
    rcases Bool.or_eq_true_iff.1 h2.2 with h | h
    · exact Or.inl (beq_iff_eq.1 h)
    · exact Or.inr (beq_iff_eq.1 h)
  rcases hmark with hm | hm
  · rcases hid with h | h
    · exact ne_of_startsWith_mismatch hm (by decide) h
    · exact ne_of_startsWith_mismatch hm (by decide) h
  · rcases hid with h | h
    · exact ne_of_startsWith_mismatch hm (by decide) h
    · exact ne_of_startsWith_mismatch hm (by decide) h

/-- C10, applied: a `[disabled] …` synthetic entry does not survive the
single-folder root deletion. -/
theorem claim_C10_witness :
    createTestItem "[disabled] x" "" Option.none ∉
      (deleteRootItem 1 "p" ⟨"g:", [createTestItem "[disabled] x" "" Option.none], [], [],
        []⟩).controllerItems :=
  (claim_C10_single_folder_delete "p" ⟨"g:", [createTestItem "[disabled] x" "" Option.none],
      [], [], []⟩).2
    (createTestItem "[disabled] x" "" Option.none) (by simp) (Or.inl (by decide))

/-- C6 is false as stated: the claim quantifies over all inputs, but a
logical node id may itself literally start with `'[disabled] '`, in which
case the synthetic id of a disabled project collides with it — here
`'[disabled] a - b'` is both the synthetic id of project `a` (config `b`) and
the id of a logical node. -/
theorem claim_C6_counterexample :
    disabledProjectId ⟨"a", false, ⟨"b", "w"⟩⟩ =
      (TreeItem.mk "[disabled] a - b" "t" "case" "" ⟨"f", 1, 1⟩ [] Option.none []).id := rfl

/-- C6, amended: synthetic `[disabled] …` / `[error] …` ids never collide
with a logical id that does not itself start with `'['` — which holds for
every id the upstream tree builder produces. -/
theorem claim_C6_amended (p : TestProject) (m : TestModel) (e : TestError) (X : String)
    (hX : strStartsWith X "[" = false) :
    disabledProjectId p ≠ X ∧ configErrorId m e ≠ X := by
  have hd : strStartsWith (disabledProjectId p) "[" = true := by
    apply strStartsWith_of_eq_append
    rw [disabledProjectId_eq_append]
    rw [show ("[disabled] " : String) = "[" ++ "disabled] " from rfl, string_append_assoc]
  have he : strStartsWith (configErrorId m e) "[" = true := by
    apply strStartsWith_of_eq_append
    rw [configErrorId_eq_append]
    rw [show ("[error] " : String) = "[" ++ "error] " from rfl, string_append_assoc]
  exact ⟨ne_of_startsWith_mismatch hd hX, ne_of_startsWith_mismatch he hX⟩

/-- C6, amended, applied. -/
theorem claim_C6_witness :
    disabledProjectId ⟨"a", false, ⟨"b", "w"⟩⟩ ≠ "x" ∧
      configErrorId ⟨⟨"b", "w"⟩⟩ ⟨some "boom", Option.none, Option.none⟩ ≠ "x" :=
  claim_C6_amended ⟨"a", false, ⟨"b", "w"⟩⟩ ⟨⟨"b", "w"⟩⟩
    ⟨some "boom", Option.none, Option.none⟩ "x" (by decide)

/-- C2 is false as stated: not every node added during a session carries the
generation prefix.  The disabled-project entry added by
`_syncDisabledProjects` gets the bare id `'[disabled] a - b'`, and the
loading placeholder re-added by `startedLoading` keeps the bare id
`'loading'`; neither starts with the session generation. -/
theorem claim_C2_counterexample :
    (syncDisabledProjects [⟨"a", false, ⟨"b", "w"⟩⟩] []).map TestItem.id =
        ["[disabled] a - b"] ∧
      strStartsWith "[disabled] a - b" "g:" = false ∧
      (startedLoading "g" 1 ⟨"x", [], [], [], []⟩).controllerItems.map TestItem.id =
        ["loading"] ∧
      strStartsWith "loading" (startedLoading "g" 1 ⟨"x", [], [], [], []⟩).testGeneration =
        false := by
  refine ⟨?_, by decide, by decide, by decide⟩
  rw [syncDisabledProjects_eq_auxSync, List.mergeSort_singleton]
  decide

/-- C2, amended: every node the differ adds (one absent from the previous
collection) carries the generation prefix, while the nodes the two auxiliary
synchronizers add carry the fixed `'[disabled] '` / `'[error] '` markers
instead. -/
theorem claim_C2_amended (gen : String) (us : List TreeItem) (cs : List TestItem)
    (ps : List TestProject) (es : List (TestModel × List TestError))
    (h : (cs.map TestItem.id).Nodup) :
    (∀ x ∈ syncChildren gen us cs,
      x.id ∈ cs.map TestItem.id ∨ strStartsWith x.id gen = true) ∧
    (∀ x ∈ syncDisabledProjects ps cs, x ∈ cs ∨ strStartsWith x.id "[disabled] " = true) ∧
    (∀ x ∈ syncConfigErrors es cs, x ∈ cs ∨ strStartsWith x.id "[error] " = true) := by
  refine ⟨?_, ?_, ?_⟩
  · intro x hx
    rw [syncChildren_eq gen us cs h] at hx
    rcases List.mem_append.1 hx with hx | hx
    · exact Or.inl (mem_ids_of_mem_filterMap_syncedOld hx)
    · rcases syncedNew_ids hx with ⟨e, _, hid, _⟩
      right
      rw [hid]
      exact strStartsWith_append gen e.1
  · intro x hx
    rw [syncDisabledProjects_eq_auxSync] at hx
    rcases auxSync_mem_sub _ _ _ _ _ hx with hx | ⟨p, _, rfl⟩
    · exact Or.inl hx
    · right
      rw [disabledProjectItem_id]
      exact disabledProjectId_marker p
  · intro x hx
    rw [syncConfigErrors_eq_auxSync] at hx
    rcases auxSync_mem_sub _ _ _ _ _ hx with hx | ⟨q, _, rfl⟩
    · exact Or.inl hx
    · right
      rw [configErrorItem_id]
      exact configErrorId_marker q.1 q.2

/-- C2, amended, applied: the one entry the disabled-projects synchronizer
adds carries the `'[disabled] '` marker. -/
theorem claim_C2_witness :
    disabledProjectItem ⟨"a", false, ⟨"b", "w"⟩⟩ ∈ ([] : List TestItem) ∨
      strStartsWith (disabledProjectItem ⟨"a", false, ⟨"b", "w"⟩⟩).id "[disabled] " = true :=
  (claim_C2_amended "g:" [] [] [⟨"a", false, ⟨"b", "w"⟩⟩] [] (by simp)).2.1
    (disabledProjectItem ⟨"a", false, ⟨"b", "w"⟩⟩)
    (by rw [syncDisabledProjects_eq_auxSync, List.mergeSort_singleton]
        exact List.mem_cons_self _ _)

/-! ## Root lifecycle (claim C8) -/

/-- The per-active-folder body of `_update`'s first loop (lines 115–126). -/
def updateFolderStep (n : Nat) (wf : WorkspaceFolderData) (s : TreeState) : TreeState :=
  if wf.upstreamRootChildren.length == 0 && wf.disabledProjects.isEmpty &&
      wf.configErrorsByModel.isEmpty then
    deleteRootItem n (uriToPath wf.folderUri) s
  else
    let pr := createRootItemIfNeeded n wf.folderUri s
    let s := applyToRootChildren pr.2 pr.1
      (fun cs => syncChildren pr.2.testGeneration wf.upstreamRootChildren cs)
    let s := applyToRootChildren s pr.1 (fun cs => syncDisabledProjects wf.disabledProjects cs)
    applyToRootChildren s pr.1 (fun cs => syncConfigErrors wf.configErrorsByModel cs)

/-- The body of `_update`'s stale-root loop (lines 128–131). -/
def staleRootStep (folders : List WorkspaceFolderData) (s : TreeState) (itemFsPath : String) :
    TreeState :=
  if folders.any (fun f => uriToPath f.folderUri == itemFsPath) then s
  else deleteRootItem folders.length itemFsPath s

/-- `_update` as the two loops followed by the re-indexing. -/
theorem update_eq (folders : List WorkspaceFolderData) (s : TreeState) :
    update folders s =
      (let s1 := folders.foldl (fun s wf => updateFolderStep folders.length wf s) s
       indexTree ((s1.rootItems.map (fun e => e.1)).foldl (staleRootStep folders) s1)) := rfl

theorem deleteRootItem_rootItems (n : Nat) (p : String) (s : TreeState) :
    (deleteRootItem n p s).rootItems = eraseEntry s.rootItems p := by
  unfold deleteRootItem
  split
  · rfl
  · rfl

theorem applyToRootChildren_rootItems (s : TreeState) (r : RootEntry)
    (f : List TestItem → List TestItem) :
    (applyToRootChildren s r f).rootItems = s.rootItems := by
  cases r
  · rfl
  · rfl

theorem indexTree_rootItems (s : TreeState) : (indexTree s).rootItems = s.rootItems := rfl

theorem lookupEntry_eraseEntry_self {α : Type} (m : List (String × α)) (k : String) :
    lookupEntry (eraseEntry m k) k = Option.none := by
  induction m with
  | nil => rfl
  | cons a m ih =>
    show lookupEntry (List.filter (fun e => e.1 != k) (a :: m)) k = Option.none
    rw [List.filter_cons]
    cases ha : (a.1 == k) with
    | true =>
      rw [show (a.1 != k) = false from by simp [bne, ha], if_neg Bool.false_ne_true]
      exact ih
    | false =>
      rw [show (a.1 != k) = true from by simp [bne, ha], if_pos rfl, lookupEntry_cons, ha,
        if_neg Bool.false_ne_true]
      exact ih

theorem lookupEntry_eraseEntry_other {α : Type} (m : List (String × α)) {k k' : String}
    (h : k' ≠ k) : lookupEntry (eraseEntry m k') k = lookupEntry m k := by
  induction m with
  | nil => rfl
  | cons a m ih =>
    show lookupEntry (List.filter (fun e => e.1 != k') (a :: m)) k = _
    rw [List.filter_cons, lookupEntry_cons]
    cases ha : (a.1 == k') with
    | true =>
      rw [show (a.1 != k') = false from by simp [bne, ha], if_neg Bool.false_ne_true]
      have hak : (a.1 == k) = false := by
        rw [beq_iff_eq.1 ha]
        exact beq_eq_false_iff_ne.2 h
      rw [hak, if_neg Bool.false_ne_true]
      exact ih
    | false =>
      rw [show (a.1 != k') = true from by simp [bne, ha], if_pos rfl, lookupEntry_cons]
      cases hak : (a.1 == k) with
      | true => rw [if_pos rfl, if_pos rfl]
      | false =>
        rw [if_neg Bool.false_ne_true, if_neg Bool.false_ne_true]
        exact ih

theorem createRoot_lookup_other (n : Nat) (uri : String) (s : TreeState) {k : String}
    (hk : k ≠ uriToPath uri) :
    lookupEntry (createRootItemIfNeeded n uri s).2.rootItems k = lookupEntry s.rootItems k := by
  cases hlook : lookupEntry s.rootItems (uriToPath uri) with
  | some r => rw [createRoot_found n uri s r hlook]
  | none =>
    unfold createRootItemIfNeeded
    dsimp only
    rw [hlook]
    cases hn : (n == 1) with
    | true =>
      rw [if_pos rfl]
      exact lookupEntry_setEntry_other s.rootItems _ hk
    | false =>
      rw [if_neg Bool.false_ne_true]
      exact lookupEntry_setEntry_other s.rootItems _ hk

theorem createRoot_lookup_self (n : Nat) (uri : String) (s : TreeState) :
    (lookupEntry (createRootItemIfNeeded n uri s).2.rootItems (uriToPath uri)).isSome = true := by
  cases hlook : lookupEntry s.rootItems (uriToPath uri) with
  | some r =>
    rw [createRoot_found n uri s r hlook]
    rw [hlook]
    rfl
  | none =>
    unfold createRootItemIfNeeded
    dsimp only
    rw [hlook]
    cases hn : (n == 1) with
    | true =>
      rw [if_pos rfl]
      rw [lookupEntry_setEntry_self]
      rfl
    | false =>
      rw [if_neg Bool.false_ne_true]
      rw [lookupEntry_setEntry_self]
      rfl

theorem updateFolderStep_lookup_other (n : Nat) (wf : WorkspaceFolderData) (s : TreeState)
    {k : String} (hk : uriToPath wf.folderUri ≠ k) :
    lookupEntry (updateFolderStep n wf s).rootItems k = lookupEntry s.rootItems k := by
  unfold updateFolderStep
  cases hcond : (wf.upstreamRootChildren.length == 0 && wf.disabledProjects.isEmpty &&
      wf.configErrorsByModel.isEmpty) with
  | true =>
    rw [if_pos rfl, deleteRootItem_rootItems]
    exact lookupEntry_eraseEntry_other s.rootItems hk
  | false =>
    rw [if_neg Bool.false_ne_true]
    dsimp only
    rw [applyToRootChildren_rootItems, applyToRootChildren_rootItems,
      applyToRootChildren_rootItems]
    exact createRoot_lookup_other n wf.folderUri s (fun he => hk he.symm)

theorem updateFolderStep_lookup_empty (n : Nat) (wf : WorkspaceFolderData) (s : TreeState)
    (hcond : (wf.upstreamRootChildren.length == 0 && wf.disabledProjects.isEmpty &&
      wf.configErrorsByModel.isEmpty) = true) :
    lookupEntry (updateFolderStep n wf s).rootItems (uriToPath wf.folderUri) = Option.none := by
  unfold updateFolderStep
  rw [hcond, if_pos rfl, deleteRootItem_rootItems]
  exact lookupEntry_eraseEntry_self s.rootItems _

theorem updateFolderStep_lookup_nonempty (n : Nat) (wf : WorkspaceFolderData) (s : TreeState)
    (hcond : (wf.upstreamRootChildren.length == 0 && wf.disabledProjects.isEmpty &&
      wf.configErrorsByModel.isEmpty) = false) :
    (lookupEntry (updateFolderStep n wf s).rootItems (uriToPath wf.folderUri)).isSome = true := by
  unfold updateFolderStep
  rw [hcond, if_neg Bool.false_ne_true]
  dsimp only
  rw [applyToRootChildren_rootItems, applyToRootChildren_rootItems,
    applyToRootChildren_rootItems]
  exact createRoot_lookup_self n wf.folderUri s

theorem updateFold_lookup_other (n : Nat) (FS : List WorkspaceFolderData) (s : TreeState)
    {k : String} (h : ∀ wf ∈ FS, uriToPath wf.folderUri ≠ k) :
    lookupEntry (FS.foldl (fun s wf => updateFolderStep n wf s) s).rootItems k =
      lookupEntry s.rootItems k := by
  induction FS generalizing s with
  | nil => rfl
  | cons wf FS ih =>
    rw [List.foldl_cons]
    rw [ih _ (fun wf' hwf' => h wf' (List.mem_cons_of_mem _ hwf'))]
    exact updateFolderStep_lookup_other n wf s (h wf (List.mem_cons_self wf FS))

theorem updateFold_lookup_processed_empty (n : Nat) (FS : List WorkspaceFolderData)
    (s : TreeState) (hnd : (FS.map (fun f => uriToPath f.folderUri)).Nodup)
    (wf : WorkspaceFolderData) (hwf : wf ∈ FS)
    (hcond : (wf.upstreamRootChildren.length == 0 && wf.disabledProjects.isEmpty &&
      wf.configErrorsByModel.isEmpty) = true) :
    lookupEntry (FS.foldl (fun s wf => updateFolderStep n wf s) s).rootItems
      (uriToPath wf.folderUri) = Option.none := by
  induction FS generalizing s with
  | nil => cases hwf
  | cons wf' FS ih =>
    rw [List.map_cons, List.nodup_cons] at hnd
    rw [List.foldl_cons]
    rcases List.mem_cons.1 hwf with heq | hmem
    · subst heq
      rw [updateFold_lookup_other n FS _ (fun f hf he => hnd.1 (List.mem_map.2 ⟨f, hf, he⟩))]
      exact updateFolderStep_lookup_empty n wf s hcond
    · exact ih _ hnd.2 hmem

theorem updateFold_lookup_processed_nonempty (n : Nat) (FS : List WorkspaceFolderData)
    (s : TreeState) (hnd : (FS.map (fun f => uriToPath f.folderUri)).Nodup)
    (wf : WorkspaceFolderData) (hwf : wf ∈ FS)
    (hcond : (wf.upstreamRootChildren.length == 0 && wf.disabledProjects.isEmpty &&
      wf.configErrorsByModel.isEmpty) = false) :
    (lookupEntry (FS.foldl (fun s wf => updateFolderStep n wf s) s).rootItems
      (uriToPath wf.folderUri)).isSome = true := by
  induction FS generalizing s with
  | nil => cases hwf
  | cons wf' FS ih =>
    rw [List.map_cons, List.nodup_cons] at hnd
    rw [List.foldl_cons]
    rcases List.mem_cons.1 hwf with heq | hmem
    · subst heq
      rw [updateFold_lookup_other n FS _ (fun f hf he => hnd.1 (List.mem_map.2 ⟨f, hf, he⟩))]
      exact updateFolderStep_lookup_nonempty n wf s hcond
    · exact ih _ hnd.2 hmem

theorem staleRootStep_lookup_none (folders : List WorkspaceFolderData) (s : TreeState)
    (k' : String) {k : String} (h : lookupEntry s.rootItems k = Option.none) :
    lookupEntry (staleRootStep folders s k').rootItems k = Option.none := by
  unfold staleRootStep
  cases hac : folders.any (fun f => uriToPath f.folderUri == k') with
  | true =>
    rw [if_pos rfl]
    exact h
  | false =>
    rw [if_neg Bool.false_ne_true, deleteRootItem_rootItems]
    by_cases hkk : k' = k
    · subst hkk
      exact lookupEntry_eraseEntry_self s.rootItems k'
    · rw [lookupEntry_eraseEntry_other s.rootItems hkk]
      exact h

theorem staleFold_lookup_active (folders : List WorkspaceFolderData) (L : List String)
    (s : TreeState) {k : String}
    (hk : folders.any (fun f => uriToPath f.folderUri == k) = true) :
    lookupEntry (L.foldl (staleRootStep folders) s).rootItems k = lookupEntry s.rootItems k := by
  induction L generalizing s with
  | nil => rfl
  | cons k' L ih =>
    rw [List.foldl_cons, ih]
    unfold staleRootStep
    cases hac : folders.any (fun f => uriToPath f.folderUri == k') with
    | true => rw [if_pos rfl]
    | false =>
      rw [if_neg Bool.false_ne_true, deleteRootItem_rootItems]
      apply lookupEntry_eraseEntry_other
      intro he
      rw [he, hk] at hac
      exact Bool.noConfusion hac

theorem staleFold_erases (folders : List WorkspaceFolderData) (L : List String)
    (s : TreeState) {k : String}
    (hk : folders.any (fun f => uriToPath f.folderUri == k) = false)
    (hin : k ∈ L ∨ lookupEntry s.rootItems k = Option.none) :
    lookupEntry (L.foldl (staleRootStep folders) s).rootItems k = Option.none := by
  induction L generalizing s with
  | nil =>
    rcases hin with h | h
    · cases h
    · exact h
  | cons k' L ih =>
    rw [List.foldl_cons]
    rcases hin with h | h
    · rcases List.mem_cons.1 h with heq | hmem
      · subst heq
        apply ih
        right
        unfold staleRootStep
        rw [hk, if_neg Bool.false_ne_true, deleteRootItem_rootItems]
        exact lookupEntry_eraseEntry_self s.rootItems k
      · exact ih _ (Or.inl hmem)
    · exact ih _ (Or.inr (staleRootStep_lookup_none folders s k' h))

/-- C8: root lifecycle of `_update`.  With pairwise-distinct folder paths:
a scope whose logical tree is empty with no disabled projects and no config
errors has no registered root after the pass; any other scope has one; a
registered root whose scope is no longer active is deleted.  Moreover the
ensured root is, for a missing registry entry, the synthetic flat entry
aliasing the controller's top level when exactly one folder is active
(`n == 1`), a generation-prefixed item labeled with the scope's base
directory name otherwise, and the registered entry is reused as-is when
present. -/
theorem claim_C8_root_lifecycle (folders : List WorkspaceFolderData) (s : TreeState)
    (hnd : (folders.map (fun f => uriToPath f.folderUri)).Nodup) :
    (∀ wf ∈ folders, (wf.upstreamRootChildren.length == 0 && wf.disabledProjects.isEmpty &&
        wf.configErrorsByModel.isEmpty) = true →
      lookupEntry (update folders s).rootItems (uriToPath wf.folderUri) = Option.none) ∧
    (∀ wf ∈ folders, (wf.upstreamRootChildren.length == 0 && wf.disabledProjects.isEmpty &&
        wf.configErrorsByModel.isEmpty) = false →
      (lookupEntry (update folders s).rootItems (uriToPath wf.folderUri)).isSome = true) ∧
    (∀ k, (folders.any (fun f => uriToPath f.folderUri == k)) = false →
      lookupEntry (update folders s).rootItems k = Option.none) ∧
    (∀ uri s', lookupEntry s'.rootItems (uriToPath uri) = Option.none →
      createRootItemIfNeeded 1 uri s' =
        (RootEntry.flat (idWithGeneration s'.testGeneration (uriToPath uri)) uri,
         { s' with rootItems := setEntry s'.rootItems (uriToPath uri) (RootEntry.flat (idWithGeneration s'.testGeneration (uriToPath uri)) uri) })) ∧
    (∀ s' i u f, applyToRootChildren s' (RootEntry.flat i u) f =
      { s' with controllerItems := f s'.controllerItems }) ∧
    (∀ n uri s', (n == 1) = false → lookupEntry s'.rootItems (uriToPath uri) = Option.none →
      createRootItemIfNeeded n uri s' =
        (RootEntry.real (idWithGeneration s'.testGeneration (uriToPath uri)),
         { s' with controllerItems := collectionAdd s'.controllerItems (createTestItem (idWithGeneration s'.testGeneration (uriToPath uri)) (pathBasename (uriToPath uri)) (some uri)), rootItems := setEntry s'.rootItems (uriToPath uri) (RootEntry.real (idWithGeneration s'.testGeneration (uriToPath uri))) })) ∧
    (∀ n uri s' r, lookupEntry s'.rootItems (uriToPath uri) = some r →
      createRootItemIfNeeded n uri s' = (r, s')) := by
  refine ⟨?_, ?_, ?_, ?_, ?_, ?_, ?_⟩
  · intro wf hwf hcond
    rw [update_eq]
    dsimp only
    rw [indexTree_rootItems]
    rw [staleFold_lookup_active folders _ _
      (List.any_eq_true.2 ⟨wf, hwf, beq_iff_eq.2 rfl⟩)]
    exact updateFold_lookup_processed_empty folders.length folders s hnd wf hwf hcond
  · intro wf hwf hcond
    rw [update_eq]
    dsimp only
    rw [indexTree_rootItems]
    rw [staleFold_lookup_active folders _ _
      (List.any_eq_true.2 ⟨wf, hwf, beq_iff_eq.2 rfl⟩)]
    exact updateFold_lookup_processed_nonempty folders.length folders s hnd wf hwf hcond
  · intro k hk
    rw [update_eq]
    dsimp only
    rw [indexTree_rootItems]
    apply staleFold_erases folders _ _ hk
    cases hl : lookupEntry (folders.foldl
        (fun s wf => updateFolderStep folders.length wf s) s).rootItems k with
    | none => exact Or.inr rfl
    | some r =>
      left
      exact List.mem_map.2 ⟨(k, r), mem_of_lookupEntry_eq_some hl, rfl⟩
  · intro uri s' h
    exact createRoot_flat uri s' h
  · intro s' i u f
    exact applyToRootChildren_flat s' i u f
  · intro n uri s' hn h
    unfold createRootItemIfNeeded
    dsimp only
    rw [h, hn, if_neg Bool.false_ne_true]
    rfl
  · intro n uri s' r h
    exact createRoot_found n uri s' r h

/-- C8, applied: after an `_update` with one empty scope, that scope has no
registered root. -/
theorem claim_C8_witness :
    lookupEntry (update [⟨"p", [], [], []⟩] ⟨"g:", [], [], [], []⟩).rootItems
      (uriToPath "p") = Option.none :=
  (claim_C8_root_lifecycle [⟨"p", [], [], []⟩] ⟨"g:", [], [], [], []⟩ (by simp)).1
    ⟨"p", [], [], []⟩ (List.mem_cons_self _ _) (by decide)

/-! ## Deletion completeness (claim C5) -/

theorem deepItem_eq (c : TestItem) : deepItem c = c :: deepList c.children := by
  cases c
  rfl

theorem uDeepIdsItem_eq (u : TreeItem) : uDeepIdsItem u = u.id :: uDeepIds u.children := by
  cases u
  rfl

theorem mem_deepList {L : List TestItem} {x : TestItem} :
    x ∈ deepList L ↔ ∃ c ∈ L, x ∈ deepItem c := by
  induction L with
  | nil => simp [deepList]
  | cons c cs ih =>
    rw [show deepList (c :: cs) = deepItem c ++ deepList cs from rfl, List.mem_append, ih]
    constructor
    · rintro (h | ⟨c', hc', hx⟩)
      · exact ⟨c, List.mem_cons_self _ _, h⟩
      · exact ⟨c', List.mem_cons_of_mem _ hc', hx⟩
    · rintro ⟨c', hc', hx⟩
      rcases List.mem_cons.1 hc' with rfl | h
      · exact Or.inl hx
      · exact Or.inr ⟨c', h, hx⟩

theorem mem_uDeepIds_of_mem {us : List TreeItem} {u : TreeItem} (h : u ∈ us) :
    u.id ∈ uDeepIds us := by
  induction us with
  | nil => cases h
  | cons a t ih =>
    rw [show uDeepIds (a :: t) = uDeepIdsItem a ++ uDeepIds t from rfl]
    rcases List.mem_cons.1 h with rfl | h'
    · apply List.mem_append_left
      rw [uDeepIdsItem_eq]
      exact List.mem_cons_self _ _
    · exact List.mem_append_right _ (ih h')

theorem mem_uDeepIds_children {us : List TreeItem} {u : TreeItem} (hu : u ∈ us) {X : String}
    (hX : X ∈ uDeepIds u.children) : X ∈ uDeepIds us := by
  induction us with
  | nil => cases hu
  | cons a t ih =>
    rw [show uDeepIds (a :: t) = uDeepIdsItem a ++ uDeepIds t from rfl]
    rcases List.mem_cons.1 hu with rfl | h'
    · apply List.mem_append_left
      rw [uDeepIdsItem_eq]
      exact List.mem_cons_of_mem _ hX
    · exact List.mem_append_right _ (ih h')

/-- Generation coherence of a presentation forest, as the differ itself
produces it: below a child that does not carry the active generation prefix
(a foreign or synthetic node) no node carries it either, and the children of
a generation-tagged child are again coherent. -/
inductive GenOK (gen : String) : List TestItem → Prop where
  | mk : ∀ cs, (∀ c ∈ cs, strStartsWith c.id gen = true → GenOK gen c.children) →
      (∀ c ∈ cs, strStartsWith c.id gen = false →
        ∀ x ∈ deepList c.children, strStartsWith x.id gen = false) →
      GenOK gen cs

theorem GenOK.tagged {gen : String} {cs : List TestItem} (h : GenOK gen cs) :
    ∀ c ∈ cs, strStartsWith c.id gen = true → GenOK gen c.children := by
  cases h with
  | mk _ h1 _ => exact h1

theorem GenOK.foreign {gen : String} {cs : List TestItem} (h : GenOK gen cs) :
    ∀ c ∈ cs, strStartsWith c.id gen = false →
      ∀ x ∈ deepList c.children, strStartsWith x.id gen = false := by
  cases h with
  | mk _ _ h2 => exact h2

/-- Deletion completeness on the tree: if the logical forest nowhere contains
the id `X`, then no node anywhere in the differ's output carries the
generation-tagged id of `X`. -/
theorem syncChildren_deep_avoid (gen : String) : ∀ n : Nat, ∀ us : List TreeItem,
    sizeOf us ≤ n → ∀ cs : List TestItem, NodupIds cs → GenOK gen cs →
    ∀ X : String, X ∉ uDeepIds us →
    ∀ x ∈ deepList (syncChildren gen us cs), x.id ≠ idWithGeneration gen X := by
  intro n
  induction n with
  | zero =>
    intro us hus
    exfalso
    cases us with
    | nil => simp at hus
    | cons a t => simp at hus
  | succ n ih =>
    intro us hus cs hnd hok X hX x hx hxid
    simp only [idWithGeneration_eq] at hxid
    rw [syncChildren_eq gen us cs hnd.ids] at hx
    rcases mem_deepList.1 hx with ⟨c', hc', hxc⟩
    rcases List.mem_append.1 hc' with hold | hnew
    · rcases List.mem_filterMap.1 hold with ⟨c, hc, hso⟩
      unfold syncedOld at hso
      by_cases hsw : strStartsWith c.id gen = true
      · rw [if_pos hsw] at hso
        rcases hu : lookupEntry (uPairsOf us) (strDropLen c.id gen.length) with _ | u
        · rw [hu] at hso
          exact Option.noConfusion hso
        · rw [hu] at hso
          have hc'eq := Option.some_inj.1 hso
          have humem := mem_of_lookupEntry_eq_some hu
          have hkey : strDropLen c.id gen.length = u.id := uPairs_key_eq humem
          have huus : u ∈ us := uPairs_val_mem humem
          rw [deepItem_eq] at hxc
          rcases List.mem_cons.1 hxc with rfl | hxdeep
          · have hid : x.id = c.id := by
              rw [← hc'eq, TestItem.id_withChildren, syncChildAttrs_id]
            have hcid : c.id = gen ++ strDropLen c.id gen.length :=
              (append_strDropLen hsw).symm
            have hkX : strDropLen c.id gen.length = X := by
              apply string_append_left_cancel
              rw [← hcid, ← hid, hxid]
            apply hX
            rw [← hkX, hkey]
            exact mem_uDeepIds_of_mem huus
          · have hch : x ∈ deepList (syncChildren gen u.children c.children) := by
              have : c'.children = syncChildren gen u.children c.children := by
                rw [← hc'eq, TestItem.children_withChildren]
              rw [← this]
              exact hxdeep
            have hsz : sizeOf u.children ≤ n := by
              have h1 := List.sizeOf_lt_of_mem huus
              have h2 := TreeItem.sizeOf_lt_of_children u
              omega
            exact ih u.children hsz c.children (hnd.child hc) (hok.tagged c hc hsw) X
              (fun hmem => hX (mem_uDeepIds_children huus hmem)) x hch
              (by simp [idWithGeneration_eq, hxid])
      · rw [if_neg hsw] at hso
        have hswf : strStartsWith c.id gen = false := by
          cases h2 : strStartsWith c.id gen with
          | true => exact absurd h2 hsw
          | false => rfl
        have hc'eq := Option.some_inj.1 hso
        rw [← hc'eq, deepItem_eq] at hxc
        rcases List.mem_cons.1 hxc with rfl | hxdeep
        · rw [hxid, strStartsWith_append] at hswf
          exact Bool.noConfusion hswf
        · have hxp := hok.foreign c hc hswf x hxdeep
          rw [hxid, strStartsWith_append] at hxp
          exact Bool.noConfusion hxp
    · unfold syncedNew at hnew
      rcases List.mem_map.1 hnew with ⟨e, he, hex⟩
      have heU := (List.mem_filter.1 he).1
      have hkey : e.1 = e.2.id := uPairs_key_eq heU
      have heus : e.2 ∈ us := uPairs_val_mem heU
      rw [deepItem_eq] at hxc
      rcases List.mem_cons.1 hxc with rfl | hxdeep
      · have hid : x.id = gen ++ e.1 := by
          rw [← hex, TestItem.id_withChildren, syncChildAttrs_id, newChildBase_id,
            idWithGeneration_eq]
        have hkX : e.1 = X := by
          apply string_append_left_cancel
          rw [← hid, hxid]
        apply hX
        rw [← hkX, hkey]
        exact mem_uDeepIds_of_mem heus
      · have hch : x ∈ deepList (syncChildren gen e.2.children []) := by
          have : c'.children = syncChildren gen e.2.children [] := by
            rw [← hex, TestItem.children_withChildren]
          rw [← this]
          exact hxdeep
        have hsz : sizeOf e.2.children ≤ n := by
          have h1 := List.sizeOf_lt_of_mem heus
          have h2 := TreeItem.sizeOf_lt_of_children e.2
          omega
        exact ih e.2.children hsz [] (NodupIds.mk [] (by simp) (by simp))
          (GenOK.mk [] (by simp) (by simp)) X
          (fun hmem => hX (mem_uDeepIds_children heus hmem)) x hch
          (by simp [idWithGeneration_eq, hxid])

theorem TestItem.sizeOf_children_lt (c : TestItem) : sizeOf c.children < sizeOf c := by
  cases c with
  | mk d ch => simp [TestItem.children]

/-- The pre-visit step of `visit` (lines 244–246) only records the item
itself, and only into the by-test-id index. -/
theorem visitItem_pre (d : TestItemData) (children : List TestItem)
    (acc : List (String × TestItem) × List (String × TestItem)) :
    ∃ acc1,
      visitItem (TestItem.mk d children) acc =
        (match d.uri with
          | some uri =>
            if d.range.isNone then
              ((visitList children acc1).1,
               setEntry (visitList children acc1).2 (uriToPath uri) (TestItem.mk d children))
            else visitList children acc1
          | Option.none => visitList children acc1) ∧
      (∀ e ∈ acc1.1, e ∈ acc.1 ∨ e.2 = TestItem.mk d children) ∧ acc1.2 = acc.2 := by
  show ∃ acc1, _ ∧ _
  cases hb : d.backref with
  | none =>
    refine ⟨acc, ?_, fun e he => Or.inl he, rfl⟩
    simp only [visitItem, hb]
  | disabledProject p =>
    refine ⟨acc, ?_, fun e he => Or.inl he, rfl⟩
    simp only [visitItem, hb]
  | configError er =>
    refine ⟨acc, ?_, fun e he => Or.inl he, rfl⟩
    simp only [visitItem, hb]
  | treeItem ti =>
    cases ht : ti.testId with
    | none =>
      refine ⟨acc, ?_, fun e he => Or.inl he, rfl⟩
      simp only [visitItem, hb, ht]
    | some tid =>
      cases hk : (ti.kind == "case" || ti.kind == "test") with
      | false =>
        refine ⟨acc, ?_, fun e he => Or.inl he, rfl⟩
        simp only [visitItem, hb, ht, hk]
        rfl
      | true =>
        refine ⟨(setEntry acc.1 tid (TestItem.mk d children), acc.2), ?_, ?_, rfl⟩
        · simp only [visitItem, hb, ht, hk]
          rfl
        · intro e he
          rcases mem_setEntry_sub he with h | h
          · exact Or.inl h
          · right
            rw [h]

/-- Every entry either survives from the accumulator or points at a node of
the visited forest (`_indexTree`'s `visit`, lines 243–251). -/
theorem visitList_values : ∀ n : Nat, ∀ L : List TestItem, sizeOf L ≤ n →
    ∀ acc : List (String × TestItem) × List (String × TestItem),
    (∀ e ∈ (visitList L acc).1, e ∈ acc.1 ∨ e.2 ∈ deepList L) ∧
    (∀ e ∈ (visitList L acc).2, e ∈ acc.2 ∨ e.2 ∈ deepList L) := by
  intro n
  induction n with
  | zero =>
    intro L hL
    exfalso
    cases L with
    | nil => simp at hL
    | cons a t => simp at hL
  | succ n ih =>
    intro L hL acc
    cases L with
    | nil => exact ⟨fun e he => Or.inl he, fun e he => Or.inl he⟩
    | cons c cs =>
      have hszc : sizeOf c.children ≤ n := by
        have h1 : sizeOf c < sizeOf (c :: cs) := List.sizeOf_lt_of_mem (List.mem_cons_self c cs)
        have h2 := TestItem.sizeOf_children_lt c
        omega
      have hszcs : sizeOf cs ≤ n := by
        have h0 : (1 : Nat) ≤ sizeOf c := by
          cases c with
          | mk d ch =>
            simp only [TestItem.mk.sizeOf_spec]
            omega
        simp only [List.cons.sizeOf_spec] at hL
        omega
      have hItem : ∀ acc', (∀ e ∈ (visitItem c acc').1, e ∈ acc'.1 ∨ e.2 ∈ deepItem c) ∧
          (∀ e ∈ (visitItem c acc').2, e ∈ acc'.2 ∨ e.2 ∈ deepItem c) := by
        intro acc'
        cases c with
        | mk d children =>
          rcases visitItem_pre d children acc' with ⟨acc1, heq, hacc1, hacc2⟩
          rw [heq, deepItem_eq]
          have hvl := ih children hszc acc1
          have hfst : ∀ e ∈ (visitList children acc1).1,
              e ∈ acc'.1 ∨ e.2 ∈ TestItem.mk d children :: deepList (TestItem.mk d children).children := by
            intro e he
            rcases hvl.1 e he with h | h
            · rcases hacc1 e h with h' | h'
              · exact Or.inl h'
              · right
                rw [h']
                exact List.mem_cons_self _ _
            · right
              exact List.mem_cons_of_mem _ h
          have hsnd : ∀ e ∈ (visitList children acc1).2,
              e ∈ acc'.2 ∨ e.2 ∈ TestItem.mk d children :: deepList (TestItem.mk d children).children := by
            intro e he
            rcases hvl.2 e he with h | h
            · rw [hacc2] at h
              exact Or.inl h
            · right
              exact List.mem_cons_of_mem _ h
          cases hu : d.uri with
          | none => exact ⟨hfst, hsnd⟩
          | some uri =>
            dsimp only
            cases hr : d.range.isNone with
            | false =>
              rw [if_neg Bool.false_ne_true]
              exact ⟨hfst, hsnd⟩
            | true =>
              rw [if_pos rfl]
              refine ⟨hfst, ?_⟩
              intro e he
              rcases mem_setEntry_sub he with h | h
              · exact hsnd e h
              · right
                rw [h]
                exact List.mem_cons_self _ _
      show (∀ e ∈ (visitList cs (visitItem c acc)).1, _) ∧ _
      have hrest := ih cs hszcs (visitItem c acc)
      constructor
      · intro e he
        rcases hrest.1 e he with h | h
        · rcases (hItem acc).1 e h with h' | h'
          · exact Or.inl h'
          · right
            rw [show deepList (c :: cs) = deepItem c ++ deepList cs from rfl]
            exact List.mem_append_left _ h'
        · right
          rw [show deepList (c :: cs) = deepItem c ++ deepList cs from rfl]
          exact List.mem_append_right _ h
      · intro e he
        rcases hrest.2 e he with h | h
        · rcases (hItem acc).2 e h with h' | h'
          · exact Or.inl h'
          · right
            rw [show deepList (c :: cs) = deepItem c ++ deepList cs from rfl]
            exact List.mem_append_left _ h'
        · right
          rw [show deepList (c :: cs) = deepItem c ++ deepList cs from rfl]
          exact List.mem_append_right _ h

/-- C5: deletion completeness.  If the logical id `X` is absent from the
(new-pass) logical forest, then after the differ runs no presentation node
anywhere in the tree carries the generation-tagged id of `X`, and after
`_indexTree` reindexes the single flat root neither `testItemForTest` nor
`testItemForFile` can return such a node.  `GenOK` states that the starting
presentation tree is generation-coherent, which holds for every tree the
pass itself produced. -/
theorem claim_C5_deletion_completeness (gen : String) (us : List TreeItem) (cs : List TestItem)
    (X : String) (p rid uri : String) (s' : TreeState)
    (hnd : NodupIds cs) (hok : GenOK gen cs) (hX : X ∉ uDeepIds us)
    (hrid : rid ≠ idWithGeneration gen X)
    (hci : s'.controllerItems = syncChildren gen us cs)
    (hri : s'.rootItems = [(p, RootEntry.flat rid uri)]) :
    (∀ x ∈ deepList (syncChildren gen us cs), x.id ≠ idWithGeneration gen X) ∧
    (∀ tid x, testItemForTest (indexTree s') tid = some x → x.id ≠ idWithGeneration gen X) ∧
    (∀ f x, testItemForFile (indexTree s') f = some x → x.id ≠ idWithGeneration gen X) := by
  have htree : ∀ x ∈ deepList (syncChildren gen us cs), x.id ≠ idWithGeneration gen X :=
    fun x hx => syncChildren_deep_avoid gen (sizeOf us) us (Nat.le_refl _) cs hnd hok X hX x hx
  obtain ⟨root, hrootEq⟩ : ∃ r, TestItem.mk
      { id := rid, label := "<root>", uri := some uri, range := Option.none, tags := [],
        canResolveChildren := false, sortText := Option.none, description := Option.none,
        error := Option.none, backref := .none } s'.controllerItems = r := ⟨_, rfl⟩
  have hrootId : root.id = rid := by
    rw [← hrootEq]
    rfl
  have hrootCh : root.children = s'.controllerItems := by
    rw [← hrootEq]
    rfl
  have hacc1 : (indexTree s').testItemByTestId = (visitItem root ([], [])).1 := by
    unfold indexTree
    dsimp only
    rw [hri, ← hrootEq]
    rfl
  have hacc2 : (indexTree s').testItemByFile = (visitItem root ([], [])).2 := by
    unfold indexTree
    dsimp only
    rw [hri, ← hrootEq]
    rfl
  have hvals := visitList_values (sizeOf [root]) [root] (Nat.le_refl _) ([], [])
  have hfromRoot : ∀ x : TestItem, x = root ∨ x ∈ deepList root.children →
      x.id ≠ idWithGeneration gen X := by
    intro x hx hxid
    rcases hx with rfl | hdeep
    · rw [hrootId] at hxid
      exact hrid hxid
    · rw [hrootCh, hci] at hdeep
      exact htree x hdeep hxid
  have hsplit : ∀ x : TestItem, x ∈ deepList [root] →
      x = root ∨ x ∈ deepList root.children := by
    intro x hx
    rcases mem_deepList.1 hx with ⟨c, hc, hxc⟩
    rw [List.mem_singleton] at hc
    subst hc
    rw [deepItem_eq] at hxc
    exact List.mem_cons.1 hxc
  refine ⟨htree, ?_, ?_⟩
  · intro tid x hx
    unfold testItemForTest at hx
    rw [hacc1] at hx
    have hmem := mem_of_lookupEntry_eq_some hx
    rcases (hvals.1 (tid, x) hmem) with h | h
    · cases h
    · exact hfromRoot x (hsplit x h)
  · intro f x hx
    unfold testItemForFile at hx
    rw [hacc2] at hx
    have hmem := mem_of_lookupEntry_eq_some hx
    rcases (hvals.2 (f, x) hmem) with h | h
    · cases h
    · exact hfromRoot x (hsplit x h)

/-- C5, applied: a foreign child kept by the differ cannot carry the
generation-tagged id of the absent logical id `t`. -/
theorem claim_C5_witness :
    (createTestItem "o" "" Option.none).id ≠ idWithGeneration "g:" "t" := by
  have hs : syncChildren "g:" [] [createTestItem "o" "" Option.none] =
      [createTestItem "o" "" Option.none] := by
    rw [syncChildren_eq "g:" [] [createTestItem "o" "" Option.none] (by simp)]
    rfl
  apply (claim_C5_deletion_completeness "g:" [] [createTestItem "o" "" Option.none] "t"
    "p" "r" "u" ⟨"g:", syncChildren "g:" [] [createTestItem "o" "" Option.none],
      [("p", RootEntry.flat "r" "u")], [], []⟩
    (NodupIds.mk _ (by simp) (fun c hc => by
      rw [List.mem_singleton] at hc
      subst hc
      exact NodupIds.mk [] (by simp) (by simp)))
    (GenOK.mk _ (fun c hc hpre => absurd hpre (by
      rw [List.mem_singleton] at hc
      subst hc
      decide))
      (fun c hc hpre x hx => absurd hx (by
        rw [List.mem_singleton] at hc
        subst hc
        exact List.not_mem_nil x)))
    (by simp [uDeepIds]) (by decide) rfl rfl).1
  rw [hs]
  show createTestItem "o" "" Option.none ∈
    deepItem (createTestItem "o" "" Option.none) ++ deepList []
  apply List.mem_append_left
  rw [deepItem_eq]
  exact List.mem_cons_self _ _
